import Mathlib

/-!
# redigo over QUIC: RESP writer, RESP reader and the pipelining connection

A shallow embedding of `redis/writer.go`, `redis/reader.go` and
`redis/quic_conn.go`.

Conventions of the embedding

* A Go `byte` is a `Nat` (its value, below 256); a Go `string` or `[]byte` is the
  list of its bytes.  `'\r'` is 13, `'\n'` is 10, `'$'` is 36, `'*'` is 42,
  `'+'` is 43, `'-'` is 45, `':'` is 58, `'0'` is 48.
* A Go `int` is an `Int`.  Lengths of Go values are below `2 ^ 63`; theorems that
  depend on it say so through `GoLen`.
* A Go function returning `(v, err)` returns the pair `(v, err)` with
  `err : Option GoError` (`none` is `nil`), followed by the state it leaves behind.
* The QUIC stream and session are external.  Their answers are part of the state
  (`Stream`): what the coming deadline and close calls answer, how many more bytes
  the stream accepts, and a record of the calls made.
-/

set_option linter.unusedVariables false

namespace Redigo

abbrev Bytes := List Nat

/-- The bytes of an ASCII string literal. -/
def ascii (s : String) : Bytes := s.toList.map Char.toNat

/-! ## Errors and values -/

/-- Go `error` values met by the connection.  `protocolError` and `Error` are
the two string types of the package (`Error` is a server error reply),
`errorsNew` is a value built by `errors.New`, `EOF`, `ErrUnexpectedEOF` and
`ErrShortWrite` are the `io` sentinels and `transport` is any error value
returned by the QUIC stream or session. -/
inductive GoError where
  | protocolError (msg : String)
  | Error (msg : Bytes)
  | errorsNew (msg : String)
  | EOF
  | ErrUnexpectedEOF
  | ErrShortWrite
  | transport (code : Nat)
  deriving DecidableEq, Repr

/-- A command argument, a Go `interface{}` seen through the type switch of
`writeArg`.  A `float64` is carried as the text `strconv.AppendFloat(_, x, 'g',
-1, 64)` gives for it, a value of a type outside the switch as the text
`fmt.Fprint` gives for it, and a value with the `Argument` capability as the
value its `RedisArg()` returns together with the text `fmt.Fprint` gives for
it: the formatting itself belongs to the Go library. -/
inductive Arg where
  | string (s : Bytes)
  | bytes (p : Bytes)
  | int (n : Int)
  | int64 (n : Int)
  | float64 (text : Bytes)
  | bool (b : Bool)
  | nil
  | Argument (RedisArg : Arg) (printed : Bytes)
  | other (printed : Bytes)
  deriving Repr

/-- A decoded reply, a Go `interface{}` as `readReply` builds it: `nil`,
a `string` (status line), an `Error`, an `int64`, a `[]byte` or a
`[]interface{}`. -/
inductive Reply where
  | nil
  | string (s : Bytes)
  | Error (msg : Bytes)
  | int64 (n : Int)
  | bytes (p : Bytes)
  | array (xs : List Reply)
  deriving Repr

/-! ## Decimal text -/

/-- The decimal digits of `n`, most significant first, with `fuel` bounding the
number of digits. -/
def decimalFuel : Nat → Nat → Bytes
  | 0, _ => []
  | fuel + 1, n => if n < 10 then [48 + n] else decimalFuel fuel (n / 10) ++ [48 + n % 10]

/-- The decimal text of a natural number: no leading zero, `"0"` for 0. -/
def decimal (n : Nat) : Bytes := decimalFuel (n + 1) n

/-- The text `strconv.AppendInt(_, n, 10)` appends: the decimal text with a
leading `-` for a negative number. -/
def AppendInt (n : Int) : Bytes :=
  if n < 0 then 45 :: decimal n.natAbs else decimal n.natAbs

/-- A Go length: a value of type `int` that is the `len` of something. -/
def GoLen (n : Nat) : Prop := n < 2 ^ 63

instance (n : Nat) : Decidable (GoLen n) := by unfold GoLen; infer_instance

/-- The largest value of the Go type `int` (64 bits): `2 ^ 63 - 1`. -/
def maxInt : Int := 9223372036854775807

/-- The value a Go `int` (64 bits, two's complement) holds after an operation
whose exact result is `x`: `x` itself from `-2 ^ 63` to `2 ^ 63 - 1`, wrapped
around outside. -/
def wrapInt (x : Int) : Int :=
  (x + 9223372036854775808) % 18446744073709551616 - 9223372036854775808

/-! ## The QUIC stream and session (external) -/

/-- A call made on the stream or the session.  `Write p` records the bytes the
stream accepted.  The deadline value and the close reason are not recorded. -/
inductive Call where
  | SetWriteDeadline
  | SetReadDeadline
  | Write (p : Bytes)
  | CloseWithError
  deriving DecidableEq, Repr

/-- The stream and its session.  `writeDeadlines`, `readDeadlines` and `closes`
hold the answers of the coming `SetWriteDeadline`, `SetReadDeadline` and
`CloseWithError` calls, first call first; a call past the end of its list
succeeds.  `writeLimit = some (k, e)` says that the stream accepts `k` more
bytes and then fails every write with `e`; `none` says that it accepts
everything.  `calls` is the record of the calls made, oldest first. -/
structure Stream where
  writeDeadlines : List (Option GoError)
  readDeadlines : List (Option GoError)
  closes : List (Option GoError)
  writeLimit : Option (Nat × GoError)
  calls : List Call
  deriving DecidableEq, Repr

/-- The answer of the next call and the answers left for the calls after it. -/
def nextAnswer (l : List (Option GoError)) : Option GoError × List (Option GoError) :=
  match l with
  | [] => (none, [])
  | r :: rest => (r, rest)

/-- The call `stream.SetWriteDeadline(t)`. -/
def Stream.SetWriteDeadline (s : Stream) : Option GoError × Stream :=
  ((nextAnswer s.writeDeadlines).1,
    { s with writeDeadlines := (nextAnswer s.writeDeadlines).2,
             calls := s.calls ++ [Call.SetWriteDeadline] })

/-- The call `stream.SetReadDeadline(t)`. -/
def Stream.SetReadDeadline (s : Stream) : Option GoError × Stream :=
  ((nextAnswer s.readDeadlines).1,
    { s with readDeadlines := (nextAnswer s.readDeadlines).2,
             calls := s.calls ++ [Call.SetReadDeadline] })

/-- The call `session.CloseWithError(0, reason)`. -/
def Stream.CloseWithError (s : Stream) : Option GoError × Stream :=
  ((nextAnswer s.closes).1,
    { s with closes := (nextAnswer s.closes).2,
             calls := s.calls ++ [Call.CloseWithError] })

/-- The call `stream.Write(p)`: the number of bytes accepted, the error, and the
stream afterwards. -/
def Stream.Write (s : Stream) (p : Bytes) : Nat × Option GoError × Stream :=
  match s.writeLimit with
  | none => (p.length, none, { s with calls := s.calls ++ [Call.Write p] })
  | some (k, e) =>
    if p.length ≤ k then
      (p.length, none,
        { s with writeLimit := some (k - p.length, e), calls := s.calls ++ [Call.Write p] })
    else
      (k, some e, { s with writeLimit := some (0, e), calls := s.calls ++ [Call.Write (p.take k)] })

/-- All the bytes the stream has accepted so far, in order. -/
def sentBytes : List Call → Bytes
  | [] => []
  | Call.Write p :: rest => p ++ sentBytes rest
  | _ :: rest => sentBytes rest

/-! ## `bufio.Writer` (Go library) -/

/-- The size of the buffer of `bufio.NewWriter`. -/
def defaultBufSize : Nat := 4096

/-- A `bufio.Writer` of the default size: the bytes buffered and not yet
written, and the sticky error. -/
structure BufioWriter where
  buf : Bytes
  err : Option GoError
  deriving DecidableEq, Repr

/-- The method `Available`: the room left in the buffer. -/
def BufioWriter.Available (b : BufioWriter) : Nat := defaultBufSize - b.buf.length

/-- The method `Flush` of `bufio.Writer`. -/
def BufioWriter.Flush (b : BufioWriter) (s : Stream) : Option GoError × BufioWriter × Stream :=
  if b.err ≠ none then (b.err, b, s)
  else if b.buf.length = 0 then (none, b, s)
  else
    match s.Write b.buf with
    | (n, err, s1) =>
      let err := if n < b.buf.length ∧ err = none then some GoError.ErrShortWrite else err
      match err with
      | some e => (some e, { buf := b.buf.drop n, err := some e }, s1)
      | none => (none, { b with buf := [] }, s1)

/-- The loop of the method `Write` of `bufio.Writer`, run for at most `fuel`
passes: while `p` does not fit and no error is set, either write `p` straight
to the stream (empty buffer) or fill the buffer and flush it.  Returns what is
left of `p`. -/
def BufioWriter.writeLoop : Nat → BufioWriter → Stream → Bytes → Bytes × BufioWriter × Stream
  | 0, b, s, p => (p, b, s)
  | fuel + 1, b, s, p =>
    if p.length > b.Available ∧ b.err = none then
      if b.buf.length = 0 then
        match s.Write p with
        | (n, err, s1) => BufioWriter.writeLoop fuel { b with err := err } s1 (p.drop n)
      else
        let n := min b.Available p.length
        match BufioWriter.Flush { b with buf := b.buf ++ p.take n } s with
        | (_, b1, s1) => BufioWriter.writeLoop fuel b1 s1 (p.drop n)
    else (p, b, s)

/-- The method `Write` of `bufio.Writer`.  The loop runs at most twice (the
first pass empties the buffer, the second writes the rest straight to the
stream), see `writeLoop_two_passes`. -/
def BufioWriter.Write (b : BufioWriter) (s : Stream) (p : Bytes) :
    Option GoError × BufioWriter × Stream :=
  match BufioWriter.writeLoop 2 b s p with
  | (rest, b1, s1) =>
    if b1.err ≠ none then (b1.err, b1, s1)
    else (none, { b1 with buf := b1.buf ++ rest }, s1)

/-- The loop of the method `WriteString` of `bufio.Writer` over a stream that is
not an `io.StringWriter`: while `p` does not fit and no error is set, fill the
buffer and flush it. -/
def BufioWriter.writeStringLoop :
    Nat → BufioWriter → Stream → Bytes → Bytes × BufioWriter × Stream
  | 0, b, s, p => (p, b, s)
  | fuel + 1, b, s, p =>
    if p.length > b.Available ∧ b.err = none then
      let n := min b.Available p.length
      match BufioWriter.Flush { b with buf := b.buf ++ p.take n } s with
      | (_, b1, s1) => BufioWriter.writeStringLoop fuel b1 s1 (p.drop n)
    else (p, b, s)

/-- The method `WriteString` of `bufio.Writer`.  Every pass after the first
takes a full buffer off `p`, so `p.length + 2` passes are enough
(`WriteString_fuel`). -/
def BufioWriter.WriteString (b : BufioWriter) (s : Stream) (p : Bytes) :
    Option GoError × BufioWriter × Stream :=
  match BufioWriter.writeStringLoop (p.length + 2) b s p with
  | (rest, b1, s1) =>
    if b1.err ≠ none then (b1.err, b1, s1)
    else (none, { b1 with buf := b1.buf ++ rest }, s1)

/-! ## The writer (`redis/writer.go`) -/

/-- The struct `writer`: the buffered writer over the stream and the 32-byte
scratch space for lengths.  `numScratch` is only the destination of
`strconv.AppendInt` and `strconv.AppendFloat` and is left out. -/
structure writer where
  wr : BufioWriter
  lenScratch : Bytes
  deriving DecidableEq, Repr

/-- The function `newWriter`. -/
def newWriter : writer := { wr := { buf := [], err := none }, lenScratch := List.replicate 32 0 }

/-- The method `flush`. -/
def writer.flush (w : writer) (s : Stream) : Option GoError × writer × Stream :=
  match w.wr.Flush s with
  | (err, b, s1) => (err, { w with wr := b }, s1)

/-- The conversion `byte(x)` of an `int`. -/
def byte (x : Int) : Nat := (x % 256).toNat

/-- The digit loop of `writeLen`: store `'0' + n%10` at index `i`, step `i`
down, divide `n` by 10, stop when `n` is 0.  Returns the scratch space and the
index left for the first byte.  The argument `fuel` is the number of passes left;
a Go length has at most 19 digits, so the 30 passes `writeLen` allows are never
used up and the index stays positive (`writeLenLoop_nat`). -/
def writeLenLoop : Nat → Bytes → Int → Int → Bytes × Int
  | 0, scratch, i, _ => (scratch, i)
  | fuel + 1, scratch, i, n =>
    let scratch := scratch.set i.toNat (byte (48 + Int.tmod n 10))
    let i := i - 1
    let n := Int.tdiv n 10
    if n = 0 then (scratch, i) else writeLenLoop fuel scratch i n

/-- The method `writeLen`. -/
def writer.writeLen (w : writer) (s : Stream) (pfx : Nat) (n : Int) :
    Option GoError × writer × Stream :=
  let scratch := w.lenScratch.set (w.lenScratch.length - 1) 10
  let scratch := scratch.set (w.lenScratch.length - 2) 13
  match writeLenLoop (w.lenScratch.length - 2) scratch ((w.lenScratch.length : Int) - 3) n with
  | (scratch, i) =>
    let scratch := scratch.set i.toNat pfx
    match w.wr.Write s (scratch.drop i.toNat) with
    | (err, b, s1) => (err, { wr := b, lenScratch := scratch }, s1)

/-- The method `writeString`. -/
def writer.writeString (w : writer) (s : Stream) (str : Bytes) :
    Option GoError × writer × Stream :=
  match w.writeLen s 36 str.length with
  | (some err, w1, s1) => (some err, w1, s1)
  | (none, w1, s1) =>
    match w1.wr.WriteString s1 str with
    | (some err, b, s2) => (some err, { w1 with wr := b }, s2)
    | (none, b, s2) =>
      match b.WriteString s2 [13, 10] with
      | (err, b3, s3) => (err, { w1 with wr := b3 }, s3)

/-- The method `writeBytes`. -/
def writer.writeBytes (w : writer) (s : Stream) (p : Bytes) :
    Option GoError × writer × Stream :=
  match w.writeLen s 36 p.length with
  | (some err, w1, s1) => (some err, w1, s1)
  | (none, w1, s1) =>
    match w1.wr.Write s1 p with
    | (some err, b, s2) => (some err, { w1 with wr := b }, s2)
    | (none, b, s2) =>
      match b.WriteString s2 [13, 10] with
      | (err, b3, s3) => (err, { w1 with wr := b3 }, s3)

/-- The method `writeInt64`. -/
def writer.writeInt64 (w : writer) (s : Stream) (n : Int) : Option GoError × writer × Stream :=
  w.writeBytes s (AppendInt n)

/-- The method `writeFloat64`, on the text `strconv.AppendFloat` gives. -/
def writer.writeFloat64 (w : writer) (s : Stream) (text : Bytes) :
    Option GoError × writer × Stream :=
  w.writeBytes s text

/-- The method `writeArg`. -/
def writer.writeArg (w : writer) (s : Stream) : Arg → Bool → Option GoError × writer × Stream
  | Arg.string a, _ => w.writeString s a
  | Arg.bytes a, _ => w.writeBytes s a
  | Arg.int a, _ => w.writeInt64 s a
  | Arg.int64 a, _ => w.writeInt64 s a
  | Arg.float64 a, _ => w.writeFloat64 s a
  | Arg.bool a, _ => if a then w.writeString s [49] else w.writeString s [48]
  | Arg.nil, _ => w.writeString s []
  | Arg.Argument r printed, argumentTypeOK =>
    if argumentTypeOK then writer.writeArg w s r false
    else w.writeBytes s printed
  | Arg.other printed, _ => w.writeBytes s printed

/-- The loop `for _, arg := range args` of `writeCommand`. -/
def writer.writeArgs (w : writer) (s : Stream) : List Arg → Option GoError × writer × Stream
  | [] => (none, w, s)
  | arg :: rest =>
    match w.writeArg s arg true with
    | (some err, w1, s1) => (some err, w1, s1)
    | (none, w1, s1) => writer.writeArgs w1 s1 rest

/-- The method `writeCommand`. -/
def writer.writeCommand (w : writer) (s : Stream) (cmd : Bytes) (args : List Arg) :
    Option GoError × writer × Stream :=
  match w.writeLen s 42 (1 + args.length) with
  | (some err, w1, s1) => (some err, w1, s1)
  | (none, w1, s1) =>
    match w1.writeString s1 cmd with
    | (some err, w2, s2) => (some err, w2, s2)
    | (none, w2, s2) => w2.writeArgs s2 args

/-! ## The reader (`redis/reader.go`) -/

/-- The `bufio.Reader` over the stream, seen from the reader: `data` are the
bytes the stream still delivers, in order, and `err` is the error its read
fails with once they are used up (`io.EOF` at the end of the stream, a timeout,
a closed session). -/
structure BufioReader where
  data : Bytes
  err : GoError
  deriving DecidableEq, Repr

/-- The struct `reader`. -/
structure reader where
  rd : BufioReader
  deriving DecidableEq, Repr

/-- Split `data` after its first `'\n'`: the bytes up to and including it, and
the rest; `none` when `data` holds no `'\n'`. -/
def splitLine : Bytes → Option (Bytes × Bytes)
  | [] => none
  | b :: rest =>
    if b = 10 then some ([b], rest)
    else
      match splitLine rest with
      | none => none
      | some (line, rest1) => some (b :: line, rest1)

/-- The method `ReadSlice('\n')` of `bufio.Reader`, repeated while it answers
`ErrBufferFull` as lines 24 to 33 of `readLine` do: the bytes up to and
including the first `'\n'`, or the read error when the data ends before one. -/
def BufioReader.ReadSlice (r : BufioReader) : Bytes × Option GoError × BufioReader :=
  match splitLine r.data with
  | none => (r.data, some r.err, { r with data := [] })
  | some (line, rest) => (line, none, { r with data := rest })

/-- The call `io.ReadFull(r.rd, p)` with `len(p) = n`: exactly `n` bytes, or an
error when the data ends before (`io.ErrUnexpectedEOF` for `io.EOF` after at
least one byte). -/
def BufioReader.ReadFull (r : BufioReader) (n : Nat) : Bytes × Option GoError × BufioReader :=
  if n ≤ r.data.length then (r.data.take n, none, { r with data := r.data.drop n })
  else
    (r.data,
      some (if 0 < r.data.length ∧ r.err = GoError.EOF then GoError.ErrUnexpectedEOF else r.err),
      { r with data := [] })

/-- The method `readLine`. -/
def reader.readLine (r : reader) : Bytes × Option GoError × reader :=
  match r.rd.ReadSlice with
  | (_, some err, rd) => ([], some err, { rd := rd })
  | (p, none, rd) =>
    let i : Int := (p.length : Int) - 2
    if i < 0 ∨ p.getD i.toNat 0 ≠ 13 then
      ([], some (GoError.protocolError "bad response line terminator"), { rd := rd })
    else (p.take i.toNat, none, { rd := rd })

/-- The value of a run of decimal digits, `none` when the run is empty or holds
a byte that is not a digit. -/
def parseDigits : Bytes → Option Nat
  | [] => none
  | p => p.foldl (fun acc b => acc.bind (fun n => if 48 ≤ b ∧ b ≤ 57 then some (n * 10 + (b - 48)) else none))
      (some 0)

/-- The value of a base-10 signed integer: an optional `-` and at least one
digit. -/
def parseSigned : Bytes → Option Int
  | 45 :: p =>
    match parseDigits p with
    | some n => some (-(n : Int))
    | none => none
  | p =>
    match parseDigits p with
    | some n => some (n : Int)
    | none => none

/-- Modelled from the spec: `parseLen` is not in the source files.  The
remainder of a `$` or `*` line is the declared length, a signed base-10
number; a length that does not parse fails with a ProtocolError.  The spec
names no message for the failure and no bound on the number. -/
def parseLen (p : Bytes) : Int × Option GoError :=
  match parseSigned p with
  | some n => (n, none)
  | none => (-1, some (GoError.protocolError "malformed length"))

/-- Modelled from the spec: `parseInt` is not in the source files.  The
remainder of a `:` line is parsed as a base-10 signed integer; malformed digits
fail with a ProtocolError. -/
def parseInt (p : Bytes) : Reply × Option GoError :=
  match parseSigned p with
  | some n => (Reply.int64 n, none)
  | none => (Reply.int64 0, some (GoError.protocolError "malformed integer"))

/-- Modelled from the spec: `okReply` is not in the source files; it is the
recognised literal for the status `OK`, a simple string like any other. -/
def okReply : Reply := Reply.string [79, 75]

/-- Modelled from the spec: `pongReply` is not in the source files; it is the
recognised literal for the status `PONG`, a simple string like any other. -/
def pongReply : Reply := Reply.string [80, 79, 78, 71]

mutual
/-- The method `readReply`, with `fuel` bounding the nesting of calls. -/
def readReplyFuel : Nat → reader → Reply × Option GoError × reader
  | 0, r => (Reply.nil, some (GoError.protocolError "out of fuel"), r)
  | fuel + 1, r =>
    match r.readLine with
    | (_, some err, r1) => (Reply.nil, some err, r1)
    | (line, none, r1) =>
      if line.length = 0 then
        (Reply.nil, some (GoError.protocolError "short response line"), r1)
      else
        match line with
        | [] => (Reply.nil, some (GoError.protocolError "short response line"), r1)
        | c :: tail =>
          if c = 43 then
            if tail = [79, 75] then (okReply, none, r1)
            else if tail = [80, 79, 78, 71] then (pongReply, none, r1)
            else (Reply.string tail, none, r1)
          else if c = 45 then (Reply.Error tail, none, r1)
          else if c = 58 then ((parseInt tail).1, (parseInt tail).2, r1)
          else if c = 36 then
            match parseLen tail with
            | (n, err) =>
              if n < 0 ∨ err ≠ none then (Reply.nil, err, r1)
              else
                match r1.rd.ReadFull n.toNat with
                | (_, some err, rd2) => (Reply.nil, some err, { rd := rd2 })
                | (p, none, rd2) =>
                  match reader.readLine { rd := rd2 } with
                  | (_, some err, r3) => (Reply.nil, some err, r3)
                  | (line2, none, r3) =>
                    if line2.length ≠ 0 then
                      (Reply.nil, some (GoError.protocolError "bad bulk string format"), r3)
                    else (Reply.bytes p, none, r3)
          else if c = 42 then
            match parseLen tail with
            | (n, err) =>
              if n < 0 ∨ err ≠ none then (Reply.nil, err, r1)
              else
                match readElemsFuel fuel n.toNat r1 with
                | (_, some err, r2) => (Reply.nil, some err, r2)
                | (x, none, r2) => (Reply.array x, none, r2)
          else (Reply.nil, some (GoError.protocolError "unexpected response line"), r1)
/-- The loop `for i := range x` of `readReply`: read `n` replies in order, stop
at the first failure. -/
def readElemsFuel : Nat → Nat → reader → List Reply × Option GoError × reader
  | _, 0, r => ([], none, r)
  | 0, _ + 1, r => ([], some (GoError.protocolError "out of fuel"), r)
  | fuel + 1, n + 1, r =>
    match readReplyFuel fuel r with
    | (_, some err, r1) => ([], some err, r1)
    | (x, none, r1) =>
      match readElemsFuel fuel n r1 with
      | (_, some err, r2) => ([], some err, r2)
      | (xs, none, r2) => (x :: xs, none, r2)
end

/-- The method `readReply`.  Every call that succeeds takes at least two bytes
off the data, so a fuel of the data length plus one is never used up
(`readReplyFuel_enough`). -/
def reader.readReply (r : reader) : Reply × Option GoError × reader :=
  readReplyFuel (r.rd.data.length + 1) r

/-! ## The connection (`redis/quic_conn.go`) -/

/-- The struct `quicConn`.  The fields `session` and `stream` are the one
`stream`; the mutex is left out, the calls of one connection being taken one
after the other.  `pending` is a Go `int`: the addition of `Send` wraps around
(`wrapInt`).  The timeouts are durations in nanoseconds. -/
structure quicConn where
  pending : Int
  err : Option GoError
  stream : Stream
  readTimeout : Int
  br : reader
  writeTimeout : Int
  bw : writer
  deriving DecidableEq, Repr

/-- The method `Close`. -/
def quicConn.Close (c : quicConn) : Option GoError × quicConn :=
  if c.err = none then
    match c.stream.CloseWithError with
    | (err, s1) => (err, { c with err := some (GoError.errorsNew "redigo: closed"), stream := s1 })
  else (c.err, c)

/-- The method `fatal`. -/
def quicConn.fatal (c : quicConn) (err : GoError) : GoError × quicConn :=
  if c.err = none then
    (err, { c with err := some err, stream := c.stream.CloseWithError.2 })
  else (err, c)

/-- The method `Err`. -/
def quicConn.Err (c : quicConn) : Option GoError := c.err

/-- The error and the state `return c.fatal(err)` leaves. -/
def quicConn.failWith (c : quicConn) (err : GoError) : Option GoError × quicConn :=
  (some (c.fatal err).1, (c.fatal err).2)

/-- The reply, the error and the state `return nil, c.fatal(err)` leaves. -/
def quicConn.failNil (c : quicConn) (err : GoError) : Reply × Option GoError × quicConn :=
  (Reply.nil, some (c.fatal err).1, (c.fatal err).2)

/-- The method `Send`. -/
def quicConn.Send (c : quicConn) (cmd : Bytes) (args : List Arg) : Option GoError × quicConn :=
  let c := { c with pending := wrapInt (c.pending + 1) }
  match (if c.writeTimeout ≠ 0 then c.stream.SetWriteDeadline else (none, c.stream)) with
  | (some err, s1) => quicConn.failWith { c with stream := s1 } err
  | (none, s1) =>
    match c.bw.writeCommand s1 cmd args with
    | (some err, w2, s2) => quicConn.failWith { c with bw := w2, stream := s2 } err
    | (none, w2, s2) => (none, { c with bw := w2, stream := s2 })

/-- The method `Flush`. -/
def quicConn.Flush (c : quicConn) : Option GoError × quicConn :=
  match (if c.writeTimeout ≠ 0 then c.stream.SetWriteDeadline else (none, c.stream)) with
  | (some err, s1) => quicConn.failWith { c with stream := s1 } err
  | (none, s1) =>
    match c.bw.flush s1 with
    | (some err, w2, s2) => quicConn.failWith { c with bw := w2, stream := s2 } err
    | (none, w2, s2) => (none, { c with bw := w2, stream := s2 })

/-- The method `ReceiveWithTimeout`. -/
def quicConn.ReceiveWithTimeout (c : quicConn) (timeout : Int) :
    Reply × Option GoError × quicConn :=
  match c.stream.SetReadDeadline with
  | (some err, s1) => quicConn.failNil { c with stream := s1 } err
  | (none, s1) =>
    match c.br.readReply with
    | (_, some err, r2) => quicConn.failNil { c with stream := s1, br := r2 } err
    | (reply, none, r2) =>
      let c := { c with stream := s1, br := r2 }
      let c := if c.pending > 0 then { c with pending := c.pending - 1 } else c
      match reply with
      | Reply.Error msg => (Reply.nil, some (GoError.Error msg), c)
      | _ => (reply, none, c)

/-- The method `Receive`. -/
def quicConn.Receive (c : quicConn) : Reply × Option GoError × quicConn :=
  c.ReceiveWithTimeout c.readTimeout

/-- The loop of `DoWithTimeout` for an empty command: read `n` more replies
after those of `acc`, stop at the first read that fails. -/
def quicConn.doReadAll : Nat → quicConn → List Reply → Reply × Option GoError × quicConn
  | 0, c, acc => (Reply.array acc, none, c)
  | n + 1, c, acc =>
    match c.br.readReply with
    | (_, some e, r1) => quicConn.failNil { c with br := r1 } e
    | (r, none, r1) => quicConn.doReadAll n { c with br := r1 } (acc ++ [r])

/-- The loop of `DoWithTimeout` for a command: read `n` more replies, keep the
last reply read in `reply` and the first `Error` reply in `err`. -/
def quicConn.doReadLast :
    Nat → quicConn → Reply → Option GoError → Reply × Option GoError × quicConn
  | 0, c, reply, err => (reply, err, c)
  | n + 1, c, _, err =>
    match c.br.readReply with
    | (_, some e, r1) => quicConn.failNil { c with br := r1 } e
    | (reply, none, r1) =>
      let err :=
        match reply, err with
        | Reply.Error msg, none => some (GoError.Error msg)
        | _, _ => err
      quicConn.doReadLast n { c with br := r1 } reply err

/-- The method `DoWithTimeout`.  The two loops run `pending` and `pending + 1`
times; `pending` is not negative on a connection that `Send`, `Receive` and
`Do` have brought about, and `toNat` reads it as a count. -/
def quicConn.DoWithTimeout (c : quicConn) (readTimeout : Int) (cmd : Bytes) (args : List Arg) :
    Reply × Option GoError × quicConn :=
  let pending := c.pending
  let c := { c with pending := 0 }
  if cmd = [] ∧ pending = 0 then (Reply.nil, none, c)
  else
    match (if c.writeTimeout ≠ 0 then c.stream.SetWriteDeadline else (none, c.stream)) with
    | (some err, s1) => quicConn.failNil { c with stream := s1 } err
    | (none, s1) =>
      match (if cmd ≠ [] then c.bw.writeCommand s1 cmd args else (none, c.bw, s1)) with
      | (some err, w2, s2) => quicConn.failNil { c with bw := w2, stream := s2 } err
      | (none, w2, s2) =>
        match w2.flush s2 with
        | (some err, w3, s3) => quicConn.failNil { c with bw := w3, stream := s3 } err
        | (none, w3, s3) =>
          match s3.SetReadDeadline with
          | (some err, s4) => quicConn.failNil { c with bw := w3, stream := s4 } err
          | (none, s4) =>
            let c := { c with bw := w3, stream := s4 }
            if cmd = [] then quicConn.doReadAll pending.toNat c []
            else quicConn.doReadLast (pending + 1).toNat c Reply.nil none

/-- The method `Do`. -/
def quicConn.Do (c : quicConn) (cmd : Bytes) (args : List Arg) :
    Reply × Option GoError × quicConn :=
  c.DoWithTimeout c.readTimeout cmd args

/-- The struct `dialOptions`, with the fields `DialContextQ` reads (its
declaration is not in the source files). -/
structure dialOptions where
  readTimeout : Int
  writeTimeout : Int
  username : Bytes
  password : Bytes
  clientName : Bytes
  db : Int
  deriving DecidableEq, Repr

/-- The struct `DialOption`: a function that edits the options (its declaration
is not in the source files). -/
structure DialOption where
  f : dialOptions → dialOptions

/-- How a call of `DialContextQ` ends: it returns a connection or nil and an
error or nil, or it panics.  `stream` is the stream as the call leaves it. -/
inductive DialOutcome where
  | returned (conn : Option quicConn) (err : Option GoError) (stream : Stream)
  | panicked (stream : Stream)
  deriving DecidableEq, Repr

/-- The two statements `session.CloseWithError(0, c.err.Error()); return nil,
err` of `DialContextQ`: calling `Error()` on a nil `c.err` panics. -/
def quicConn.closeAndReturn (c : quicConn) (err : GoError) : DialOutcome :=
  match c.err with
  | none => DialOutcome.panicked c.stream
  | some _ => DialOutcome.returned none (some err) c.stream.CloseWithError.2

/-- The function `DialContextQ`.  `dialErr` and `openErr` are the errors of
`quic.DialAddr` and `session.OpenStream` (`none` when they succeed), `stream` is
the stream they give and `rd` what the server sends on it. -/
def DialContextQ (dialErr openErr : Option GoError) (stream : Stream) (rd : BufioReader)
    (options : List DialOption) : DialOutcome :=
  let opts := options.foldl (fun o option => option.f o)
    ({ readTimeout := 0, writeTimeout := 0, username := [], password := [], clientName := [],
       db := 0 } : dialOptions)
  match dialErr with
  | some err => DialOutcome.returned none (some err) stream
  | none =>
    match openErr with
    | some err => DialOutcome.returned none (some err) stream
    | none =>
      let c : quicConn :=
        { pending := 0, err := none, stream := stream, bw := newWriter, br := { rd := rd },
          readTimeout := opts.readTimeout, writeTimeout := opts.writeTimeout }
      match
        (if opts.password ≠ [] then
          c.Do (ascii "AUTH")
            ((if opts.username ≠ [] then [Arg.string opts.username] else []) ++
              [Arg.string opts.password])
        else (Reply.nil, none, c)) with
      | (_, some err, c1) => c1.closeAndReturn err
      | (_, none, c1) =>
        match
          (if opts.clientName ≠ [] then
            c1.Do (ascii "CLIENT") [Arg.string (ascii "SETNAME"), Arg.string opts.clientName]
          else (Reply.nil, none, c1)) with
        | (_, some err, c2) => c2.closeAndReturn err
        | (_, none, c2) =>
          match
            (if opts.db ≠ 0 then c2.Do (ascii "SELECT") [Arg.int opts.db]
            else (Reply.nil, none, c2)) with
          | (_, some err, c3) => c3.closeAndReturn err
          | (_, none, c3) => DialOutcome.returned (some c3) none c3.stream

/-- A stream on which nothing has happened yet and that accepts everything. -/
def freshStream : Stream :=
  { writeDeadlines := [], readDeadlines := [], closes := [], writeLimit := none, calls := [] }

/-- A reader over the given bytes followed by the end of the stream. -/
def readerOf (data : Bytes) : reader := { rd := { data := data, err := GoError.EOF } }

/-- A connection as `DialContextQ` builds it without options, over a fresh
stream that delivers `data`. -/
def freshConn (data : Bytes) : quicConn :=
  { pending := 0, err := none, stream := freshStream, readTimeout := 0, br := readerOf data,
    writeTimeout := 0, bw := newWriter }

/-! ## Vocabulary of the statements -/

/-- The bytes handed to the buffered writer and not lost: those the stream has
accepted, followed by those still in the buffer. -/
def pushed (b : BufioWriter) (s : Stream) : Bytes := sentBytes s.calls ++ b.buf

/-- The number of `CloseWithError` calls in a record of calls. -/
def closeCount : List Call → Nat
  | [] => 0
  | Call.CloseWithError :: rest => closeCount rest + 1
  | _ :: rest => closeCount rest

/-- The stream `s1` answers the coming deadline and close calls as `s` does, and
the session has been closed as many times in `s1` as in `s`. -/
def Stream.sameAnswers (s s1 : Stream) : Prop :=
  s1.writeDeadlines = s.writeDeadlines ∧ s1.readDeadlines = s.readDeadlines ∧
    s1.closes = s.closes ∧ closeCount s1.calls = closeCount s.calls

/-- The step from `(b, s)` to the result `r` keeps the answers of the stream,
returns the sticky error it leaves, and succeeds on a stream that accepts
everything when no sticky error was set. -/
def Accepts (b : BufioWriter) (s : Stream) (r : Option GoError × BufioWriter × Stream) : Prop :=
  s.sameAnswers r.2.2 ∧ r.2.1.err = r.1 ∧
    (b.err = none → s.writeLimit = none → r.1 = none ∧ r.2.2.writeLimit = none)

/-- The step from `(b, s)` to the result `r`, when it returns no error, has
handed exactly the bytes `bs` to the buffered writer. -/
def Appends (b : BufioWriter) (s : Stream) (r : Option GoError × BufioWriter × Stream)
    (bs : Bytes) : Prop :=
  r.1 = none → pushed r.2.1 r.2.2 = pushed b s ++ bs

/-- The result of a writer method, seen at the buffered writer. -/
def atWr (r : Option GoError × writer × Stream) : Option GoError × BufioWriter × Stream :=
  (r.1, r.2.1.wr, r.2.2)

/-- The bytes `writeLen` writes for a length: the first byte, the decimal text,
`"\\r\\n"`. -/
def lenLine (pfx : Nat) (n : Nat) : Bytes := pfx :: decimal n ++ [13, 10]

/-- The bulk string of `p`: `"$" + decimal(len) + "\\r\\n" + p + "\\r\\n"`. -/
def bulk (p : Bytes) : Bytes := lenLine 36 p.length ++ p ++ [13, 10]

/-- The bytes `writeArg` encodes an argument as, before the bulk framing. -/
def argBytes : Arg → Bool → Bytes
  | Arg.string s, _ => s
  | Arg.bytes p, _ => p
  | Arg.int n, _ => AppendInt n
  | Arg.int64 n, _ => AppendInt n
  | Arg.float64 text, _ => text
  | Arg.bool b, _ => if b then [49] else [48]
  | Arg.nil, _ => []
  | Arg.Argument r printed, argumentTypeOK => if argumentTypeOK then argBytes r false else printed
  | Arg.other printed, _ => printed

/-- The bulk strings of a list of byte strings, one after the other. -/
def bulks : List Bytes → Bytes
  | [] => []
  | p :: ps => bulk p ++ bulks ps

/-- The RESP frame of a command: `"*" + decimal(1+len(args)) + "\\r\\n"`, the
name as a bulk string, each argument as a bulk string. -/
def commandFrame (cmd : Bytes) (args : List Arg) : Bytes :=
  lenLine 42 (1 + args.length) ++ bulks (cmd :: args.map (fun a => argBytes a true))

/-- The lengths `writeCommand` passes to `writeLen` are Go lengths. -/
def GoCommand (cmd : Bytes) (args : List Arg) : Prop :=
  GoLen (1 + args.length) ∧ GoLen cmd.length ∧ ∀ a ∈ args, GoLen (argBytes a true).length

/-- The argument is of one of the types the round trip is stated for: a
string, a byte slice, an integer, a float, a boolean or nil. -/
def Arg.primitive : Arg → Prop
  | Arg.Argument _ _ => False
  | Arg.other _ => False
  | _ => True

instance (a : Arg) : Decidable a.primitive := by
  cases a <;> unfold Arg.primitive <;> infer_instance

/-- The byte form of a primitive argument: the string's bytes, the raw bytes,
the decimal text of the integer, the text of the float, `"1"` or `"0"` for a
boolean, the empty byte string for nil. -/
def byteForm : Arg → Bytes
  | Arg.string s => s
  | Arg.bytes p => p
  | Arg.int n => AppendInt n
  | Arg.int64 n => AppendInt n
  | Arg.float64 text => text
  | Arg.bool true => [49]
  | Arg.bool false => [48]
  | _ => []

instance (cmd : Bytes) (args : List Arg) : Decidable (GoCommand cmd args) := by
  unfold GoCommand; infer_instance

/-- The terminal error `e` is still set in `c1` and the session has been closed
as many times as in `c`. -/
def Kept (e : GoError) (c c1 : quicConn) : Prop :=
  c1.err = some e ∧ closeCount c1.stream.calls = closeCount c.stream.calls

/-- A connection that has been closed: `freshConn []` after `Close`. -/
def closedConn : quicConn := (freshConn []).Close.2

/-- The dial option that sets the password. -/
def DialPassword (password : Bytes) : DialOption :=
  { f := fun o => { o with password := password } }

/-- The outcome of `n` successive `readReply` calls: the replies read, in order,
up to the first call that fails, the error of that call (`none` when all `n`
succeed) and the reader afterwards. -/
def readReplies : Nat → reader → List Reply × Option GoError × reader
  | 0, r => ([], none, r)
  | n + 1, r =>
    match r.readReply with
    | (_, some e, r1) => ([], some e, r1)
    | (x, none, r1) =>
      match readReplies n r1 with
      | (xs, err, r2) => (x :: xs, err, r2)

/-- The first server error reply of a list of replies, as an error. -/
def firstError : List Reply → Option GoError
  | [] => none
  | Reply.Error msg :: _ => some (GoError.Error msg)
  | _ :: rest => firstError rest

/-- The first step of `DoWithTimeout` (lines 199 to 203): the write deadline,
set when a write timeout is configured. -/
def quicConn.afterWriteDeadline (c : quicConn) : Option GoError × Stream :=
  if c.writeTimeout ≠ 0 then c.stream.SetWriteDeadline else (none, c.stream)

/-- The second step of `DoWithTimeout` (lines 205 to 209): the command, written
when it is not empty. -/
def quicConn.afterWrite (c : quicConn) (cmd : Bytes) (args : List Arg) :
    Option GoError × writer × Stream :=
  if cmd ≠ [] then c.bw.writeCommand c.afterWriteDeadline.2 cmd args
  else (none, c.bw, c.afterWriteDeadline.2)

/-- The third step of `DoWithTimeout` (lines 211 to 213): the flush. -/
def quicConn.afterFlush (c : quicConn) (cmd : Bytes) (args : List Arg) :
    Option GoError × writer × Stream :=
  (c.afterWrite cmd args).2.1.flush (c.afterWrite cmd args).2.2

/-- The fourth step of `DoWithTimeout` (lines 215 to 221): the read deadline. -/
def quicConn.afterReadDeadline (c : quicConn) (cmd : Bytes) (args : List Arg) :
    Option GoError × Stream :=
  (c.afterFlush cmd args).2.2.SetReadDeadline

/-- The four steps of `DoWithTimeout` before its reads all return nil: the
command is written and flushed and both deadlines are set. -/
def quicConn.sendsOk (c : quicConn) (cmd : Bytes) (args : List Arg) : Prop :=
  c.afterWriteDeadline.1 = none ∧ (c.afterWrite cmd args).1 = none ∧
    (c.afterFlush cmd args).1 = none ∧ (c.afterReadDeadline cmd args).1 = none

/-- The connection as `DoWithTimeout` has it when its reads start. -/
def quicConn.beforeReads (c : quicConn) (cmd : Bytes) (args : List Arg) : quicConn :=
  { c with pending := 0, bw := (c.afterFlush cmd args).2.1,
           stream := (c.afterReadDeadline cmd args).2 }

/-- A call on the connection, for statements about sequences of calls. -/
inductive ConnOp where
  | Send (cmd : Bytes) (args : List Arg)
  | Flush
  | Receive
  | Do (cmd : Bytes) (args : List Arg)
  | Close

/-- The connection after one call. -/
def quicConn.after (c : quicConn) : ConnOp → quicConn
  | ConnOp.Send cmd args => (c.Send cmd args).2
  | ConnOp.Flush => c.Flush.2
  | ConnOp.Receive => c.Receive.2.2
  | ConnOp.Do cmd args => (c.Do cmd args).2.2
  | ConnOp.Close => c.Close.2

/-- The connection after a sequence of calls, first call first. -/
def quicConn.afterAll (c : quicConn) : List ConnOp → quicConn
  | [] => c
  | op :: ops => quicConn.afterAll (c.after op) ops

/-- A `Receive` on `c` reads a reply: setting the read deadline returns nil and
`readReply` decodes a value (a server error reply included). -/
def quicConn.readsReply (c : quicConn) : Prop :=
  c.stream.SetReadDeadline.1 = none ∧ c.br.readReply.2.1 = none

instance (c : quicConn) : Decidable c.readsReply := by
  unfold quicConn.readsReply; exact inferInstance

/-- Each of `n` successive `Receive` calls from `c` reads a reply. -/
def quicConn.receivesRead : Nat → quicConn → Prop
  | 0, _ => True
  | n + 1, c => c.readsReply ∧ quicConn.receivesRead n c.Receive.2.2

/-- The calls `Send(cmd, args...)` for a list of commands with their arguments. -/
def sendOps (sends : List (Bytes × List Arg)) : List ConnOp :=
  sends.map (fun p => ConnOp.Send p.1 p.2)

/-- `n` calls of `Receive`. -/
def receiveOps (n : Nat) : List ConnOp :=
  List.replicate n ConnOp.Receive

instance quicConn.decReceivesRead : (n : Nat) → (c : quicConn) → Decidable (c.receivesRead n)
  | 0, _ => isTrue trivial
  | n + 1, c =>
    match (inferInstance : Decidable c.readsReply), quicConn.decReceivesRead n c.Receive.2.2 with
    | isTrue h1, isTrue h2 => isTrue ⟨h1, h2⟩
    | isFalse h1, _ => isFalse (fun h => h1 h.1)
    | _, isFalse h2 => isFalse (fun h => h2 h.2)

/-- The stores of the digit loop of `writeLen`, in the order of its passes: the
index written and the byte put there (`writeLenLoop_stores` ties this list to
`writeLenLoop`). -/
def writeLenStores : Nat → Int → Int → List (Int × Nat)
  | 0, _, _ => []
  | fuel + 1, i, n =>
    (i, byte (48 + Int.tmod n 10)) ::
      (if Int.tdiv n 10 = 0 then [] else writeLenStores fuel (i - 1) (Int.tdiv n 10))

/-- The method `writeArg` with a count: the result of the call and the number of
`RedisArg()` calls made during it.  The body is the type switch of `writeArg`;
`writeArg_custom_argument` shows that the first component is `writer.writeArg`. -/
def writer.writeArgCounted (w : writer) (s : Stream) :
    Arg → Bool → (Option GoError × writer × Stream) × Nat
  | Arg.string a, _ => (w.writeString s a, 0)
  | Arg.bytes a, _ => (w.writeBytes s a, 0)
  | Arg.int a, _ => (w.writeInt64 s a, 0)
  | Arg.int64 a, _ => (w.writeInt64 s a, 0)
  | Arg.float64 a, _ => (w.writeFloat64 s a, 0)
  | Arg.bool a, _ => (if a then w.writeString s [49] else w.writeString s [48], 0)
  | Arg.nil, _ => (w.writeString s [], 0)
  | Arg.Argument r printed, argumentTypeOK =>
    if argumentTypeOK then
      ((writer.writeArgCounted w s r false).1, (writer.writeArgCounted w s r false).2 + 1)
    else (w.writeBytes s printed, 0)
  | Arg.other printed, _ => (w.writeBytes s printed, 0)

/-- The step from `(b, s)` to the result `r`, when it returns no error and the
buffer held at most its capacity, leaves at most the capacity in the buffer;
and when the bytes `bs` fit in the room left, it has only put them after the
bytes already buffered, with the stream as it was. -/
def Buffers (b : BufioWriter) (s : Stream) (r : Option GoError × BufioWriter × Stream)
    (bs : Bytes) : Prop :=
  r.1 = none → b.buf.length ≤ defaultBufSize →
    r.2.1.buf.length ≤ defaultBufSize ∧
    (b.buf.length + bs.length ≤ defaultBufSize → r.2.2 = s ∧ r.2.1.buf = b.buf ++ bs)

mutual
/-- The RESP frame of a reply value: `"+" + s + "\\r\\n"`, `"-" + m + "\\r\\n"`,
`":" + n + "\\r\\n"`, a bulk string, `"$-1\\r\\n"` for "no data", and
`"*" + count + "\\r\\n"` followed by the frames of the elements. -/
def Reply.frame : Reply → Bytes
  | Reply.nil => [36, 45, 49, 13, 10]
  | Reply.string s => 43 :: s ++ [13, 10]
  | Reply.Error m => 45 :: m ++ [13, 10]
  | Reply.int64 n => 58 :: AppendInt n ++ [13, 10]
  | Reply.bytes p => bulk p
  | Reply.array xs => lenLine 42 xs.length ++ frames xs
/-- The frames of a list of reply values, one after the other. -/
def frames : List Reply → Bytes
  | [] => []
  | x :: xs => x.frame ++ frames xs
end

mutual
/-- The reply value is well formed: a simple string or an error message holds
no `'\n'`, every element of an array is well formed; an integer is not among
the values the statement is about. -/
def Reply.wellFormed : Reply → Bool
  | Reply.nil => true
  | Reply.string s => decide ((10 : Nat) ∉ s)
  | Reply.Error m => decide ((10 : Nat) ∉ m)
  | Reply.int64 _ => false
  | Reply.bytes _ => true
  | Reply.array xs => allWellFormed xs
/-- Every value of the list is well formed. -/
def allWellFormed : List Reply → Bool
  | [] => true
  | x :: xs => x.wellFormed && allWellFormed xs
end

/-- The value the frame of a command decodes to: the array of the name and of
the byte forms of the arguments, as bulk strings. -/
def commandReply (cmd : Bytes) (args : List Arg) : Reply :=
  Reply.array ((cmd :: args.map (fun a => argBytes a true)).map Reply.bytes)

/-- The frames of a list of commands, one after the other, as pipelined `Send`
calls followed by a `Flush` put them on the stream. -/
def sendFrames : List (Bytes × List Arg) → Bytes
  | [] => []
  | c :: cs => commandFrame c.1 c.2 ++ sendFrames cs

/-- The number of `Send` calls in a sequence of calls. -/
def sendCount : List ConnOp → Nat
  | [] => 0
  | ConnOp.Send _ _ :: ops => sendCount ops + 1
  | _ :: ops => sendCount ops

/-! # Lemmas and theorems -/

/-! ## Decimal text: lemmas -/

theorem decimalFuel_eq : ∀ (f g n : Nat), n < f → n < g → decimalFuel f n = decimalFuel g n := by
  intro f
  induction f with
  | zero => intro g n h; omega
  | succ f ih =>
    intro g n hf hg
    cases g with
    | zero => omega
    | succ g =>
      simp only [decimalFuel]
      by_cases h : n < 10
      · simp [h]
      · simp only [h, if_false]
        rw [ih g (n / 10) (by omega) (by omega)]

theorem decimal_lt_ten {n : Nat} (h : n < 10) : decimal n = [48 + n] := by
  simp [decimal, decimalFuel, h]

theorem decimal_ge_ten {n : Nat} (h : 10 ≤ n) : decimal n = decimal (n / 10) ++ [48 + n % 10] := by
  have h1 : ¬ n < 10 := by omega
  show decimalFuel (n + 1) n = decimalFuel (n / 10 + 1) (n / 10) ++ [48 + n % 10]
  rw [decimalFuel, if_neg h1, decimalFuel_eq n (n / 10 + 1) (n / 10) (by omega) (by omega)]

/-- Every byte of a decimal text is a digit. -/
theorem decimal_digits (n : Nat) : ∀ b ∈ decimal n, 48 ≤ b ∧ b ≤ 57 := by
  induction n using Nat.strong_induction_on with
  | _ n ih =>
    by_cases h : n < 10
    · rw [decimal_lt_ten h]; intro b hb; simp at hb; omega
    · rw [decimal_ge_ten (by omega)]
      intro b hb
      rcases List.mem_append.mp hb with hb | hb
      · exact ih (n / 10) (by omega) b hb
      · simp at hb; omega

theorem decimal_ne_nil (n : Nat) : decimal n ≠ [] := by
  by_cases h : n < 10
  · rw [decimal_lt_ten h]; simp
  · rw [decimal_ge_ten (by omega)]; simp

/-- A number below `10 ^ m` has at most `m` digits. -/
theorem decimal_length_le : ∀ (m n : Nat), 0 < m → n < 10 ^ m → (decimal n).length ≤ m := by
  intro m
  induction m with
  | zero => intro n h; omega
  | succ m ih =>
    intro n _ hn
    by_cases h : n < 10
    · rw [decimal_lt_ten h]; simp
    · rw [decimal_ge_ten (by omega)]
      have hm : 0 < m := by
        rcases Nat.eq_zero_or_pos m with h0 | h0
        · subst h0; simp at hn; omega
        · exact h0
      have : n / 10 < 10 ^ m := by
        rw [Nat.div_lt_iff_lt_mul (by norm_num)]
        rw [pow_succ] at hn; exact hn
      have := ih (n / 10) hm this
      simp; omega

theorem decimal_length_GoLen {n : Nat} (h : GoLen n) : (decimal n).length ≤ 19 := by
  apply decimal_length_le 19 n (by norm_num)
  unfold GoLen at h
  have : (2 : Nat) ^ 63 < 10 ^ 19 := by norm_num
  omega

theorem parseDigits_foldl_none (p : Bytes) :
    p.foldl (fun acc b => acc.bind (fun n => if 48 ≤ b ∧ b ≤ 57 then some (n * 10 + (b - 48)) else none))
      (none : Option Nat) = none := by
  induction p with
  | nil => rfl
  | cons b p ih => simpa using ih

theorem parseDigits_decimal_aux (n : Nat) : ∀ (a : Nat),
    (decimal n).foldl
      (fun acc b => acc.bind (fun n => if 48 ≤ b ∧ b ≤ 57 then some (n * 10 + (b - 48)) else none))
      (some a) = some (a * 10 ^ (decimal n).length + n) := by
  induction n using Nat.strong_induction_on with
  | _ n ih =>
    intro a
    by_cases h : n < 10
    · rw [decimal_lt_ten h]
      simp
      omega
    · rw [decimal_ge_ten (by omega), List.foldl_append, ih (n / 10) (by omega) a]
      simp [pow_succ]
      have := Nat.div_add_mod n 10
      ring_nf
      omega

theorem parseDigits_decimal (n : Nat) : parseDigits (decimal n) = some n := by
  have h := parseDigits_decimal_aux n 0
  have hne := decimal_ne_nil n
  unfold parseDigits
  split
  · rename_i heq; exact absurd heq hne
  · simpa using h

theorem parseSigned_decimal (n : Nat) : parseSigned (decimal n) = some (n : Int) := by
  have hd := decimal_digits n
  unfold parseSigned
  split
  · rename_i p heq
    have := hd 45 (by rw [heq]; simp)
    omega
  · simp [parseDigits_decimal]

theorem parseLen_decimal (n : Nat) : parseLen (decimal n) = ((n : Int), none) := by
  simp [parseLen, parseSigned_decimal]

/-! ## `writeLen`: lemmas -/

theorem tmod_ten (k : Nat) : Int.tmod (k : Int) 10 = ((k % 10 : Nat) : Int) := by
  rw [Int.ofNat_tmod]; rfl

theorem byte_digit (k : Nat) : byte (48 + Int.tmod (k : Int) 10) = 48 + k % 10 := by
  rw [tmod_ten]
  unfold byte
  omega

theorem tdiv_ten (k : Nat) : Int.tdiv (k : Int) 10 = ((k / 10 : Nat) : Int) := by
  rw [Int.ofNat_tdiv]; rfl

theorem drop_set_self (l : Bytes) (i : Nat) (x : Nat) (h : i < l.length) :
    (l.set i x).drop i = x :: l.drop (i + 1) := by
  rw [List.drop_set, if_neg (by omega), List.drop_eq_getElem_cons h, Nat.sub_self,
    List.set_cons_zero]

/-- The digit loop on a natural number with enough passes and enough room:
it leaves the index `i` minus the number of digits, keeps the length of the
scratch space, and puts the decimal text right after the index it returns. -/
theorem writeLenLoop_nat (k : Nat) : ∀ (fuel i : Nat) (scratch : Bytes),
    (decimal k).length ≤ fuel → (decimal k).length ≤ i + 1 → i < scratch.length →
    (writeLenLoop fuel scratch i k).2 = (i : Int) - (decimal k).length ∧
    (writeLenLoop fuel scratch i k).1.length = scratch.length ∧
    (writeLenLoop fuel scratch i k).1.drop (i + 1 - (decimal k).length) =
      decimal k ++ scratch.drop (i + 1) := by
  induction k using Nat.strong_induction_on with
  | _ k ih =>
    intro fuel i scratch hf hi hs
    have hne := decimal_ne_nil k
    have hpos : 0 < (decimal k).length := List.length_pos.mpr hne
    cases fuel with
    | zero => omega
    | succ fuel =>
      by_cases h : k < 10
      · have hd : ((k / 10 : Nat) : Int) = 0 := by
          have : k / 10 = 0 := by omega
          simp [this]
        have hm : k % 10 = k := Nat.mod_eq_of_lt h
        simp only [writeLenLoop, tdiv_ten, hd, if_true, byte_digit, Int.toNat_ofNat, hm]
        rw [decimal_lt_ten h]
        refine ⟨by simp, by simp, ?_⟩
        simp
        exact drop_set_self scratch i _ hs
      · have hd : ¬ ((k / 10 : Nat) : Int) = 0 := by
          have : k / 10 ≠ 0 := by omega
          exact_mod_cast this
        have hdec := decimal_ge_ten (show 10 ≤ k by omega)
        have hlen : (decimal k).length = (decimal (k / 10)).length + 1 := by rw [hdec]; simp
        have hpos2 : 0 < (decimal (k / 10)).length := List.length_pos.mpr (decimal_ne_nil _)
        simp only [writeLenLoop, tdiv_ten, hd, if_false, byte_digit, Int.toNat_ofNat]
        have hi1 : ((i : Int) - 1) = ((i - 1 : Nat) : Int) := by omega
        rw [hi1]
        have := ih (k / 10) (by omega) fuel (i - 1) (scratch.set i (48 + k % 10))
          (by omega) (by omega) (by simp; omega)
        obtain ⟨h1, h2, h3⟩ := this
        refine ⟨by rw [h1]; omega, by rw [h2]; simp, ?_⟩
        have e1 : i + 1 - (decimal k).length = i - 1 + 1 - (decimal (k / 10)).length := by omega
        rw [e1, h3, hdec]
        have e2 : i - 1 + 1 = i := by omega
        rw [e2, drop_set_self scratch i _ hs]
        simp

/-! ## `bufio.Writer`: lemmas -/

theorem sentBytes_append (l1 l2 : List Call) :
    sentBytes (l1 ++ l2) = sentBytes l1 ++ sentBytes l2 := by
  induction l1 with
  | nil => simp [sentBytes]
  | cons c l1 ih => cases c <;> simp [sentBytes, ih]

theorem closeCount_append (l1 l2 : List Call) :
    closeCount (l1 ++ l2) = closeCount l1 + closeCount l2 := by
  induction l1 with
  | nil => simp [closeCount]
  | cons c l1 ih =>
    cases c
    case CloseWithError => simp [closeCount, ih]; omega
    all_goals simp [closeCount, ih]

theorem sameAnswers_refl (s : Stream) : s.sameAnswers s := ⟨rfl, rfl, rfl, rfl⟩

theorem sameAnswers_trans {s s1 s2 : Stream} (h1 : s.sameAnswers s1) (h2 : s1.sameAnswers s2) :
    s.sameAnswers s2 := by
  obtain ⟨a1, a2, a3, a4⟩ := h1
  obtain ⟨b1, b2, b3, b4⟩ := h2
  exact ⟨b1.trans a1, b2.trans a2, b3.trans a3, b4.trans a4⟩

theorem Stream_Write_sameAnswers (s : Stream) (p : Bytes) : s.sameAnswers (s.Write p).2.2 := by
  unfold Stream.Write
  split
  · exact ⟨rfl, rfl, rfl, by simp [closeCount_append, closeCount]⟩
  · split <;> exact ⟨rfl, rfl, rfl, by simp [closeCount_append, closeCount]⟩

theorem Stream_Write_ok (s : Stream) (p : Bytes) (h : (s.Write p).2.1 = none) :
    (s.Write p).1 = p.length ∧ sentBytes (s.Write p).2.2.calls = sentBytes s.calls ++ p := by
  unfold Stream.Write at h ⊢
  split
  · simp [sentBytes_append, sentBytes]
  · split
    · simp [sentBytes_append, sentBytes]
    · rename_i k e heq hlt
      simp [heq, hlt] at h

theorem Stream_Write_unlimited (s : Stream) (p : Bytes) (h : s.writeLimit = none) :
    s.Write p = (p.length, none, { s with calls := s.calls ++ [Call.Write p] }) := by
  simp [Stream.Write, h]

theorem Flush_err (b : BufioWriter) (s : Stream) : (b.Flush s).2.1.err = (b.Flush s).1 := by
  unfold BufioWriter.Flush
  by_cases h1 : b.err ≠ none
  · simp [h1]
  · simp only [h1, if_false]
    have hb : b.err = none := by simpa using h1
    by_cases h2 : b.buf.length = 0
    · simp [h2, hb]
    · simp only [h2, if_false]
      split <;> simp_all

theorem Flush_sameAnswers (b : BufioWriter) (s : Stream) : s.sameAnswers (b.Flush s).2.2 := by
  unfold BufioWriter.Flush
  by_cases h1 : b.err ≠ none
  · simp [h1, sameAnswers_refl]
  · simp only [h1, if_false]
    by_cases h2 : b.buf.length = 0
    · simp [h2, sameAnswers_refl]
    · simp only [h2, if_false]
      have := Stream_Write_sameAnswers s b.buf
      split <;> simpa using this

/-- A flush that returns no error has handed the whole buffer to the stream. -/
theorem Flush_ok (b : BufioWriter) (s : Stream) (h : (b.Flush s).1 = none) :
    b.err = none ∧ (b.Flush s).2.1.buf = [] ∧
      sentBytes (b.Flush s).2.2.calls = sentBytes s.calls ++ b.buf := by
  unfold BufioWriter.Flush at h ⊢
  by_cases h1 : b.err ≠ none
  · simp [h1] at h
  · have hb : b.err = none := by simpa using h1
    simp only [h1, if_false] at h ⊢
    by_cases h2 : b.buf.length = 0
    · have : b.buf = [] := List.length_eq_zero.mp h2
      simp [h2, hb, this]
    · simp only [h2, if_false] at h ⊢
      have hok := Stream_Write_ok s b.buf
      rcases hw : s.Write b.buf with ⟨n, err, s1⟩
      rw [hw] at hok
      rw [hw] at h
      cases err with
      | some e => simp at h
      | none =>
        have := hok rfl
        simp at this
        have hn : ¬ n < b.buf.length := by omega
        simp [hn, hb, this.2]

/-- On a stream that accepts everything a flush with no sticky error succeeds. -/
theorem Flush_unlimited (b : BufioWriter) (s : Stream) (hb : b.err = none)
    (hs : s.writeLimit = none) :
    (b.Flush s).1 = none ∧ (b.Flush s).2.2.writeLimit = none := by
  unfold BufioWriter.Flush
  by_cases h2 : b.buf.length = 0
  · simp [hb, h2, hs]
  · simp [hb, h2, Stream_Write_unlimited s _ hs, hs]

/-- One pass "fill the buffer and flush it" of the two write loops. -/
theorem fillFlush_spec (b : BufioWriter) (s : Stream) (p : Bytes) (n : Nat) :
    s.sameAnswers (BufioWriter.Flush { b with buf := b.buf ++ p.take n } s).2.2 ∧
    ((BufioWriter.Flush { b with buf := b.buf ++ p.take n } s).2.1.err = none →
      b.err = none ∧
      pushed (BufioWriter.Flush { b with buf := b.buf ++ p.take n } s).2.1
          (BufioWriter.Flush { b with buf := b.buf ++ p.take n } s).2.2 ++ p.drop n =
        pushed b s ++ p) ∧
    (b.err = none → s.writeLimit = none →
      (BufioWriter.Flush { b with buf := b.buf ++ p.take n } s).2.1.err = none ∧
      (BufioWriter.Flush { b with buf := b.buf ++ p.take n } s).2.2.writeLimit = none) := by
  refine ⟨Flush_sameAnswers _ _, ?_, ?_⟩
  · intro h
    rw [Flush_err] at h
    obtain ⟨h1, h2, h3⟩ := Flush_ok _ _ h
    refine ⟨h1, ?_⟩
    simp only [pushed, h2, h3]
    simp [List.append_assoc]
  · intro hb hs
    rw [Flush_err]
    exact Flush_unlimited _ _ hb hs

theorem writeStringLoop_spec : ∀ (fuel : Nat) (b : BufioWriter) (s : Stream) (p : Bytes),
    s.sameAnswers (BufioWriter.writeStringLoop fuel b s p).2.2 ∧
    ((BufioWriter.writeStringLoop fuel b s p).2.1.err = none →
      b.err = none ∧
      pushed (BufioWriter.writeStringLoop fuel b s p).2.1
          (BufioWriter.writeStringLoop fuel b s p).2.2 ++
          (BufioWriter.writeStringLoop fuel b s p).1 = pushed b s ++ p) ∧
    (b.err = none → s.writeLimit = none →
      (BufioWriter.writeStringLoop fuel b s p).2.1.err = none ∧
      (BufioWriter.writeStringLoop fuel b s p).2.2.writeLimit = none) := by
  intro fuel
  induction fuel with
  | zero =>
    intro b s p
    rw [BufioWriter.writeStringLoop]
    exact ⟨sameAnswers_refl s, fun h => ⟨h, rfl⟩, fun hb hs => ⟨hb, hs⟩⟩
  | succ fuel ih =>
    intro b s p
    rw [BufioWriter.writeStringLoop]
    by_cases hc : p.length > b.Available ∧ b.err = none
    · rw [if_pos hc]
      obtain ⟨f1, f2, f3⟩ := fillFlush_spec b s p (min b.Available p.length)
      obtain ⟨i1, i2, i3⟩ :=
        ih (BufioWriter.Flush { b with buf := b.buf ++ p.take (min b.Available p.length) } s).2.1
          (BufioWriter.Flush { b with buf := b.buf ++ p.take (min b.Available p.length) } s).2.2
          (p.drop (min b.Available p.length))
      refine ⟨sameAnswers_trans f1 i1, ?_, ?_⟩
      · intro h
        obtain ⟨j1, j2⟩ := i2 h
        obtain ⟨k1, k2⟩ := f2 j1
        exact ⟨k1, by rw [j2, k2]⟩
      · intro hb hs
        obtain ⟨k1, k2⟩ := f3 hb hs
        exact i3 k1 k2
    · rw [if_neg hc]
      exact ⟨sameAnswers_refl s, fun h => ⟨h, rfl⟩, fun hb hs => ⟨hb, hs⟩⟩

theorem writeLoop_spec : ∀ (fuel : Nat) (b : BufioWriter) (s : Stream) (p : Bytes),
    s.sameAnswers (BufioWriter.writeLoop fuel b s p).2.2 ∧
    ((BufioWriter.writeLoop fuel b s p).2.1.err = none →
      b.err = none ∧
      pushed (BufioWriter.writeLoop fuel b s p).2.1
          (BufioWriter.writeLoop fuel b s p).2.2 ++
          (BufioWriter.writeLoop fuel b s p).1 = pushed b s ++ p) ∧
    (b.err = none → s.writeLimit = none →
      (BufioWriter.writeLoop fuel b s p).2.1.err = none ∧
      (BufioWriter.writeLoop fuel b s p).2.2.writeLimit = none) := by
  intro fuel
  induction fuel with
  | zero =>
    intro b s p
    rw [BufioWriter.writeLoop]
    exact ⟨sameAnswers_refl s, fun h => ⟨h, rfl⟩, fun hb hs => ⟨hb, hs⟩⟩
  | succ fuel ih =>
    intro b s p
    rw [BufioWriter.writeLoop]
    by_cases hc : p.length > b.Available ∧ b.err = none
    · rw [if_pos hc]
      by_cases he : b.buf.length = 0
      · rw [if_pos he]
        have hbuf : b.buf = [] := List.length_eq_zero.mp he
        have w1 := Stream_Write_sameAnswers s p
        have w2 := Stream_Write_ok s p
        have w3 := Stream_Write_unlimited s p
        obtain ⟨i1, i2, i3⟩ := ih { b with err := (s.Write p).2.1 } (s.Write p).2.2
          (p.drop (s.Write p).1)
        refine ⟨sameAnswers_trans w1 i1, ?_, ?_⟩
        · intro h
          obtain ⟨j1, j2⟩ := i2 h
          simp only at j1
          obtain ⟨k1, k2⟩ := w2 j1
          refine ⟨hc.2, ?_⟩
          rw [j2, k1]
          simp [pushed, k2, hbuf]
        · intro hb hs
          have := w3 hs
          apply i3
          · rw [this]
          · rw [this]; exact hs
      · rw [if_neg he]
        obtain ⟨f1, f2, f3⟩ := fillFlush_spec b s p (min b.Available p.length)
        obtain ⟨i1, i2, i3⟩ :=
          ih (BufioWriter.Flush { b with buf := b.buf ++ p.take (min b.Available p.length) } s).2.1
            (BufioWriter.Flush { b with buf := b.buf ++ p.take (min b.Available p.length) } s).2.2
            (p.drop (min b.Available p.length))
        refine ⟨sameAnswers_trans f1 i1, ?_, ?_⟩
        · intro h
          obtain ⟨j1, j2⟩ := i2 h
          obtain ⟨k1, k2⟩ := f2 j1
          exact ⟨k1, by rw [j2, k2]⟩
        · intro hb hs
          obtain ⟨k1, k2⟩ := f3 hb hs
          exact i3 k1 k2
    · rw [if_neg hc]
      exact ⟨sameAnswers_refl s, fun h => ⟨h, rfl⟩, fun hb hs => ⟨hb, hs⟩⟩

theorem Write_eq (b : BufioWriter) (s : Stream) (p : Bytes) :
    b.Write s p =
      if (BufioWriter.writeLoop 2 b s p).2.1.err ≠ none then
        ((BufioWriter.writeLoop 2 b s p).2.1.err, (BufioWriter.writeLoop 2 b s p).2.1,
          (BufioWriter.writeLoop 2 b s p).2.2)
      else
        (none,
          { (BufioWriter.writeLoop 2 b s p).2.1 with
            buf := (BufioWriter.writeLoop 2 b s p).2.1.buf ++ (BufioWriter.writeLoop 2 b s p).1 },
          (BufioWriter.writeLoop 2 b s p).2.2) := rfl

theorem WriteString_eq (b : BufioWriter) (s : Stream) (p : Bytes) :
    b.WriteString s p =
      if (BufioWriter.writeStringLoop (p.length + 2) b s p).2.1.err ≠ none then
        ((BufioWriter.writeStringLoop (p.length + 2) b s p).2.1.err,
          (BufioWriter.writeStringLoop (p.length + 2) b s p).2.1,
          (BufioWriter.writeStringLoop (p.length + 2) b s p).2.2)
      else
        (none,
          { (BufioWriter.writeStringLoop (p.length + 2) b s p).2.1 with
            buf := (BufioWriter.writeStringLoop (p.length + 2) b s p).2.1.buf ++
              (BufioWriter.writeStringLoop (p.length + 2) b s p).1 },
          (BufioWriter.writeStringLoop (p.length + 2) b s p).2.2) := rfl

theorem Write_accepts (b : BufioWriter) (s : Stream) (p : Bytes) : Accepts b s (b.Write s p) := by
  obtain ⟨l1, l2, l3⟩ := writeLoop_spec 2 b s p
  rw [Write_eq]
  by_cases h : (BufioWriter.writeLoop 2 b s p).2.1.err ≠ none
  · rw [if_pos h]
    refine ⟨l1, rfl, ?_⟩
    intro hb hs
    exact absurd (l3 hb hs).1 h
  · rw [if_neg h]
    have h0 : (BufioWriter.writeLoop 2 b s p).2.1.err = none := by simpa using h
    exact ⟨l1, h0, fun hb hs => ⟨rfl, (l3 hb hs).2⟩⟩

theorem Write_appends (b : BufioWriter) (s : Stream) (p : Bytes) : Appends b s (b.Write s p) p := by
  obtain ⟨l1, l2, l3⟩ := writeLoop_spec 2 b s p
  unfold Appends
  rw [Write_eq]
  by_cases h : (BufioWriter.writeLoop 2 b s p).2.1.err ≠ none
  · rw [if_pos h]
    intro h1
    exact absurd h1 h
  · rw [if_neg h]
    have h0 : (BufioWriter.writeLoop 2 b s p).2.1.err = none := by simpa using h
    intro _
    obtain ⟨j1, j2⟩ := l2 h0
    rw [← j2]
    simp [pushed, List.append_assoc]

theorem WriteString_accepts (b : BufioWriter) (s : Stream) (p : Bytes) :
    Accepts b s (b.WriteString s p) := by
  obtain ⟨l1, l2, l3⟩ := writeStringLoop_spec (p.length + 2) b s p
  rw [WriteString_eq]
  by_cases h : (BufioWriter.writeStringLoop (p.length + 2) b s p).2.1.err ≠ none
  · rw [if_pos h]
    refine ⟨l1, rfl, ?_⟩
    intro hb hs
    exact absurd (l3 hb hs).1 h
  · rw [if_neg h]
    have h0 : (BufioWriter.writeStringLoop (p.length + 2) b s p).2.1.err = none := by simpa using h
    exact ⟨l1, h0, fun hb hs => ⟨rfl, (l3 hb hs).2⟩⟩

theorem WriteString_appends (b : BufioWriter) (s : Stream) (p : Bytes) :
    Appends b s (b.WriteString s p) p := by
  obtain ⟨l1, l2, l3⟩ := writeStringLoop_spec (p.length + 2) b s p
  unfold Appends
  rw [WriteString_eq]
  by_cases h : (BufioWriter.writeStringLoop (p.length + 2) b s p).2.1.err ≠ none
  · rw [if_pos h]
    intro h1
    exact absurd h1 h
  · rw [if_neg h]
    have h0 : (BufioWriter.writeStringLoop (p.length + 2) b s p).2.1.err = none := by simpa using h
    intro _
    obtain ⟨j1, j2⟩ := l2 h0
    rw [← j2]
    simp [pushed, List.append_assoc]

theorem Flush_accepts (b : BufioWriter) (s : Stream) : Accepts b s (b.Flush s) :=
  ⟨Flush_sameAnswers b s, Flush_err b s, Flush_unlimited b s⟩

theorem Accepts_refl (b : BufioWriter) (s : Stream) (h : b.err = none) : Accepts b s (none, b, s) :=
  ⟨sameAnswers_refl s, h, fun _ hs => ⟨rfl, hs⟩⟩

/-- Two steps in a row, the second taken only when the first returns no error. -/
theorem Accepts_seq {b : BufioWriter} {s : Stream} {r1 r2 : Option GoError × BufioWriter × Stream}
    (h1 : Accepts b s r1) (h2 : Accepts r1.2.1 r1.2.2 r2) :
    Accepts b s (if r1.1 = none then r2 else r1) := by
  obtain ⟨a1, a2, a3⟩ := h1
  obtain ⟨b1, b2, b3⟩ := h2
  by_cases h : r1.1 = none
  · rw [if_pos h]
    refine ⟨sameAnswers_trans a1 b1, b2, ?_⟩
    intro hb hs
    obtain ⟨c1, c2⟩ := a3 hb hs
    exact b3 (a2.trans c1) c2
  · rw [if_neg h]
    refine ⟨a1, a2, ?_⟩
    intro hb hs
    exact absurd (a3 hb hs).1 h

theorem Appends_seq {b : BufioWriter} {s : Stream} {r1 r2 : Option GoError × BufioWriter × Stream}
    {bs1 bs2 : Bytes} (h1 : Appends b s r1 bs1) (h2 : r1.1 = none → Appends r1.2.1 r1.2.2 r2 bs2) :
    Appends b s (if r1.1 = none then r2 else r1) (bs1 ++ bs2) := by
  by_cases h : r1.1 = none
  · rw [if_pos h]
    intro hr
    rw [h2 h hr, h1 h, List.append_assoc]
  · rw [if_neg h]
    intro hr
    exact absurd hr h

/-! ## The writer: lemmas -/

theorem writeLen_eq (w : writer) (s : Stream) (pfx : Nat) (n : Int) :
    w.writeLen s pfx n =
      ((w.wr.Write s
          (((writeLenLoop (w.lenScratch.length - 2)
              ((w.lenScratch.set (w.lenScratch.length - 1) 10).set (w.lenScratch.length - 2) 13)
              ((w.lenScratch.length : Int) - 3) n).1.set
            (writeLenLoop (w.lenScratch.length - 2)
              ((w.lenScratch.set (w.lenScratch.length - 1) 10).set (w.lenScratch.length - 2) 13)
              ((w.lenScratch.length : Int) - 3) n).2.toNat pfx).drop
            (writeLenLoop (w.lenScratch.length - 2)
              ((w.lenScratch.set (w.lenScratch.length - 1) 10).set (w.lenScratch.length - 2) 13)
              ((w.lenScratch.length : Int) - 3) n).2.toNat)).1,
        { wr := (w.wr.Write s
          (((writeLenLoop (w.lenScratch.length - 2)
              ((w.lenScratch.set (w.lenScratch.length - 1) 10).set (w.lenScratch.length - 2) 13)
              ((w.lenScratch.length : Int) - 3) n).1.set
            (writeLenLoop (w.lenScratch.length - 2)
              ((w.lenScratch.set (w.lenScratch.length - 1) 10).set (w.lenScratch.length - 2) 13)
              ((w.lenScratch.length : Int) - 3) n).2.toNat pfx).drop
            (writeLenLoop (w.lenScratch.length - 2)
              ((w.lenScratch.set (w.lenScratch.length - 1) 10).set (w.lenScratch.length - 2) 13)
              ((w.lenScratch.length : Int) - 3) n).2.toNat)).2.1,
          lenScratch := (writeLenLoop (w.lenScratch.length - 2)
              ((w.lenScratch.set (w.lenScratch.length - 1) 10).set (w.lenScratch.length - 2) 13)
              ((w.lenScratch.length : Int) - 3) n).1.set
            (writeLenLoop (w.lenScratch.length - 2)
              ((w.lenScratch.set (w.lenScratch.length - 1) 10).set (w.lenScratch.length - 2) 13)
              ((w.lenScratch.length : Int) - 3) n).2.toNat pfx },
        (w.wr.Write s
          (((writeLenLoop (w.lenScratch.length - 2)
              ((w.lenScratch.set (w.lenScratch.length - 1) 10).set (w.lenScratch.length - 2) 13)
              ((w.lenScratch.length : Int) - 3) n).1.set
            (writeLenLoop (w.lenScratch.length - 2)
              ((w.lenScratch.set (w.lenScratch.length - 1) 10).set (w.lenScratch.length - 2) 13)
              ((w.lenScratch.length : Int) - 3) n).2.toNat pfx).drop
            (writeLenLoop (w.lenScratch.length - 2)
              ((w.lenScratch.set (w.lenScratch.length - 1) 10).set (w.lenScratch.length - 2) 13)
              ((w.lenScratch.length : Int) - 3) n).2.toNat)).2.2) := rfl

theorem writeLenLoop_length : ∀ (fuel : Nat) (scratch : Bytes) (i n : Int),
    (writeLenLoop fuel scratch i n).1.length = scratch.length := by
  intro fuel
  induction fuel with
  | zero => intro scratch i n; rfl
  | succ fuel ih =>
    intro scratch i n
    rw [writeLenLoop]
    split
    · simp
    · rw [ih]; simp

theorem writeLen_scratch (w : writer) (s : Stream) (pfx : Nat) (n : Int) :
    (w.writeLen s pfx n).2.1.lenScratch.length = w.lenScratch.length := by
  rw [writeLen_eq]
  simp [writeLenLoop_length]

theorem writeLen_accepts (w : writer) (s : Stream) (pfx : Nat) (n : Int) :
    Accepts w.wr s (atWr (w.writeLen s pfx n)) := by
  rw [writeLen_eq]
  exact Write_accepts _ _ _

/-- The bytes `writeLen` hands to the buffered writer for a Go length, from a
scratch space of 32 bytes. -/
theorem writeLen_appends (w : writer) (s : Stream) (pfx : Nat) (n : Nat)
    (hw : w.lenScratch.length = 32) (hn : GoLen n) :
    Appends w.wr s (atWr (w.writeLen s pfx (n : Int))) (lenLine pfx n) := by
  rw [writeLen_eq, hw]
  have hd := decimal_length_GoLen hn
  have hpos : 0 < (decimal n).length := List.length_pos.mpr (decimal_ne_nil n)
  obtain ⟨h1, h2, h3⟩ := writeLenLoop_nat n 30 29 ((w.lenScratch.set 31 10).set 30 13)
    (by omega) (by omega) (by simp; omega)
  have e3 : ((32 : Nat) : Int) - 3 = ((29 : Nat) : Int) := by norm_num
  have e1 : (32 : Nat) - 2 = 30 := rfl
  have e2 : (32 : Nat) - 1 = 31 := rfl
  rw [e1, e2, e3, h1]
  have et : ((29 : Nat) : Int) - ((decimal n).length : Int) = ((29 - (decimal n).length : Nat) : Int) := by
    omega
  rw [et, Int.toNat_ofNat]
  have hb : (((writeLenLoop 30 ((w.lenScratch.set 31 10).set 30 13) ((29 : Nat) : Int) n).1.set
      (29 - (decimal n).length) pfx).drop (29 - (decimal n).length)) = lenLine pfx n := by
    rw [drop_set_self _ _ _ (by rw [h2]; simp; omega)]
    have e4 : 29 - (decimal n).length + 1 = 29 + 1 - (decimal n).length := by omega
    rw [e4, h3]
    have e5 : ((w.lenScratch.set 31 10).set 30 13).drop (29 + 1) = [13, 10] := by
      have h30 : (30 : Nat) < ((w.lenScratch.set 31 10).set 30 13).length := by simp; omega
      have := drop_set_self (w.lenScratch.set 31 10) 30 13 (by simp; omega)
      rw [this]
      have := drop_set_self w.lenScratch 31 10 (by omega)
      rw [this]
      have : w.lenScratch.drop 32 = [] := List.drop_eq_nil_of_le (by omega)
      rw [this]
    rw [e5]
    rfl
  rw [hb]
  exact Write_appends _ _ _

theorem writeString_atWr (w : writer) (s : Stream) (str : Bytes) :
    atWr (w.writeString s str) =
      if (atWr (w.writeLen s 36 str.length)).1 = none then
        (if ((w.writeLen s 36 str.length).2.1.wr.WriteString
              (w.writeLen s 36 str.length).2.2 str).1 = none then
          ((w.writeLen s 36 str.length).2.1.wr.WriteString
              (w.writeLen s 36 str.length).2.2 str).2.1.WriteString
            ((w.writeLen s 36 str.length).2.1.wr.WriteString
              (w.writeLen s 36 str.length).2.2 str).2.2 [13, 10]
        else
          (w.writeLen s 36 str.length).2.1.wr.WriteString (w.writeLen s 36 str.length).2.2 str)
      else atWr (w.writeLen s 36 str.length) := by
  unfold writer.writeString
  rcases h1 : w.writeLen s 36 str.length with ⟨e1, w1, s1⟩
  cases e1 with
  | some e => simp [atWr]
  | none =>
    simp only [atWr, if_true]
    rcases h2 : w1.wr.WriteString s1 str with ⟨e2, b2, s2⟩
    cases e2 with
    | some e => simp
    | none => simp

theorem writeString_scratch (w : writer) (s : Stream) (str : Bytes) :
    (w.writeString s str).2.1.lenScratch.length = w.lenScratch.length := by
  have := writeLen_scratch w s 36 str.length
  unfold writer.writeString
  rcases h1 : w.writeLen s 36 str.length with ⟨e1, w1, s1⟩
  rw [h1] at this
  cases e1 with
  | some e => simpa using this
  | none =>
    simp only
    rcases h2 : w1.wr.WriteString s1 str with ⟨e2, b2, s2⟩
    cases e2 with
    | some e => simpa using this
    | none => simpa using this

theorem writeString_accepts (w : writer) (s : Stream) (str : Bytes) :
    Accepts w.wr s (atWr (w.writeString s str)) := by
  rw [writeString_atWr]
  exact Accepts_seq (writeLen_accepts w s 36 str.length)
    (Accepts_seq (WriteString_accepts _ _ _) (WriteString_accepts _ _ _))

theorem writeString_appends (w : writer) (s : Stream) (str : Bytes)
    (hw : w.lenScratch.length = 32) (hn : GoLen str.length) :
    Appends w.wr s (atWr (w.writeString s str)) (bulk str) := by
  rw [writeString_atWr]
  have := Appends_seq (writeLen_appends w s 36 str.length hw hn)
    (fun _ => Appends_seq (WriteString_appends (w.writeLen s 36 str.length).2.1.wr
      (w.writeLen s 36 str.length).2.2 str) (fun _ => WriteString_appends _ _ [13, 10]))
  simpa [bulk, List.append_assoc] using this

theorem writeBytes_atWr (w : writer) (s : Stream) (p : Bytes) :
    atWr (w.writeBytes s p) =
      if (atWr (w.writeLen s 36 p.length)).1 = none then
        (if ((w.writeLen s 36 p.length).2.1.wr.Write
              (w.writeLen s 36 p.length).2.2 p).1 = none then
          ((w.writeLen s 36 p.length).2.1.wr.Write
              (w.writeLen s 36 p.length).2.2 p).2.1.WriteString
            ((w.writeLen s 36 p.length).2.1.wr.Write
              (w.writeLen s 36 p.length).2.2 p).2.2 [13, 10]
        else
          (w.writeLen s 36 p.length).2.1.wr.Write (w.writeLen s 36 p.length).2.2 p)
      else atWr (w.writeLen s 36 p.length) := by
  unfold writer.writeBytes
  rcases h1 : w.writeLen s 36 p.length with ⟨e1, w1, s1⟩
  cases e1 with
  | some e => simp [atWr]
  | none =>
    simp only [atWr, if_true]
    rcases h2 : w1.wr.Write s1 p with ⟨e2, b2, s2⟩
    cases e2 with
    | some e => simp
    | none => simp

theorem writeBytes_scratch (w : writer) (s : Stream) (p : Bytes) :
    (w.writeBytes s p).2.1.lenScratch.length = w.lenScratch.length := by
  have := writeLen_scratch w s 36 p.length
  unfold writer.writeBytes
  rcases h1 : w.writeLen s 36 p.length with ⟨e1, w1, s1⟩
  rw [h1] at this
  cases e1 with
  | some e => simpa using this
  | none =>
    simp only
    rcases h2 : w1.wr.Write s1 p with ⟨e2, b2, s2⟩
    cases e2 with
    | some e => simpa using this
    | none => simpa using this

theorem writeBytes_accepts (w : writer) (s : Stream) (p : Bytes) :
    Accepts w.wr s (atWr (w.writeBytes s p)) := by
  rw [writeBytes_atWr]
  exact Accepts_seq (writeLen_accepts w s 36 p.length)
    (Accepts_seq (Write_accepts _ _ _) (WriteString_accepts _ _ _))

theorem writeBytes_appends (w : writer) (s : Stream) (p : Bytes)
    (hw : w.lenScratch.length = 32) (hn : GoLen p.length) :
    Appends w.wr s (atWr (w.writeBytes s p)) (bulk p) := by
  rw [writeBytes_atWr]
  have := Appends_seq (writeLen_appends w s 36 p.length hw hn)
    (fun _ => Appends_seq (Write_appends (w.writeLen s 36 p.length).2.1.wr
      (w.writeLen s 36 p.length).2.2 p) (fun _ => WriteString_appends _ _ [13, 10]))
  simpa [bulk, List.append_assoc] using this

theorem writeArg_false (w : writer) (s : Stream) (a : Arg) :
    w.writeArg s a false = w.writeBytes s (argBytes a false) ∨
      w.writeArg s a false = w.writeString s (argBytes a false) := by
  cases a with
  | bool b => cases b <;> simp [writer.writeArg, argBytes]
  | _ => simp [writer.writeArg, argBytes, writer.writeInt64, writer.writeFloat64]

theorem writeArg_bulk (w : writer) (s : Stream) (a : Arg) (ok : Bool) :
    w.writeArg s a ok = w.writeBytes s (argBytes a ok) ∨
      w.writeArg s a ok = w.writeString s (argBytes a ok) := by
  cases a with
  | bool b => cases b <;> simp [writer.writeArg, argBytes]
  | Argument r printed =>
    cases ok with
    | false => simp [writer.writeArg, argBytes]
    | true => simpa [writer.writeArg, argBytes] using writeArg_false w s r
  | _ => simp [writer.writeArg, argBytes, writer.writeInt64, writer.writeFloat64]

theorem writeArg_scratch (w : writer) (s : Stream) (a : Arg) (ok : Bool) :
    (w.writeArg s a ok).2.1.lenScratch.length = w.lenScratch.length := by
  rcases writeArg_bulk w s a ok with h | h <;> rw [h]
  · exact writeBytes_scratch _ _ _
  · exact writeString_scratch _ _ _

theorem writeArg_accepts (w : writer) (s : Stream) (a : Arg) (ok : Bool) :
    Accepts w.wr s (atWr (w.writeArg s a ok)) := by
  rcases writeArg_bulk w s a ok with h | h <;> rw [h]
  · exact writeBytes_accepts _ _ _
  · exact writeString_accepts _ _ _

theorem writeArg_appends (w : writer) (s : Stream) (a : Arg) (ok : Bool)
    (hw : w.lenScratch.length = 32) (hn : GoLen (argBytes a ok).length) :
    Appends w.wr s (atWr (w.writeArg s a ok)) (bulk (argBytes a ok)) := by
  rcases writeArg_bulk w s a ok with h | h <;> rw [h]
  · exact writeBytes_appends _ _ _ hw hn
  · exact writeString_appends _ _ _ hw hn

theorem writeArgs_atWr (w : writer) (s : Stream) (a : Arg) (rest : List Arg) :
    w.writeArgs s (a :: rest) =
      if (w.writeArg s a true).1 = none then
        (w.writeArg s a true).2.1.writeArgs (w.writeArg s a true).2.2 rest
      else w.writeArg s a true := by
  rw [writer.writeArgs]
  rcases h1 : w.writeArg s a true with ⟨e1, w1, s1⟩
  cases e1 <;> simp

theorem atWr_ite (c : Prop) [Decidable c] (r1 r2 : Option GoError × writer × Stream) :
    atWr (if c then r1 else r2) = if c then atWr r1 else atWr r2 := by
  split <;> rfl

theorem writeArgs_scratch : ∀ (args : List Arg) (w : writer) (s : Stream),
    (w.writeArgs s args).2.1.lenScratch.length = w.lenScratch.length := by
  intro args
  induction args with
  | nil => intro w s; rfl
  | cons a rest ih =>
    intro w s
    rw [writeArgs_atWr]
    split
    · rw [ih, writeArg_scratch]
    · exact writeArg_scratch _ _ _ _

theorem writeArgs_accepts : ∀ (args : List Arg) (w : writer) (s : Stream),
    w.wr.err = none → Accepts w.wr s (atWr (w.writeArgs s args)) := by
  intro args
  induction args with
  | nil => intro w s h; exact Accepts_refl _ _ h
  | cons a rest ih =>
    intro w s h
    rw [writeArgs_atWr, atWr_ite]
    by_cases h1 : (w.writeArg s a true).1 = none
    · have ha := writeArg_accepts w s a true
      have hb := ih (w.writeArg s a true).2.1 (w.writeArg s a true).2.2 (ha.2.1.trans h1)
      exact Accepts_seq ha hb
    · rw [if_neg h1]
      exact writeArg_accepts w s a true

theorem writeArgs_appends : ∀ (args : List Arg) (w : writer) (s : Stream),
    w.lenScratch.length = 32 → (∀ a ∈ args, GoLen (argBytes a true).length) →
    Appends w.wr s (atWr (w.writeArgs s args)) (bulks (args.map (fun a => argBytes a true))) := by
  intro args
  induction args with
  | nil =>
    intro w s _ _ h
    simp [writer.writeArgs, atWr, bulks]
  | cons a rest ih =>
    intro w s hw hn
    rw [writeArgs_atWr, atWr_ite]
    have ha := writeArg_appends w s a true hw (hn a (by simp))
    have := Appends_seq ha (fun _ => ih (w.writeArg s a true).2.1 (w.writeArg s a true).2.2
      (by rw [writeArg_scratch, hw]) (fun x hx => hn x (by simp [hx])))
    simpa [bulks] using this

theorem writeCommand_eq (w : writer) (s : Stream) (cmd : Bytes) (args : List Arg) :
    w.writeCommand s cmd args =
      if (w.writeLen s 42 ((1 + args.length : Nat) : Int)).1 = none then
        (if ((w.writeLen s 42 ((1 + args.length : Nat) : Int)).2.1.writeString
              (w.writeLen s 42 ((1 + args.length : Nat) : Int)).2.2 cmd).1 = none then
          ((w.writeLen s 42 ((1 + args.length : Nat) : Int)).2.1.writeString
              (w.writeLen s 42 ((1 + args.length : Nat) : Int)).2.2 cmd).2.1.writeArgs
            ((w.writeLen s 42 ((1 + args.length : Nat) : Int)).2.1.writeString
              (w.writeLen s 42 ((1 + args.length : Nat) : Int)).2.2 cmd).2.2 args
        else
          (w.writeLen s 42 ((1 + args.length : Nat) : Int)).2.1.writeString
            (w.writeLen s 42 ((1 + args.length : Nat) : Int)).2.2 cmd)
      else w.writeLen s 42 ((1 + args.length : Nat) : Int) := by
  unfold writer.writeCommand
  have e : (1 : Int) + (args.length : Int) = ((1 + args.length : Nat) : Int) := by push_cast; rfl
  rw [e]
  rcases h1 : w.writeLen s 42 ((1 + args.length : Nat) : Int) with ⟨e1, w1, s1⟩
  cases e1 with
  | some e => simp
  | none =>
    simp only [if_true]
    rcases h2 : w1.writeString s1 cmd with ⟨e2, w2, s2⟩
    cases e2 <;> simp

theorem writeCommand_scratch (w : writer) (s : Stream) (cmd : Bytes) (args : List Arg) :
    (w.writeCommand s cmd args).2.1.lenScratch.length = w.lenScratch.length := by
  rw [writeCommand_eq]
  split
  · split
    · rw [writeArgs_scratch, writeString_scratch, writeLen_scratch]
    · rw [writeString_scratch, writeLen_scratch]
  · rw [writeLen_scratch]

theorem Accepts_seqW {b : BufioWriter} {s : Stream} {r1 r2 : Option GoError × writer × Stream}
    (h1 : Accepts b s (atWr r1)) (h2 : r1.2.1.wr.err = none → Accepts r1.2.1.wr r1.2.2 (atWr r2)) :
    Accepts b s (atWr (if r1.1 = none then r2 else r1)) := by
  by_cases h : r1.1 = none
  · rw [if_pos h]
    have h3 : r1.2.1.wr.err = none := h1.2.1.trans h
    have := Accepts_seq h1 (h2 h3)
    rw [if_pos (show (atWr r1).1 = none from h)] at this
    exact this
  · rw [if_neg h]
    exact h1

theorem Appends_seqW {b : BufioWriter} {s : Stream} {r1 r2 : Option GoError × writer × Stream}
    {bs1 bs2 : Bytes} (h1 : Appends b s (atWr r1) bs1)
    (h2 : Appends r1.2.1.wr r1.2.2 (atWr r2) bs2) :
    Appends b s (atWr (if r1.1 = none then r2 else r1)) (bs1 ++ bs2) := by
  by_cases h : r1.1 = none
  · rw [if_pos h]
    have := Appends_seq h1 (fun _ => h2)
    rw [if_pos (show (atWr r1).1 = none from h)] at this
    exact this
  · rw [if_neg h]
    intro hr
    exact absurd hr h

theorem writeCommand_accepts (w : writer) (s : Stream) (cmd : Bytes) (args : List Arg) :
    Accepts w.wr s (atWr (w.writeCommand s cmd args)) := by
  rw [writeCommand_eq]
  have h1 := writeLen_accepts w s 42 ((1 + args.length : Nat) : Int)
  generalize w.writeLen s 42 ((1 + args.length : Nat) : Int) = r1 at h1 ⊢
  have h2 := writeString_accepts r1.2.1 r1.2.2 cmd
  generalize r1.2.1.writeString r1.2.2 cmd = r2 at h2 ⊢
  have h3 := writeArgs_accepts args r2.2.1 r2.2.2
  generalize r2.2.1.writeArgs r2.2.2 args = r3 at h3 ⊢
  exact Accepts_seqW h1 (fun _ => Accepts_seqW h2 h3)

/-- The bytes `writeCommand` hands to the buffered writer when it returns no
error: the frame of the command. -/
theorem writeCommand_appends (w : writer) (s : Stream) (cmd : Bytes) (args : List Arg)
    (hw : w.lenScratch.length = 32) (hg : GoCommand cmd args) :
    Appends w.wr s (atWr (w.writeCommand s cmd args)) (commandFrame cmd args) := by
  obtain ⟨g1, g2, g3⟩ := hg
  rw [writeCommand_eq]
  have h1 := writeLen_appends w s 42 (1 + args.length) hw g1
  have hw1 := writeLen_scratch w s 42 ((1 + args.length : Nat) : Int)
  rw [hw] at hw1
  generalize w.writeLen s 42 ((1 + args.length : Nat) : Int) = r1 at h1 hw1 ⊢
  have h2 := writeString_appends r1.2.1 r1.2.2 cmd hw1 g2
  have hw2 := writeString_scratch r1.2.1 r1.2.2 cmd
  rw [hw1] at hw2
  generalize r1.2.1.writeString r1.2.2 cmd = r2 at h2 hw2 ⊢
  have h3 := writeArgs_appends args r2.2.1 r2.2.2 hw2 g3
  generalize r2.2.1.writeArgs r2.2.2 args = r3 at h3 ⊢
  have := Appends_seqW h1 (Appends_seqW h2 h3)
  simpa [commandFrame, bulks, List.append_assoc] using this

/-! ## The reader: lemmas -/

theorem splitLine_append (body rest : Bytes) (h : (10 : Nat) ∉ body) :
    splitLine (body ++ 10 :: rest) = some (body ++ [10], rest) := by
  induction body with
  | nil => simp [splitLine]
  | cons b body ih =>
    have hb : b ≠ 10 := by intro e; apply h; simp [e]
    have hr : (10 : Nat) ∉ body := by intro e; apply h; simp [e]
    simp [splitLine, hb, ih hr]

theorem splitLine_none (data : Bytes) (h : (10 : Nat) ∉ data) : splitLine data = none := by
  induction data with
  | nil => rfl
  | cons b data ih =>
    have hb : b ≠ 10 := by intro e; apply h; simp [e]
    have hr : (10 : Nat) ∉ data := by intro e; apply h; simp [e]
    simp [splitLine, hb, ih hr]

theorem getD_append_cr (body tail : Bytes) : (body ++ 13 :: tail).getD body.length 0 = 13 := by
  induction body with
  | nil => rfl
  | cons b body ih => simpa using ih

/-- A line that ends in `"\\r\\n"`: `readLine` returns it without the two bytes
and leaves what follows. -/
theorem readLine_crlf (body rest : Bytes) (e : GoError) (h : (10 : Nat) ∉ body) :
    reader.readLine { rd := { data := body ++ 13 :: 10 :: rest, err := e } } =
      (body, none, { rd := { data := rest, err := e } }) := by
  have hs : splitLine (body ++ 13 :: 10 :: rest) = some (body ++ [13, 10], rest) := by
    have := splitLine_append (body ++ [13]) rest (by simp [h])
    simpa using this
  simp only [reader.readLine, BufioReader.ReadSlice, hs]
  have hlen : ((body ++ [13, 10]).length : Int) - 2 = (body.length : Int) := by simp
  rw [hlen, Int.toNat_ofNat]
  have hc : ¬ ((body.length : Int) < 0 ∨ (body ++ [13, 10]).getD body.length 0 ≠ 13) := by
    rw [getD_append_cr]
    omega
  rw [if_neg hc]
  simp

theorem lenLine_no_lf (pfx n : Nat) (hp : pfx ≠ 10) : (10 : Nat) ∉ pfx :: decimal n := by
  intro h
  rcases List.mem_cons.mp h with h | h
  · exact hp h.symm
  · have := decimal_digits n 10 h
    omega

/-- One step of `readReply` on a `$` line with a length that is not negative. -/
theorem readReplyFuel_dollar (fuel : Nat) (r r1 : reader) (tail : Bytes) (n : Nat)
    (hl : r.readLine = (36 :: tail, none, r1)) (hp : parseLen tail = ((n : Int), none)) :
    readReplyFuel (fuel + 1) r =
      match r1.rd.ReadFull n with
      | (_, some err, rd2) => (Reply.nil, some err, { rd := rd2 })
      | (p, none, rd2) =>
        match reader.readLine { rd := rd2 } with
        | (_, some err, r3) => (Reply.nil, some err, r3)
        | (line2, none, r3) =>
          if line2.length ≠ 0 then
            (Reply.nil, some (GoError.protocolError "bad bulk string format"), r3)
          else (Reply.bytes p, none, r3) := by
  have hn : ¬ ((n : Int) < 0) := by omega
  rw [readReplyFuel, hl]
  simp [hp, hn]

/-- One step of `readReply` on a `*` line with a count that is not negative. -/
theorem readReplyFuel_star (fuel : Nat) (r r1 : reader) (tail : Bytes) (n : Nat)
    (hl : r.readLine = (42 :: tail, none, r1)) (hp : parseLen tail = ((n : Int), none)) :
    readReplyFuel (fuel + 1) r =
      match readElemsFuel fuel n r1 with
      | (_, some err, r2) => (Reply.nil, some err, r2)
      | (x, none, r2) => (Reply.array x, none, r2) := by
  have hn : ¬ ((n : Int) < 0) := by omega
  rw [readReplyFuel, hl]
  simp [hp, hn]

theorem readReplyFuel_bulk (fuel : Nat) (p rest : Bytes) (e : GoError) :
    readReplyFuel (fuel + 1) { rd := { data := bulk p ++ rest, err := e } } =
      (Reply.bytes p, none, { rd := { data := rest, err := e } }) := by
  have h1 := readLine_crlf (36 :: decimal p.length) (p ++ 13 :: 10 :: rest) e
    (lenLine_no_lf 36 p.length (by decide))
  have hd : bulk p ++ rest = (36 :: decimal p.length) ++ 13 :: 10 :: (p ++ 13 :: 10 :: rest) := by
    simp [bulk, lenLine]
  have h2 := readLine_crlf [] rest e (by simp)
  simp only [List.nil_append] at h2
  rw [hd, readReplyFuel_dollar fuel _ _ _ p.length h1 (parseLen_decimal _)]
  simp [BufioReader.ReadFull, h2]

theorem readElemsFuel_bulks : ∀ (ps : List Bytes) (fuel : Nat) (rest : Bytes) (e : GoError),
    ps.length + 1 ≤ fuel →
    readElemsFuel fuel ps.length { rd := { data := bulks ps ++ rest, err := e } } =
      (ps.map Reply.bytes, none, { rd := { data := rest, err := e } }) := by
  intro ps
  induction ps with
  | nil => intro fuel rest e _; cases fuel <;> simp [readElemsFuel, bulks]
  | cons p ps ih =>
    intro fuel rest e hf
    cases fuel with
    | zero => omega
    | succ fuel =>
      cases fuel with
      | zero => simp at hf
      | succ fuel =>
        have hb := readReplyFuel_bulk fuel p (bulks ps ++ rest) e
        have hi := ih (fuel + 1) rest e (by simp at hf ⊢; omega)
        simp only [List.length_cons, readElemsFuel, bulks, List.append_assoc, hb, hi, List.map_cons]

theorem bulk_length (p : Bytes) : 6 ≤ (bulk p).length := by
  have := List.length_pos.mpr (decimal_ne_nil p.length)
  simp [bulk, lenLine]
  omega

theorem bulks_length : ∀ (ps : List Bytes), 6 * ps.length ≤ (bulks ps).length := by
  intro ps
  induction ps with
  | nil => simp [bulks]
  | cons p ps ih =>
    have := bulk_length p
    simp [bulks]
    omega

/-- Decoding an array of bulk strings: `readReply` returns the array of the
byte strings and leaves what follows. -/
theorem readReply_bulks (ps : List Bytes) (rest : Bytes) (e : GoError) (hps : ps ≠ []) :
    reader.readReply
        { rd := { data := lenLine 42 ps.length ++ bulks ps ++ rest, err := e } } =
      (Reply.array (ps.map Reply.bytes), none, { rd := { data := rest, err := e } }) := by
  have hpos : 0 < ps.length := List.length_pos.mpr hps
  have h1 := readLine_crlf (42 :: decimal ps.length) (bulks ps ++ rest) e
    (lenLine_no_lf 42 ps.length (by decide))
  have hd : lenLine 42 ps.length ++ bulks ps ++ rest =
      (42 :: decimal ps.length) ++ 13 :: 10 :: (bulks ps ++ rest) := by
    simp [lenLine]
  have hl := bulks_length ps
  have hfuel : ps.length + 1 ≤ (lenLine 42 ps.length ++ bulks ps ++ rest).length := by
    simp [lenLine]; omega
  have h2 := readElemsFuel_bulks ps (lenLine 42 ps.length ++ bulks ps ++ rest).length rest e hfuel
  unfold reader.readReply
  dsimp only
  generalize (lenLine 42 ps.length ++ bulks ps ++ rest).length = f at h2 ⊢
  rw [hd, readReplyFuel_star f _ _ _ ps.length h1 (parseLen_decimal _), h2]

/-! ## C1 and C2: the wire shape of a command and the round trip -/

theorem argBytes_primitive (a : Arg) (h : a.primitive) : argBytes a true = byteForm a := by
  cases a with
  | bool b => cases b <;> rfl
  | Argument r printed => exact absurd h (by simp [Arg.primitive])
  | other printed => exact absurd h (by simp [Arg.primitive])
  | _ => rfl

/-- C2 (wire shape).  For a writer with its 32-byte scratch space and a command
whose lengths are Go lengths: when `writeCommand` returns no error, the bytes
it has handed to the send buffer are exactly `commandFrame cmd args`, that is
`"*" + decimal(1+len(args)) + "\\r\\n"`, the name as a bulk string and each
argument as a bulk string in order; it does return no error when no sticky
error is set and the stream accepts everything; a boolean is `"1"` or `"0"`,
nil is the empty bulk string `"$0\\r\\n\\r\\n"`, an integer its decimal text;
`("PING", [])` gives `"*1\\r\\n$4\\r\\nPING\\r\\n"` and `("SET", ["k","v"])` gives
`"*3\\r\\n$3\\r\\nSET\\r\\n$1\\r\\nk\\r\\n$1\\r\\nv\\r\\n"`. -/
theorem writeCommand_wire_shape (w : writer) (s : Stream) (cmd : Bytes) (args : List Arg)
    (hw : w.lenScratch.length = 32) (hg : GoCommand cmd args) :
    ((w.writeCommand s cmd args).1 = none →
      pushed (w.writeCommand s cmd args).2.1.wr (w.writeCommand s cmd args).2.2 =
        pushed w.wr s ++ commandFrame cmd args) ∧
    (w.wr.err = none → s.writeLimit = none → (w.writeCommand s cmd args).1 = none) ∧
    commandFrame cmd args =
      [42] ++ decimal (1 + args.length) ++ [13, 10] ++
        ([36] ++ decimal cmd.length ++ [13, 10] ++ cmd ++ [13, 10]) ++
        bulks (args.map (fun a => argBytes a true)) ∧
    (argBytes (Arg.bool true) true = [49] ∧ argBytes (Arg.bool false) true = [48] ∧
      bulk (argBytes Arg.nil true) = [36, 48, 13, 10, 13, 10] ∧
      argBytes (Arg.int (-42)) true = [45, 52, 50] ∧ argBytes (Arg.int64 107) true = [49, 48, 55]) ∧
    (newWriter.writeCommand freshStream [80, 73, 78, 71] []).2.1.wr.buf =
      [42, 49, 13, 10, 36, 52, 13, 10, 80, 73, 78, 71, 13, 10] ∧
    (newWriter.writeCommand freshStream [83, 69, 84] [Arg.string [107], Arg.string [118]]).2.1.wr.buf =
      [42, 51, 13, 10, 36, 51, 13, 10, 83, 69, 84, 13, 10, 36, 49, 13, 10, 107, 13, 10,
        36, 49, 13, 10, 118, 13, 10] := by
  refine ⟨writeCommand_appends w s cmd args hw hg, ?_, ?_, ?_, ?_, ?_⟩
  · intro hb hs
    exact ((writeCommand_accepts w s cmd args).2.2 hb hs).1
  · simp [commandFrame, bulks, bulk, lenLine]
  · refine ⟨rfl, rfl, ?_, ?_, ?_⟩ <;> decide
  · decide
  · decide

theorem writeCommand_wire_shape_witness :
    newWriter.lenScratch.length = 32 ∧ GoCommand [80, 73, 78, 71] [Arg.int 7, Arg.nil] ∧
      pushed (newWriter.writeCommand freshStream [80, 73, 78, 71] [Arg.int 7, Arg.nil]).2.1.wr
          (newWriter.writeCommand freshStream [80, 73, 78, 71] [Arg.int 7, Arg.nil]).2.2 =
        pushed newWriter.wr freshStream ++ commandFrame [80, 73, 78, 71] [Arg.int 7, Arg.nil] :=
  ⟨by decide, by decide,
    (writeCommand_wire_shape newWriter freshStream [80, 73, 78, 71] [Arg.int 7, Arg.nil]
      (by decide) (by decide)).1 (by decide)⟩

/-- C1 (round trip).  For a writer with its 32-byte scratch space, a command
whose lengths are Go lengths and whose arguments are strings, byte slices,
integers, floats, booleans or nil: `writeCommand` returns no error when no
sticky error is set and the stream accepts everything, and whenever it returns
no error there are bytes `out`, exactly those it has handed to the send buffer,
such that `readReply` on `out` (followed by any bytes `rest`, none included)
returns without error the array of `1+len(args)` bulk byte strings made of the
name and of the byte form of each argument, and consumes exactly `out`. -/
theorem writeCommand_readReply_roundtrip (w : writer) (s : Stream) (cmd : Bytes)
    (args : List Arg) (rest : Bytes) (e : GoError)
    (hw : w.lenScratch.length = 32) (hg : GoCommand cmd args)
    (hprim : ∀ a ∈ args, a.primitive) :
    (w.wr.err = none → s.writeLimit = none → (w.writeCommand s cmd args).1 = none) ∧
    ((w.writeCommand s cmd args).1 = none →
      ∃ out : Bytes,
        pushed (w.writeCommand s cmd args).2.1.wr (w.writeCommand s cmd args).2.2 =
          pushed w.wr s ++ out ∧
        reader.readReply { rd := { data := out ++ rest, err := e } } =
          (Reply.array (Reply.bytes cmd :: args.map (fun a => Reply.bytes (byteForm a))), none,
            { rd := { data := rest, err := e } }) ∧
        (Reply.bytes cmd :: args.map (fun a => Reply.bytes (byteForm a))).length =
          1 + args.length) := by
  refine ⟨fun hb hs => ((writeCommand_accepts w s cmd args).2.2 hb hs).1, ?_⟩
  intro hok
  refine ⟨commandFrame cmd args, writeCommand_appends w s cmd args hw hg hok, ?_, by simp; omega⟩
  have hmap : args.map (fun a => argBytes a true) = args.map byteForm :=
    List.map_congr_left (fun a ha => argBytes_primitive a (hprim a ha))
  have hlen : (cmd :: args.map byteForm).length = 1 + args.length := by simp; omega
  have := readReply_bulks (cmd :: args.map byteForm) rest e (by simp)
  rw [hlen] at this
  rw [commandFrame, hmap, this]
  simp

theorem writeCommand_readReply_roundtrip_witness :
    newWriter.lenScratch.length = 32 ∧
      GoCommand [83, 69, 84] [Arg.string [107, 13, 10], Arg.int (-12), Arg.bool true, Arg.nil] ∧
      (∀ a ∈ [Arg.string [107, 13, 10], Arg.int (-12), Arg.bool true, Arg.nil], a.primitive) ∧
      (newWriter.writeCommand freshStream [83, 69, 84]
        [Arg.string [107, 13, 10], Arg.int (-12), Arg.bool true, Arg.nil]).1 = none :=
  ⟨by decide, by decide, by decide,
    (writeCommand_readReply_roundtrip newWriter freshStream [83, 69, 84]
      [Arg.string [107, 13, 10], Arg.int (-12), Arg.bool true, Arg.nil] [] GoError.EOF
      (by decide) (by decide) (by decide)).1 rfl rfl⟩

/-! ## C5: the line terminator -/

theorem getD_append_mid (body tail : Bytes) (x : Nat) :
    (body ++ x :: tail).getD body.length 0 = x := by
  induction body with
  | nil => rfl
  | cons b body ih => simpa using ih

/-- A line that ends in `'\\n'` with no `'\\r'` before it. -/
theorem readLine_bare_lf (body rest : Bytes) (e : GoError) (h : (10 : Nat) ∉ body)
    (hcr : ∀ b : Bytes, body ≠ b ++ [13]) :
    reader.readLine { rd := { data := body ++ 10 :: rest, err := e } } =
      ([], some (GoError.protocolError "bad response line terminator"),
        { rd := { data := rest, err := e } }) := by
  simp only [reader.readLine, BufioReader.ReadSlice, splitLine_append body rest h]
  rcases List.eq_nil_or_concat body with hb | ⟨b, x, hb⟩
  · subst hb
    simp
  · rw [List.concat_eq_append] at hb
    subst hb
    have hx : x ≠ 13 := by
      intro hx
      exact hcr b (by rw [hx])
    have hlen : ((b ++ [x] ++ [10]).length : Int) - 2 = (b.length : Int) := by simp
    rw [hlen, Int.toNat_ofNat]
    have hg : (b ++ [x] ++ [10]).getD b.length 0 = x := by
      have := getD_append_mid b [10] x
      simpa using this
    rw [hg]
    simp [hx]

/-- The data ends before any `'\\n'`: `readLine` fails with the read error. -/
theorem readLine_no_lf (data : Bytes) (e : GoError) (h : (10 : Nat) ∉ data) :
    reader.readLine { rd := { data := data, err := e } } =
      ([], some e, { rd := { data := [], err := e } }) := by
  simp [reader.readLine, BufioReader.ReadSlice, splitLine_none data h]

/-- A `readLine` that fails makes `readReply` fail with the same error. -/
theorem readReply_of_readLine_err (r r1 : reader) (l : Bytes) (err : GoError)
    (h : r.readLine = (l, some err, r1)) : r.readReply = (Reply.nil, some err, r1) := by
  unfold reader.readReply
  rw [readReplyFuel, h]

/-- C5 (counterexample).  On the input `"+OK"`, which ends with no `"\\r\\n"` at
all, `readLine` and `readReply` fail with the read error `io.EOF`, not with the
ProtocolError "bad response line terminator". -/
theorem readLine_unterminated_counterexample :
    (reader.readLine (readerOf [43, 79, 75])).2.1 = some GoError.EOF ∧
    (reader.readLine (readerOf [43, 79, 75])).2.1 ≠
      some (GoError.protocolError "bad response line terminator") ∧
    (reader.readReply (readerOf [43, 79, 75])).2.1 = some GoError.EOF ∧
    (reader.readReply (readerOf [43, 79, 75])).2.1 ≠
      some (GoError.protocolError "bad response line terminator") := by
  decide

/-- C5 (amended).  Let `body` hold no `'\\n'`.  On `body + "\\n" + rest`, when
`body` does not end in `'\\r'` (an empty `body` included), `readLine` and so
`readReply` fail with the ProtocolError "bad response line terminator"; on
`body` alone, data that ends before any `'\\n'`, they fail with the error of
the underlying read (such as `io.EOF`); on `body + "\\r\\n" + rest`, `readLine`
returns `body`, the line with the two bytes stripped, and leaves `rest`. -/
theorem readLine_terminator (body rest : Bytes) (e : GoError) (h : (10 : Nat) ∉ body) :
    ((∀ b : Bytes, body ≠ b ++ [13]) →
      reader.readLine { rd := { data := body ++ 10 :: rest, err := e } } =
        ([], some (GoError.protocolError "bad response line terminator"),
          { rd := { data := rest, err := e } }) ∧
      reader.readReply { rd := { data := body ++ 10 :: rest, err := e } } =
        (Reply.nil, some (GoError.protocolError "bad response line terminator"),
          { rd := { data := rest, err := e } })) ∧
    (reader.readLine { rd := { data := body, err := e } } =
        ([], some e, { rd := { data := [], err := e } }) ∧
      reader.readReply { rd := { data := body, err := e } } =
        (Reply.nil, some e, { rd := { data := [], err := e } })) ∧
    reader.readLine { rd := { data := body ++ 13 :: 10 :: rest, err := e } } =
      (body, none, { rd := { data := rest, err := e } }) := by
  refine ⟨fun hcr => ⟨readLine_bare_lf body rest e h hcr, ?_⟩,
    ⟨readLine_no_lf body e h, ?_⟩, readLine_crlf body rest e h⟩
  · exact readReply_of_readLine_err _ _ _ _ (readLine_bare_lf body rest e h hcr)
  · exact readReply_of_readLine_err _ _ _ _ (readLine_no_lf body e h)

theorem readLine_terminator_witness :
    (10 : Nat) ∉ [43, 79, 75] ∧ (∀ b : Bytes, [43, 79, 75] ≠ b ++ [13]) ∧
      reader.readLine { rd := { data := [43, 79, 75] ++ 10 :: [58, 49], err := GoError.EOF } } =
        ([], some (GoError.protocolError "bad response line terminator"),
          { rd := { data := [58, 49], err := GoError.EOF } }) :=
  ⟨by decide, by intro b hb; have := congrArg List.getLast? hb; simp at this,
    ((readLine_terminator [43, 79, 75] [58, 49] GoError.EOF (by decide)).1
      (by intro b hb; have := congrArg List.getLast? hb; simp at this)).1⟩

/-! ## The connection: a terminal error stays -/

theorem fatal_latched (c : quicConn) (e x : GoError) (h : c.err = some e) : c.fatal x = (x, c) := by
  simp [quicConn.fatal, h]

theorem failWith_latched (c : quicConn) (e x : GoError) (h : c.err = some e) :
    c.failWith x = (some x, c) := by
  simp [quicConn.failWith, fatal_latched c e x h]

theorem failNil_latched (c : quicConn) (e x : GoError) (h : c.err = some e) :
    c.failNil x = (Reply.nil, some x, c) := by
  simp [quicConn.failNil, fatal_latched c e x h]

theorem writeDeadline_step (t : Int) (s s1 : Stream) (r : Option GoError)
    (h : (if t ≠ 0 then s.SetWriteDeadline else (none, s)) = (r, s1)) :
    closeCount s1.calls = closeCount s.calls ∧ s1.writeLimit = s.writeLimit ∧
      s1.readDeadlines = s.readDeadlines ∧ s1.closes = s.closes := by
  by_cases ht : t ≠ 0
  · rw [if_pos ht] at h
    simp only [Stream.SetWriteDeadline, Prod.mk.injEq] at h
    rw [← h.2]
    simp [closeCount_append, closeCount]
  · rw [if_neg ht] at h
    simp only [Prod.mk.injEq] at h
    rw [← h.2]
    simp

theorem readDeadline_step (s : Stream) :
    closeCount s.SetReadDeadline.2.calls = closeCount s.calls ∧
      s.SetReadDeadline.2.writeLimit = s.writeLimit ∧
      s.SetReadDeadline.2.closes = s.closes := by
  simp [Stream.SetReadDeadline, closeCount_append, closeCount]

theorem writeCommand_closeCount (w : writer) (s : Stream) (cmd : Bytes) (args : List Arg) :
    closeCount (w.writeCommand s cmd args).2.2.calls = closeCount s.calls :=
  (writeCommand_accepts w s cmd args).1.2.2.2

theorem flush_eq (w : writer) (s : Stream) :
    w.flush s = ((w.wr.Flush s).1, { w with wr := (w.wr.Flush s).2.1 }, (w.wr.Flush s).2.2) := rfl

theorem flush_closeCount (w : writer) (s : Stream) :
    closeCount (w.flush s).2.2.calls = closeCount s.calls := by
  rw [flush_eq]
  exact (Flush_sameAnswers w.wr s).2.2.2

theorem Send_latched (c : quicConn) (e : GoError) (cmd : Bytes) (args : List Arg)
    (h : c.err = some e) : Kept e c (c.Send cmd args).2 := by
  unfold quicConn.Send
  dsimp only
  split
  · rename_i err s1 heq
    have := writeDeadline_step _ _ _ _ heq
    rw [failWith_latched _ e _ (by simpa using h)]
    exact ⟨h, this.1⟩
  · rename_i s1 heq
    have hd := writeDeadline_step _ _ _ _ heq
    have hc := writeCommand_closeCount c.bw s1 cmd args
    split
    · rename_i err w2 s2 heq2
      rw [heq2] at hc
      rw [failWith_latched _ e _ (by simpa using h)]
      exact ⟨h, by simpa using hc.trans hd.1⟩
    · rename_i w2 s2 heq2
      rw [heq2] at hc
      exact ⟨h, by simpa using hc.trans hd.1⟩

theorem Flush_latched (c : quicConn) (e : GoError) (h : c.err = some e) : Kept e c c.Flush.2 := by
  unfold quicConn.Flush
  split
  · rename_i err s1 heq
    have := writeDeadline_step _ _ _ _ heq
    rw [failWith_latched _ e _ (by simpa using h)]
    exact ⟨h, this.1⟩
  · rename_i s1 heq
    have hd := writeDeadline_step _ _ _ _ heq
    have hc := flush_closeCount c.bw s1
    split
    · rename_i err w2 s2 heq2
      rw [heq2] at hc
      rw [failWith_latched _ e _ (by simpa using h)]
      exact ⟨h, by simpa using hc.trans hd.1⟩
    · rename_i w2 s2 heq2
      rw [heq2] at hc
      exact ⟨h, by simpa using hc.trans hd.1⟩

theorem ReceiveWithTimeout_latched (c : quicConn) (e : GoError) (timeout : Int)
    (h : c.err = some e) : Kept e c (c.ReceiveWithTimeout timeout).2.2 := by
  have hd := readDeadline_step c.stream
  unfold quicConn.ReceiveWithTimeout
  split
  · rename_i err s1 heq
    rw [failNil_latched _ e _ (by simpa using h)]
    refine ⟨h, ?_⟩
    rw [show s1 = c.stream.SetReadDeadline.2 by rw [heq]]
    exact hd.1
  · rename_i s1 heq
    have hs : s1 = c.stream.SetReadDeadline.2 := by rw [heq]
    split
    · rename_i err r2 heq2
      rw [failNil_latched _ e _ (by simpa using h)]
      exact ⟨h, by rw [hs]; exact hd.1⟩
    · rename_i reply r2 heq2
      dsimp only
      split <;> split <;> exact ⟨by simpa using h, by simp [hs, hd.1]⟩

theorem doReadAll_latched : ∀ (n : Nat) (c : quicConn) (acc : List Reply) (e : GoError),
    c.err = some e → Kept e c (quicConn.doReadAll n c acc).2.2 := by
  intro n
  induction n with
  | zero => intro c acc e h; exact ⟨h, rfl⟩
  | succ n ih =>
    intro c acc e h
    rw [quicConn.doReadAll]
    split
    · rw [failNil_latched _ e _ (by simpa using h)]
      exact ⟨h, rfl⟩
    · rename_i r r1 heq
      exact ih { c with br := r1 } (acc ++ [r]) e h

theorem doReadLast_latched : ∀ (n : Nat) (c : quicConn) (reply : Reply) (err : Option GoError)
    (e : GoError), c.err = some e → Kept e c (quicConn.doReadLast n c reply err).2.2 := by
  intro n
  induction n with
  | zero => intro c reply err e h; exact ⟨h, rfl⟩
  | succ n ih =>
    intro c reply err e h
    rw [quicConn.doReadLast]
    split
    · rw [failNil_latched _ e _ (by simpa using h)]
      exact ⟨h, rfl⟩
    · rename_i r r1 heq
      exact ih { c with br := r1 } _ _ e h

theorem Kept_trans {e : GoError} {c c1 c2 : quicConn} (h1 : Kept e c c1) (h2 : Kept e c1 c2) :
    Kept e c c2 := ⟨h2.1, h2.2.trans h1.2⟩

theorem DoWithTimeout_latched (c : quicConn) (e : GoError) (readTimeout : Int) (cmd : Bytes)
    (args : List Arg) (h : c.err = some e) : Kept e c (c.DoWithTimeout readTimeout cmd args).2.2 := by
  unfold quicConn.DoWithTimeout
  dsimp only
  split
  · exact ⟨h, rfl⟩
  · split
    · rename_i err s1 heq
      have := writeDeadline_step _ _ _ _ heq
      rw [failNil_latched _ e _ (by simpa using h)]
      exact ⟨h, this.1⟩
    · rename_i s1 heq
      have hd := writeDeadline_step _ _ _ _ heq
      have hw : ∀ (r : Option GoError) (w2 : writer) (s2 : Stream),
          (if cmd ≠ [] then c.bw.writeCommand s1 cmd args else (none, c.bw, s1)) = (r, w2, s2) →
          closeCount s2.calls = closeCount s1.calls := by
        intro r w2 s2 hq
        by_cases hc : cmd ≠ []
        · rw [if_pos hc] at hq
          have := writeCommand_closeCount c.bw s1 cmd args
          rw [hq] at this
          exact this
        · rw [if_neg hc] at hq
          simp only [Prod.mk.injEq] at hq
          rw [hq.2.2]
      split
      · rename_i err w2 s2 heq2
        rw [failNil_latched _ e _ (by simpa using h)]
        exact ⟨h, (hw _ _ _ heq2).trans hd.1⟩
      · rename_i w2 s2 heq2
        have h2 := (hw _ _ _ heq2).trans hd.1
        have hf := flush_closeCount w2 s2
        split
        · rename_i err w3 s3 heq3
          rw [heq3] at hf
          rw [failNil_latched _ e _ (by simpa using h)]
          exact ⟨h, hf.trans h2⟩
        · rename_i w3 s3 heq3
          rw [heq3] at hf
          have h3 := hf.trans h2
          have hr := readDeadline_step s3
          split
          · rename_i err s4 heq4
            rw [failNil_latched _ e _ (by simpa using h)]
            refine ⟨h, ?_⟩
            rw [show s4 = s3.SetReadDeadline.2 by rw [heq4]]
            exact hr.1.trans h3
          · rename_i s4 heq4
            have h4 : closeCount s4.calls = closeCount c.stream.calls := by
              rw [show s4 = s3.SetReadDeadline.2 by rw [heq4]]
              exact hr.1.trans h3
            have hk : Kept e c { c with pending := 0, bw := w3, stream := s4 } := ⟨h, h4⟩
            split
            · exact Kept_trans hk (doReadAll_latched _ _ _ e h)
            · exact Kept_trans hk (doReadLast_latched _ _ _ _ e h)

theorem Close_latched (c : quicConn) (e : GoError) (h : c.err = some e) :
    c.Close = (some e, c) := by
  simp [quicConn.Close, h]

/-! ## C10: the terminal error is set once -/

/-- C10.  On a connection whose terminal error is `e`, after `Send`, `Flush`,
`Receive`, `ReceiveWithTimeout`, `Do`, `DoWithTimeout`, `Close` and the step
`fatal` with any new error, the terminal error is still `e`: it is neither
replaced nor cleared. -/
theorem terminal_error_set_once (c : quicConn) (e : GoError) (h : c.err = some e)
    (cmd : Bytes) (args : List Arg) (timeout : Int) (new : GoError) :
    (c.Send cmd args).2.err = some e ∧
    c.Flush.2.err = some e ∧
    c.Receive.2.2.err = some e ∧
    (c.ReceiveWithTimeout timeout).2.2.err = some e ∧
    (c.Do cmd args).2.2.err = some e ∧
    (c.DoWithTimeout timeout cmd args).2.2.err = some e ∧
    c.Close.2.err = some e ∧
    (c.fatal new).2.err = some e :=
  ⟨(Send_latched c e cmd args h).1, (Flush_latched c e h).1,
    (ReceiveWithTimeout_latched c e _ h).1, (ReceiveWithTimeout_latched c e timeout h).1,
    (DoWithTimeout_latched c e _ cmd args h).1, (DoWithTimeout_latched c e timeout cmd args h).1,
    by rw [Close_latched c e h]; exact h, by rw [fatal_latched c e new h]; exact h⟩

theorem terminal_error_set_once_witness :
    closedConn.err = some (GoError.errorsNew "redigo: closed") ∧
      (closedConn.Send [80, 73, 78, 71] []).2.err = some (GoError.errorsNew "redigo: closed") ∧
      (closedConn.fatal GoError.EOF).2.err = some (GoError.errorsNew "redigo: closed") :=
  ⟨by decide,
    (terminal_error_set_once closedConn (GoError.errorsNew "redigo: closed") (by decide)
      [80, 73, 78, 71] [] 0 GoError.EOF).1,
    (terminal_error_set_once closedConn (GoError.errorsNew "redigo: closed") (by decide)
      [80, 73, 78, 71] [] 0 GoError.EOF).2.2.2.2.2.2.2⟩

/-! ## C3: calls on a connection with a terminal error -/

/-- C3 (counterexample).  On the connection closed by `Close`, whose terminal
error is "redigo: closed": `Send("PING")` returns nil, `Flush` after it writes
the buffered command to the stream and returns nil, `Receive` sets the read
deadline on the stream, reads, and returns `io.EOF`, and `Do("PING")` writes to
the stream and returns `io.EOF`: none returns the terminal error and the
transport is used. -/
theorem latched_calls_counterexample :
    closedConn.Err = some (GoError.errorsNew "redigo: closed") ∧
    (closedConn.Send [80, 73, 78, 71] []).1 = none ∧
    (closedConn.Send [80, 73, 78, 71] []).2.Flush.1 = none ∧
    (closedConn.Send [80, 73, 78, 71] []).2.Flush.2.stream.calls =
      [Call.CloseWithError, Call.Write [42, 49, 13, 10, 36, 52, 13, 10, 80, 73, 78, 71, 13, 10]] ∧
    closedConn.Receive.2.1 = some GoError.EOF ∧
    closedConn.Receive.2.2.stream.calls = [Call.CloseWithError, Call.SetReadDeadline] ∧
    (closedConn.Do [80, 73, 78, 71] []).2.1 = some GoError.EOF ∧
    (closedConn.Do [80, 73, 78, 71] []).2.2.stream.calls =
      [Call.CloseWithError, Call.Write [42, 49, 13, 10, 36, 52, 13, 10, 80, 73, 78, 71, 13, 10],
        Call.SetReadDeadline] := by
  refine ⟨by decide, by decide, by decide, by decide, by decide, by decide, by decide, by decide⟩

/-- C3 (amended).  On a connection whose terminal error is `e`, after every
`Send`, `Flush`, `Receive`, `ReceiveWithTimeout`, `Do` and `DoWithTimeout` call
`Err()` still returns the identical error `e`, and the call has not closed the
session again. -/
theorem latched_calls_keep_error (c : quicConn) (e : GoError) (h : c.err = some e)
    (cmd : Bytes) (args : List Arg) (timeout : Int) :
    ((c.Send cmd args).2.Err = some e ∧
      closeCount (c.Send cmd args).2.stream.calls = closeCount c.stream.calls) ∧
    (c.Flush.2.Err = some e ∧ closeCount c.Flush.2.stream.calls = closeCount c.stream.calls) ∧
    (c.Receive.2.2.Err = some e ∧
      closeCount c.Receive.2.2.stream.calls = closeCount c.stream.calls) ∧
    ((c.ReceiveWithTimeout timeout).2.2.Err = some e ∧
      closeCount (c.ReceiveWithTimeout timeout).2.2.stream.calls = closeCount c.stream.calls) ∧
    ((c.Do cmd args).2.2.Err = some e ∧
      closeCount (c.Do cmd args).2.2.stream.calls = closeCount c.stream.calls) ∧
    ((c.DoWithTimeout timeout cmd args).2.2.Err = some e ∧
      closeCount (c.DoWithTimeout timeout cmd args).2.2.stream.calls =
        closeCount c.stream.calls) :=
  ⟨Send_latched c e cmd args h, Flush_latched c e h, ReceiveWithTimeout_latched c e _ h,
    ReceiveWithTimeout_latched c e timeout h, DoWithTimeout_latched c e _ cmd args h,
    DoWithTimeout_latched c e timeout cmd args h⟩

theorem latched_calls_keep_error_witness :
    closedConn.err = some (GoError.errorsNew "redigo: closed") ∧
      closedConn.Receive.2.2.Err = some (GoError.errorsNew "redigo: closed") ∧
      closeCount closedConn.Receive.2.2.stream.calls = closeCount closedConn.stream.calls :=
  ⟨by decide,
    (latched_calls_keep_error closedConn (GoError.errorsNew "redigo: closed") (by decide)
      [80, 73, 78, 71] [] 0).2.2.1⟩

/-! ## C4: a handshake command that fails -/

/-- The step of `DialContextQ` after an `AUTH` command that returns an error:
the two statements `session.CloseWithError(0, c.err.Error()); return nil, err`
run on the connection as `Do` leaves it. -/
theorem DialContextQ_auth_error (stream : Stream) (rd : BufioReader) (password : Bytes)
    (err : GoError) (c : quicConn) (hp : password ≠ [])
    (hc : c =
      { pending := 0, err := none, stream := stream, bw := newWriter, br := { rd := rd },
        readTimeout := 0, writeTimeout := 0 })
    (hdo : (c.Do (ascii "AUTH") [Arg.string password]).2.1 = some err) :
    DialContextQ none none stream rd [DialPassword password] =
      (c.Do (ascii "AUTH") [Arg.string password]).2.2.closeAndReturn err := by
  unfold DialContextQ
  simp only [List.foldl, DialPassword, hp, ne_eq, not_false_eq_true, if_true, if_false,
    not_true_eq_false, List.nil_append]
  rw [← hc]
  generalize c.Do (ascii "AUTH") [Arg.string password] = r at hdo ⊢
  rcases r with ⟨v, e1, c1⟩
  simp only at hdo
  subst hdo
  rfl

/-! ## The connection: `Do` on a stream that takes the command -/

theorem readReplies_succ_ok (n : Nat) (r r2 : reader) (rs : List Reply)
    (h : readReplies (n + 1) r = (rs, none, r2)) :
    ∃ x xs, rs = x :: xs ∧ r.readReply = (x, none, r.readReply.2.2) ∧
      readReplies n r.readReply.2.2 = (xs, none, r2) := by
  rw [readReplies] at h
  rcases hr : r.readReply with ⟨x, e, r1⟩
  rw [hr] at h
  cases e with
  | some e => simp at h
  | none =>
    simp only at h
    rcases hn : readReplies n r1 with ⟨xs, e2, r3⟩
    rw [hn] at h
    simp only [Prod.mk.injEq] at h
    obtain ⟨h1, h2, h3⟩ := h
    subst h2 h3
    exact ⟨x, xs, h1.symm, rfl, rfl⟩

theorem readReplies_length : ∀ (n : Nat) (r r2 : reader) (rs : List Reply),
    readReplies n r = (rs, none, r2) → rs.length = n := by
  intro n
  induction n with
  | zero =>
    intro r r2 rs h
    simp only [readReplies, Prod.mk.injEq] at h
    rw [← h.1]; rfl
  | succ n ih =>
    intro r r2 rs h
    obtain ⟨x, xs, h1, h2, h3⟩ := readReplies_succ_ok n r r2 rs h
    rw [h1, List.length_cons, ih _ _ _ h3]

/-- The loop of `Do` for a command when all `n` reads succeed: the value is
the last reply read and the error the first server error reply, after the one
already kept. -/
theorem doReadLast_ok : ∀ (n : Nat) (c : quicConn) (reply : Reply) (err : Option GoError)
    (rs : List Reply) (r2 : reader), readReplies n c.br = (rs, none, r2) →
    quicConn.doReadLast n c reply err =
      (rs.getLastD reply, (match err with | some e => some e | none => firstError rs),
        { c with br := r2 }) := by
  intro n
  induction n with
  | zero =>
    intro c reply err rs r2 h
    simp only [readReplies, Prod.mk.injEq] at h
    obtain ⟨h1, _, h3⟩ := h
    subst h1 h3
    cases err <;> rfl
  | succ n ih =>
    intro c reply err rs r2 h
    obtain ⟨x, xs, h1, h2, h3⟩ := readReplies_succ_ok n c.br r2 rs h
    rw [quicConn.doReadLast, h2]
    simp only
    rw [ih { c with br := c.br.readReply.2.2 } x _ xs r2 h3, h1]
    refine Prod.ext ?_ (Prod.ext ?_ rfl)
    · cases xs <;> rfl
    · cases err with
      | some e => cases x <;> rfl
      | none => cases x <;> simp [firstError]

/-- The loop of `Do` for an empty command when all `n` reads succeed: the value
is the array of the replies read, in order, and the error is nil. -/
theorem doReadAll_ok : ∀ (n : Nat) (c : quicConn) (acc : List Reply)
    (rs : List Reply) (r2 : reader), readReplies n c.br = (rs, none, r2) →
    quicConn.doReadAll n c acc = (Reply.array (acc ++ rs), none, { c with br := r2 }) := by
  intro n
  induction n with
  | zero =>
    intro c acc rs r2 h
    simp only [readReplies, Prod.mk.injEq] at h
    obtain ⟨h1, _, h3⟩ := h
    subst h1 h3
    simp [quicConn.doReadAll]
  | succ n ih =>
    intro c acc rs r2 h
    obtain ⟨x, xs, h1, h2, h3⟩ := readReplies_succ_ok n c.br r2 rs h
    rw [quicConn.doReadAll, h2]
    simp only
    rw [ih { c with br := c.br.readReply.2.2 } (acc ++ [x]) xs r2 h3, h1]
    simp

theorem writeDeadline_ok (t : Int) (s : Stream)
    (h : t = 0 ∨ (nextAnswer s.writeDeadlines).1 = none) :
    ∃ s1 : Stream, (if t ≠ 0 then s.SetWriteDeadline else (none, s)) = (none, s1) ∧
      s1.writeLimit = s.writeLimit ∧ s1.readDeadlines = s.readDeadlines ∧
      sentBytes s1.calls = sentBytes s.calls := by
  by_cases ht : t ≠ 0
  · have hn : (nextAnswer s.writeDeadlines).1 = none := by
      rcases h with h | h
      · exact absurd h ht
      · exact h
    rw [if_pos ht]
    refine ⟨s.SetWriteDeadline.2, ?_, rfl, rfl, ?_⟩
    · simp [Stream.SetWriteDeadline, hn]
    · simp [Stream.SetWriteDeadline, sentBytes_append, sentBytes]
  · rw [if_neg ht]
    exact ⟨s, rfl, rfl, rfl, rfl⟩

theorem writeStep_ok (w : writer) (s : Stream) (cmd : Bytes) (args : List Arg)
    (hb : w.wr.err = none) (hs : s.writeLimit = none) :
    ∃ (w2 : writer) (s2 : Stream),
      (if cmd ≠ [] then w.writeCommand s cmd args else (none, w, s)) = (none, w2, s2) ∧
      w2.wr.err = none ∧ s2.writeLimit = none ∧ s2.readDeadlines = s.readDeadlines ∧
      (w.lenScratch.length = 32 → GoCommand cmd args →
        pushed w2.wr s2 = pushed w.wr s ++ (if cmd ≠ [] then commandFrame cmd args else [])) := by
  by_cases hc : cmd ≠ []
  · simp only [if_pos hc]
    obtain ⟨a1, a2, a3⟩ := writeCommand_accepts w s cmd args
    obtain ⟨a4, a5⟩ := a3 hb hs
    refine ⟨(w.writeCommand s cmd args).2.1, (w.writeCommand s cmd args).2.2, ?_, ?_, a5, a1.2.1, ?_⟩
    · exact Prod.ext a4 rfl
    · exact a2.trans a4
    · intro hw hg
      exact writeCommand_appends w s cmd args hw hg a4
  · simp only [if_neg hc]
    exact ⟨w, s, rfl, hb, hs, rfl, fun _ _ => by simp⟩

theorem flushStep_ok (w : writer) (s : Stream) (hb : w.wr.err = none) (hs : s.writeLimit = none) :
    ∃ (w3 : writer) (s3 : Stream), w.flush s = (none, w3, s3) ∧ w3.wr.buf = [] ∧
      w3.wr.err = none ∧ s3.writeLimit = none ∧
      s3.readDeadlines = s.readDeadlines ∧ sentBytes s3.calls = pushed w.wr s := by
  obtain ⟨a1, a2⟩ := Flush_unlimited w.wr s hb hs
  obtain ⟨b1, b2, b3⟩ := Flush_ok w.wr s a1
  refine ⟨{ w with wr := (w.wr.Flush s).2.1 }, (w.wr.Flush s).2.2, ?_, b2, ?_, a2,
    (Flush_sameAnswers w.wr s).2.1, b3⟩
  · rw [flush_eq]
    exact Prod.ext a1 rfl
  · exact (Flush_err w.wr s).trans a1

theorem readDeadline_ok (s : Stream) (h : (nextAnswer s.readDeadlines).1 = none) :
    ∃ s4 : Stream, s.SetReadDeadline = (none, s4) ∧ sentBytes s4.calls = sentBytes s.calls ∧
      s4.writeLimit = s.writeLimit := by
  refine ⟨s.SetReadDeadline.2, ?_, ?_, rfl⟩
  · simp [Stream.SetReadDeadline, h]
  · simp [Stream.SetReadDeadline, sentBytes_append, sentBytes]

/-- The first part of `DoWithTimeout` on a connection whose buffered writer has
no sticky error and whose stream accepts the deadline calls and every write:
the command is written, the buffer is flushed, the read deadline is set, and
the call goes on with the loop that reads the replies. -/
theorem DoWithTimeout_reads (c : quicConn) (readTimeout : Int) (cmd : Bytes) (args : List Arg)
    (hne : ¬ (cmd = [] ∧ c.pending = 0))
    (hwd : c.writeTimeout = 0 ∨ (nextAnswer c.stream.writeDeadlines).1 = none)
    (hb : c.bw.wr.err = none) (hs : c.stream.writeLimit = none)
    (hrd : (nextAnswer c.stream.readDeadlines).1 = none) :
    ∃ (w3 : writer) (s4 : Stream),
      w3.wr.buf = [] ∧
      (c.bw.lenScratch.length = 32 → GoCommand cmd args →
        sentBytes s4.calls = sentBytes c.stream.calls ++ c.bw.wr.buf ++
          (if cmd ≠ [] then commandFrame cmd args else [])) ∧
      c.DoWithTimeout readTimeout cmd args =
        if cmd = [] then
          quicConn.doReadAll c.pending.toNat { c with pending := 0, bw := w3, stream := s4 } []
        else
          quicConn.doReadLast (c.pending + 1).toNat
            { c with pending := 0, bw := w3, stream := s4 } Reply.nil none := by
  obtain ⟨s1, d1, d2, d3, d4⟩ := writeDeadline_ok c.writeTimeout c.stream hwd
  obtain ⟨w2, s2, e1, e2, e3, e4, e5⟩ := writeStep_ok c.bw s1 cmd args hb (d2.trans hs)
  obtain ⟨w3, s3, f1, f2, f3, f4, f5, f6⟩ := flushStep_ok w2 s2 e2 e3
  obtain ⟨s4, g1, g2, g3⟩ := readDeadline_ok s3 (by rw [f5, e4, d3]; exact hrd)
  refine ⟨w3, s4, f2, ?_, ?_⟩
  · intro hw hg
    rw [g2, f6, e5 hw hg]
    simp [pushed, d4]
  · unfold quicConn.DoWithTimeout
    simp only [hne, if_false, d1, e1, f1, g1]

/-! ## The connection: `Do` when its writes succeed -/

/-- When the four steps before the reads return nil, `DoWithTimeout` is the
loop that reads the replies. -/
theorem DoWithTimeout_steps (c : quicConn) (readTimeout : Int) (cmd : Bytes) (args : List Arg)
    (hne : ¬ (cmd = [] ∧ c.pending = 0)) (h : c.sendsOk cmd args) :
    c.DoWithTimeout readTimeout cmd args =
      if cmd = [] then quicConn.doReadAll c.pending.toNat (c.beforeReads cmd args) []
      else quicConn.doReadLast (c.pending + 1).toNat (c.beforeReads cmd args) Reply.nil none := by
  obtain ⟨h1, h2, h3, h4⟩ := h
  have e1 : (if c.writeTimeout ≠ 0 then c.stream.SetWriteDeadline else (none, c.stream)) =
      (none, c.afterWriteDeadline.2) := Prod.ext h1 rfl
  have e2 : (if cmd ≠ [] then c.bw.writeCommand c.afterWriteDeadline.2 cmd args
      else (none, c.bw, c.afterWriteDeadline.2)) =
      (none, (c.afterWrite cmd args).2.1, (c.afterWrite cmd args).2.2) := Prod.ext h2 rfl
  have e3 : (c.afterWrite cmd args).2.1.flush (c.afterWrite cmd args).2.2 =
      (none, (c.afterFlush cmd args).2.1, (c.afterFlush cmd args).2.2) := Prod.ext h3 rfl
  have e4 : (c.afterFlush cmd args).2.2.SetReadDeadline =
      (none, (c.afterReadDeadline cmd args).2) := Prod.ext h4 rfl
  unfold quicConn.DoWithTimeout
  simp only [hne, if_false, e1, e2, e3, e4]
  rfl

/-- When the four steps before the reads return nil, the stream has received
what was buffered followed by the frame of the command, and the buffer is
empty. -/
theorem sendsOk_sent (c : quicConn) (cmd : Bytes) (args : List Arg) (h : c.sendsOk cmd args)
    (hw : c.bw.lenScratch.length = 32) (hg : GoCommand cmd args) :
    sentBytes (c.beforeReads cmd args).stream.calls =
        sentBytes c.stream.calls ++ c.bw.wr.buf ++ (if cmd ≠ [] then commandFrame cmd args else []) ∧
      (c.beforeReads cmd args).bw.wr.buf = [] := by
  obtain ⟨h1, h2, h3, h4⟩ := h
  have d1 : sentBytes c.afterWriteDeadline.2.calls = sentBytes c.stream.calls := by
    unfold quicConn.afterWriteDeadline
    split
    · simp [Stream.SetWriteDeadline, sentBytes_append, sentBytes]
    · rfl
  have d2 : pushed (c.afterWrite cmd args).2.1.wr (c.afterWrite cmd args).2.2 =
      pushed c.bw.wr c.afterWriteDeadline.2 ++ (if cmd ≠ [] then commandFrame cmd args else []) := by
    unfold quicConn.afterWrite at h2 ⊢
    by_cases hc : cmd ≠ []
    · simp only [if_pos hc] at h2 ⊢
      exact writeCommand_appends c.bw _ cmd args hw hg h2
    · simp only [if_neg hc]
      simp
  have d3 := Flush_ok (c.afterWrite cmd args).2.1.wr (c.afterWrite cmd args).2.2 h3
  have d4 : sentBytes (c.afterReadDeadline cmd args).2.calls =
      sentBytes (c.afterFlush cmd args).2.2.calls := by
    simp [quicConn.afterReadDeadline, Stream.SetReadDeadline, sentBytes_append, sentBytes]
  refine ⟨?_, d3.2.1⟩
  show sentBytes (c.afterReadDeadline cmd args).2.calls = _
  rw [d4]
  show sentBytes ((c.afterWrite cmd args).2.1.wr.Flush (c.afterWrite cmd args).2.2).2.2.calls = _
  rw [d3.2.2]
  have := d2
  unfold pushed at this
  rw [this, d1]

/-- The four steps before the reads return nil when the buffered writer has no
sticky error and the stream accepts the deadline calls and every write. -/
theorem sendsOk_of_accepting (c : quicConn) (cmd : Bytes) (args : List Arg)
    (hwd : c.writeTimeout = 0 ∨ (nextAnswer c.stream.writeDeadlines).1 = none)
    (hb : c.bw.wr.err = none) (hs : c.stream.writeLimit = none)
    (hrd : (nextAnswer c.stream.readDeadlines).1 = none) : c.sendsOk cmd args := by
  obtain ⟨s1, d1, d2, d3, d4⟩ := writeDeadline_ok c.writeTimeout c.stream hwd
  have a1 : c.afterWriteDeadline = (none, s1) := d1
  obtain ⟨w2, s2, e1, e2, e3, e4, e5⟩ := writeStep_ok c.bw s1 cmd args hb (d2.trans hs)
  have a2 : c.afterWrite cmd args = (none, w2, s2) := by
    unfold quicConn.afterWrite
    rw [a1]
    exact e1
  obtain ⟨w3, s3, f1, f2, f3, f4, f5, f6⟩ := flushStep_ok w2 s2 e2 e3
  have a3 : c.afterFlush cmd args = (none, w3, s3) := by
    unfold quicConn.afterFlush
    rw [a2]
    exact f1
  obtain ⟨s4, g1, g2, g3⟩ := readDeadline_ok s3 (by rw [f5, e4, d3]; exact hrd)
  have a4 : c.afterReadDeadline cmd args = (none, s4) := by
    unfold quicConn.afterReadDeadline
    rw [a3]
    exact g1
  exact ⟨by rw [a1], by rw [a2], by rw [a3], by rw [a4]⟩

/-! ## C6 and C7: what `Do` returns -/

theorem getLast?_getLastD (rs : List Reply) (d : Reply) (h : rs ≠ []) :
    rs.getLast? = some (rs.getLastD d) := by
  cases rs with
  | nil => exact absurd rfl h
  | cons x xs => simp [List.getLast?_eq_getLast, List.getLastD]

/-- The whole of `DoWithTimeout` for a command that is written and flushed and
whose `p + 1` reads succeed. -/
theorem DoWithTimeout_command_ok (c : quicConn) (readTimeout : Int) (cmd : Bytes)
    (args : List Arg) (p : Nat) (rs : List Reply) (r2 : reader)
    (hcmd : cmd ≠ []) (hp : c.pending = p) (hsend : c.sendsOk cmd args)
    (hreads : readReplies (p + 1) c.br = (rs, none, r2)) :
    c.DoWithTimeout readTimeout cmd args =
      (rs.getLastD Reply.nil, firstError rs, { c.beforeReads cmd args with br := r2 }) := by
  have hn : (c.pending + 1).toNat = p + 1 := by rw [hp]; omega
  rw [DoWithTimeout_steps c readTimeout cmd args (fun h => hcmd h.1) hsend, if_neg hcmd, hn,
    doReadLast_ok (p + 1) (c.beforeReads cmd args) Reply.nil none rs r2 hreads]

/-- C6.  `Do` (`DoWithTimeout`) with a non-empty command on a connection with
`p` pending replies.  When the steps before the reads return nil (`sendsOk`:
the write deadline is set if configured, the command is written, the buffer is
flushed, the read deadline is set) and the `p + 1` reads that follow all
succeed, with `rs` the replies read: the call has read exactly these `p + 1`
replies, returns the last of them as the value and the first server error
reply among them as the error (nil when there is none), and leaves `pending`
at 0 and the terminal error as it was; with a 32-byte scratch space and Go
lengths the stream has received what was buffered followed by the frame of the
command.  The steps before the reads do return nil when the buffered writer
has no sticky error and the stream accepts the deadline calls and the
writes. -/
theorem Do_command_last_reply_first_error (c : quicConn) (readTimeout : Int) (cmd : Bytes)
    (args : List Arg) (p : Nat) (rs : List Reply) (r2 : reader)
    (hcmd : cmd ≠ []) (hp : c.pending = p) (hsend : c.sendsOk cmd args)
    (hreads : readReplies (p + 1) c.br = (rs, none, r2)) :
    rs.length = p + 1 ∧
    rs.getLast? = some (c.DoWithTimeout readTimeout cmd args).1 ∧
    (c.DoWithTimeout readTimeout cmd args).2.1 = firstError rs ∧
    (c.DoWithTimeout readTimeout cmd args).2.2.br = r2 ∧
    (c.DoWithTimeout readTimeout cmd args).2.2.pending = 0 ∧
    (c.DoWithTimeout readTimeout cmd args).2.2.err = c.err ∧
    (c.bw.lenScratch.length = 32 → GoCommand cmd args →
      sentBytes (c.DoWithTimeout readTimeout cmd args).2.2.stream.calls =
        sentBytes c.stream.calls ++ c.bw.wr.buf ++ commandFrame cmd args) ∧
    c.Do cmd args = c.DoWithTimeout c.readTimeout cmd args ∧
    ((c.writeTimeout = 0 ∨ (nextAnswer c.stream.writeDeadlines).1 = none) →
      c.bw.wr.err = none → c.stream.writeLimit = none →
      (nextAnswer c.stream.readDeadlines).1 = none → c.sendsOk cmd args) := by
  have hlen := readReplies_length _ _ _ _ hreads
  have hne : rs ≠ [] := by
    intro h
    rw [h] at hlen
    simp at hlen
  rw [DoWithTimeout_command_ok c readTimeout cmd args p rs r2 hcmd hp hsend hreads]
  refine ⟨hlen, getLast?_getLastD rs Reply.nil hne, rfl, rfl, rfl, rfl, ?_, rfl,
    sendsOk_of_accepting c cmd args⟩
  intro hw hg
  have := (sendsOk_sent c cmd args hsend hw hg).1
  rw [if_pos hcmd] at this
  exact this

theorem Do_command_last_reply_first_error_witness :
    ([80, 73, 78, 71] : Bytes) ≠ [] ∧
      ({ freshConn [45, 120, 13, 10, 43, 79, 75, 13, 10, 45, 121, 13, 10, 58, 49, 13, 10] with
          pending := 3 } : quicConn).pending = 3 ∧
      ({ freshConn [45, 120, 13, 10, 43, 79, 75, 13, 10, 45, 121, 13, 10, 58, 49, 13, 10] with
          pending := 3 } : quicConn).sendsOk [80, 73, 78, 71] [] ∧
      readReplies (3 + 1) (readerOf [45, 120, 13, 10, 43, 79, 75, 13, 10, 45, 121, 13, 10, 58, 49,
          13, 10]) =
        ([Reply.Error [120], Reply.string [79, 75], Reply.Error [121], Reply.int64 1], none,
          readerOf []) ∧
      (({ freshConn [45, 120, 13, 10, 43, 79, 75, 13, 10, 45, 121, 13, 10, 58, 49, 13, 10] with
          pending := 3 } : quicConn).DoWithTimeout 0 [80, 73, 78, 71] []).2.1 =
        firstError [Reply.Error [120], Reply.string [79, 75], Reply.Error [121], Reply.int64 1] ∧
      firstError [Reply.Error [120], Reply.string [79, 75], Reply.Error [121], Reply.int64 1] =
        some (GoError.Error [120]) :=
  ⟨by decide, rfl, sendsOk_of_accepting _ _ _ (Or.inl rfl) rfl rfl rfl, rfl,
    (Do_command_last_reply_first_error
      { freshConn [45, 120, 13, 10, 43, 79, 75, 13, 10, 45, 121, 13, 10, 58, 49, 13, 10] with
        pending := 3 } 0 [80, 73, 78, 71] [] 3
      [Reply.Error [120], Reply.string [79, 75], Reply.Error [121], Reply.int64 1] (readerOf [])
      (by decide) rfl (sendsOk_of_accepting _ _ _ (Or.inl rfl) rfl rfl rfl) rfl).2.2.1,
    rfl⟩

/-- C7 (counterexample).  With no pending reply, `Do` with an empty command
returns the nil value, which is not the empty sequence of replies, and touches
neither the buffer nor the stream. -/
theorem Do_empty_nothing_pending_counterexample :
    ((freshConn []).Do [] []).1 = Reply.nil ∧
    ((freshConn []).Do [] []).1 ≠ Reply.array [] ∧
    ((freshConn []).Do [] []).2.2.stream.calls = [] := by
  refine ⟨rfl, ?_, rfl⟩
  intro h
  have h1 : ((freshConn []).Do [] []).1 = Reply.nil := rfl
  rw [h1] at h
  cases h

/-- C7 (amended).  `Do` (`DoWithTimeout`) with an empty command on a connection
with `p` pending replies.  With `p` at least 1, when the steps before the reads
return nil (`sendsOk`: the write deadline is set if configured, the buffer is
flushed, the read deadline is set) and the `p` reads all succeed, with `rs`
the replies read, the call returns the array of exactly these `p` replies in
the order read, server error replies among them, with a nil error.  With
`p = 0` the call returns the nil value and a nil error and leaves the writer
and the stream alone, whatever the stream would answer. -/
theorem Do_empty_returns_pending_replies (c : quicConn) (readTimeout : Int) (args : List Arg)
    (p : Nat) (rs : List Reply) (r2 : reader) (hp : c.pending = p) :
    (1 ≤ p → c.sendsOk [] args → readReplies p c.br = (rs, none, r2) →
      rs.length = p ∧
      (c.DoWithTimeout readTimeout [] args).1 = Reply.array rs ∧
      (c.DoWithTimeout readTimeout [] args).2.1 = none ∧
      (c.DoWithTimeout readTimeout [] args).2.2.br = r2) ∧
    (p = 0 →
      c.DoWithTimeout readTimeout [] args = (Reply.nil, none, { c with pending := 0 })) ∧
    c.Do [] args = c.DoWithTimeout c.readTimeout [] args := by
  refine ⟨?_, ?_, rfl⟩
  · intro h1 hsend hreads
    have hn : c.pending.toNat = p := by rw [hp]; omega
    rw [DoWithTimeout_steps c readTimeout [] args
        (fun h => by have := h.2; rw [hp] at this; omega) hsend,
      if_pos rfl, hn, doReadAll_ok p (c.beforeReads [] args) [] rs r2 hreads]
    exact ⟨readReplies_length _ _ _ _ hreads, by simp, rfl, rfl⟩
  · intro h0
    have : c.pending = 0 := by rw [hp, h0]; rfl
    simp [quicConn.DoWithTimeout, this]

theorem Do_empty_returns_pending_replies_witness :
    ({ freshConn [45, 120, 13, 10, 43, 79, 75, 13, 10] with pending := 2 } : quicConn).pending = 2 ∧
      ({ freshConn [45, 120, 13, 10, 43, 79, 75, 13, 10] with pending := 2 } : quicConn).sendsOk
        [] [] ∧
      readReplies 2 (readerOf [45, 120, 13, 10, 43, 79, 75, 13, 10]) =
        ([Reply.Error [120], Reply.string [79, 75]], none, readerOf []) ∧
      (({ freshConn [45, 120, 13, 10, 43, 79, 75, 13, 10] with pending := 2 } :
          quicConn).DoWithTimeout 0 [] []).1 =
        Reply.array [Reply.Error [120], Reply.string [79, 75]] ∧
      (({ freshConn [45, 120, 13, 10, 43, 79, 75, 13, 10] with pending := 2 } :
          quicConn).DoWithTimeout 0 [] []).2.1 = none ∧
      ¬ ({ freshConn [] with
            writeTimeout := 1,
            stream := { freshStream with writeDeadlines := [some (GoError.transport 1)] } } :
          quicConn).sendsOk [] [] ∧
      ({ freshConn [] with
            writeTimeout := 1,
            stream := { freshStream with writeDeadlines := [some (GoError.transport 1)] } } :
          quicConn).DoWithTimeout 0 [] [] =
        (Reply.nil, none,
          { freshConn [] with
            writeTimeout := 1,
            stream := { freshStream with writeDeadlines := [some (GoError.transport 1)] } }) :=
  ⟨rfl, sendsOk_of_accepting _ _ _ (Or.inl rfl) rfl rfl rfl, rfl,
    ((Do_empty_returns_pending_replies
      { freshConn [45, 120, 13, 10, 43, 79, 75, 13, 10] with pending := 2 } 0 [] 2
      [Reply.Error [120], Reply.string [79, 75]] (readerOf []) rfl).1 (by decide)
      (sendsOk_of_accepting _ _ _ (Or.inl rfl) rfl rfl rfl) rfl).2.1,
    ((Do_empty_returns_pending_replies
      { freshConn [45, 120, 13, 10, 43, 79, 75, 13, 10] with pending := 2 } 0 [] 2
      [Reply.Error [120], Reply.string [79, 75]] (readerOf []) rfl).1 (by decide)
      (sendsOk_of_accepting _ _ _ (Or.inl rfl) rfl rfl rfl) rfl).2.2.1,
    fun h => absurd h.1 (by decide),
    (Do_empty_returns_pending_replies
      { freshConn [] with
        writeTimeout := 1,
        stream := { freshStream with writeDeadlines := [some (GoError.transport 1)] } }
      0 [] 0 [] (readerOf []) rfl).2.1 rfl⟩

/-! ## C4: the rejected password -/

/-- C4 (failing input).  Dialing with the password `"secret"` a server that
answers `AUTH` with `"-ERR invalid password\\r\\n"`: `Do` returns the server
error and sets no terminal error, so `DialContextQ` panics on
`c.err.Error()` instead of closing the stream and returning the error. -/
theorem DialContextQ_rejected_password_panics :
    ∃ s : Stream,
      DialContextQ none none freshStream
        { data := [45, 69, 82, 82, 32, 105, 110, 118, 97, 108, 105, 100, 32, 112, 97, 115, 115,
            119, 111, 114, 100, 13, 10], err := GoError.EOF }
        [DialPassword [115, 101, 99, 114, 101, 116]] = DialOutcome.panicked s := by
  have hk := DoWithTimeout_command_ok
    (freshConn [45, 69, 82, 82, 32, 105, 110, 118, 97, 108, 105, 100, 32, 112, 97, 115, 115,
      119, 111, 114, 100, 13, 10])
    (freshConn [45, 69, 82, 82, 32, 105, 110, 118, 97, 108, 105, 100, 32, 112, 97, 115, 115,
      119, 111, 114, 100, 13, 10]).readTimeout
    (ascii "AUTH") [Arg.string [115, 101, 99, 114, 101, 116]] 0
    [Reply.Error [69, 82, 82, 32, 105, 110, 118, 97, 108, 105, 100, 32, 112, 97, 115, 115,
      119, 111, 114, 100]] (readerOf []) (by decide) rfl
    (sendsOk_of_accepting _ _ _ (Or.inl rfl) rfl rfl rfl) rfl
  have h8 : (freshConn [45, 69, 82, 82, 32, 105, 110, 118, 97, 108, 105, 100, 32, 112, 97, 115,
      115, 119, 111, 114, 100, 13, 10]).Do (ascii "AUTH")
        [Arg.string [115, 101, 99, 114, 101, 116]] =
      (freshConn [45, 69, 82, 82, 32, 105, 110, 118, 97, 108, 105, 100, 32, 112, 97, 115,
        115, 119, 111, 114, 100, 13, 10]).DoWithTimeout
        (freshConn [45, 69, 82, 82, 32, 105, 110, 118, 97, 108, 105, 100, 32, 112, 97, 115, 115,
          119, 111, 114, 100, 13, 10]).readTimeout (ascii "AUTH")
        [Arg.string [115, 101, 99, 114, 101, 116]] := rfl
  have h3' : ((freshConn [45, 69, 82, 82, 32, 105, 110, 118, 97, 108, 105, 100, 32, 112, 97, 115,
      115, 119, 111, 114, 100, 13, 10]).Do (ascii "AUTH")
        [Arg.string [115, 101, 99, 114, 101, 116]]).2.1 =
      some (GoError.Error [69, 82, 82, 32, 105, 110, 118, 97, 108, 105, 100, 32, 112, 97, 115,
        115, 119, 111, 114, 100]) := by
    rw [h8, hk]
    rfl
  have h6' : ((freshConn [45, 69, 82, 82, 32, 105, 110, 118, 97, 108, 105, 100, 32, 112, 97, 115,
      115, 119, 111, 114, 100, 13, 10]).Do (ascii "AUTH")
        [Arg.string [115, 101, 99, 114, 101, 116]]).2.2.err = none := by
    rw [h8, hk]
    rfl
  have hd := DialContextQ_auth_error freshStream
    { data := [45, 69, 82, 82, 32, 105, 110, 118, 97, 108, 105, 100, 32, 112, 97, 115, 115,
        119, 111, 114, 100, 13, 10], err := GoError.EOF }
    [115, 101, 99, 114, 101, 116]
    (GoError.Error [69, 82, 82, 32, 105, 110, 118, 97, 108, 105, 100, 32, 112, 97, 115, 115,
      119, 111, 114, 100])
    (freshConn [45, 69, 82, 82, 32, 105, 110, 118, 97, 108, 105, 100, 32, 112, 97, 115, 115,
      119, 111, 114, 100, 13, 10]) (by decide) rfl h3'
  refine ⟨((freshConn [45, 69, 82, 82, 32, 105, 110, 118, 97, 108, 105, 100, 32, 112, 97, 115,
    115, 119, 111, 114, 100, 13, 10]).Do (ascii "AUTH")
      [Arg.string [115, 101, 99, 114, 101, 116]]).2.2.stream, hd.trans ?_⟩
  generalize (freshConn [45, 69, 82, 82, 32, 105, 110, 118, 97, 108, 105, 100, 32, 112, 97, 115,
    115, 119, 111, 114, 100, 13, 10]).Do (ascii "AUTH")
      [Arg.string [115, 101, 99, 114, 101, 116]] = r at h6' ⊢
  unfold quicConn.closeAndReturn
  rw [h6']

/-! ## C8 and C9: `Receive` on a server error reply and on a decoding failure -/

theorem readReply_error_line (m rest : Bytes) (e : GoError) (hm : (10 : Nat) ∉ m) :
    reader.readReply { rd := { data := 45 :: m ++ 13 :: 10 :: rest, err := e } } =
      (Reply.Error m, none, { rd := { data := rest, err := e } }) := by
  have h1 := readLine_crlf (45 :: m) rest e (by
    intro h
    rcases List.mem_cons.mp h with h | h
    · omega
    · exact hm h)
  unfold reader.readReply
  rw [readReplyFuel, h1]
  simp

/-- C8.  For every message `m` of a reply line (a line ends at its first
`'\\n'`, so `m` holds none), on a connection whose read-deadline call succeeds
and whose next bytes on the stream are `"-" + m + "\\r\\n"`, `Receive` (`ReceiveWithTimeout`) returns no
reply value and the error of type `Error` with message `m`, consumes exactly
that line, takes one off `pending` when it is positive, and leaves the terminal
error as it was (unset when it was unset); `"-ERR unknown command\\r\\n"` gives
the error `"ERR unknown command"`. -/
theorem Receive_error_reply (c : quicConn) (timeout : Int) (m rest : Bytes) (e : GoError)
    (hm : (10 : Nat) ∉ m) (hd : (nextAnswer c.stream.readDeadlines).1 = none)
    (hdata : c.br = { rd := { data := 45 :: m ++ 13 :: 10 :: rest, err := e } }) :
    (c.ReceiveWithTimeout timeout).1 = Reply.nil ∧
    (c.ReceiveWithTimeout timeout).2.1 = some (GoError.Error m) ∧
    (c.ReceiveWithTimeout timeout).2.2.br = { rd := { data := rest, err := e } } ∧
    (c.ReceiveWithTimeout timeout).2.2.err = c.err ∧
    (c.ReceiveWithTimeout timeout).2.2.pending = (if c.pending > 0 then c.pending - 1 else c.pending) ∧
    c.Receive = c.ReceiveWithTimeout c.readTimeout ∧
    (freshConn [45, 69, 82, 82, 32, 117, 110, 107, 110, 111, 119, 110, 32, 99, 111, 109, 109, 97,
        110, 100, 13, 10]).Receive.2.1 =
      some (GoError.Error [69, 82, 82, 32, 117, 110, 107, 110, 111, 119, 110, 32, 99, 111, 109,
        109, 97, 110, 100]) := by
  obtain ⟨s4, g1, g2, g3⟩ := readDeadline_ok c.stream hd
  have hr := readReply_error_line m rest e hm
  rw [← hdata] at hr
  have key : c.ReceiveWithTimeout timeout =
      (Reply.nil, some (GoError.Error m),
        if c.pending > 0 then
          { c with stream := s4, br := { rd := { data := rest, err := e } },
                   pending := c.pending - 1 }
        else { c with stream := s4, br := { rd := { data := rest, err := e } } }) := by
    unfold quicConn.ReceiveWithTimeout
    rw [g1, hr]
  rw [key]
  refine ⟨rfl, rfl, ?_, ?_, ?_, rfl, by decide⟩
  · dsimp only; split <;> rfl
  · dsimp only; split <;> rfl
  · dsimp only; split <;> rfl

theorem Receive_error_reply_witness :
    (10 : Nat) ∉ [120] ∧
      (freshConn [45, 120, 13, 10, 43, 79, 75, 13, 10]).br =
        { rd := { data := 45 :: [120] ++ 13 :: 10 :: [43, 79, 75, 13, 10], err := GoError.EOF } } ∧
      ((freshConn [45, 120, 13, 10, 43, 79, 75, 13, 10]).ReceiveWithTimeout 0).2.1 =
        some (GoError.Error [120]) ∧
      ((freshConn [45, 120, 13, 10, 43, 79, 75, 13, 10]).ReceiveWithTimeout 0).2.2.err =
        (freshConn [45, 120, 13, 10, 43, 79, 75, 13, 10]).err :=
  ⟨by decide, rfl,
    (Receive_error_reply (freshConn [45, 120, 13, 10, 43, 79, 75, 13, 10]) 0 [120]
      [43, 79, 75, 13, 10] GoError.EOF (by decide) rfl rfl).2.1,
    (Receive_error_reply (freshConn [45, 120, 13, 10, 43, 79, 75, 13, 10]) 0 [120]
      [43, 79, 75, 13, 10] GoError.EOF (by decide) rfl rfl).2.2.2.1⟩

/-- C9.  On a connection with no terminal error whose read-deadline call
succeeds, when the `readReply` of `Receive` (`ReceiveWithTimeout`) fails with
the error `e`, the call returns no reply and `e`, and afterwards `Err()`
returns `e`; so it is for the reply line `"+OK"` that misses its `"\\r\\n"`. -/
theorem Receive_decode_failure_latches (c : quicConn) (timeout : Int) (e : GoError)
    (v : Reply) (r1 : reader) (hnone : c.err = none)
    (hd : (nextAnswer c.stream.readDeadlines).1 = none)
    (hr : c.br.readReply = (v, some e, r1)) :
    (c.ReceiveWithTimeout timeout).1 = Reply.nil ∧
    (c.ReceiveWithTimeout timeout).2.1 = some e ∧
    (c.ReceiveWithTimeout timeout).2.2.Err = some e ∧
    c.Receive = c.ReceiveWithTimeout c.readTimeout ∧
    ((freshConn [43, 79, 75]).Receive.2.1 = some GoError.EOF ∧
      (freshConn [43, 79, 75]).Receive.2.2.Err = some GoError.EOF) := by
  obtain ⟨s4, g1, g2, g3⟩ := readDeadline_ok c.stream hd
  have key : c.ReceiveWithTimeout timeout =
      quicConn.failNil { c with stream := s4, br := r1 } e := by
    unfold quicConn.ReceiveWithTimeout
    rw [g1, hr]
  rw [key]
  refine ⟨rfl, ?_, ?_, rfl, by decide⟩
  · simp [quicConn.failNil, quicConn.fatal, hnone]
  · simp [quicConn.failNil, quicConn.fatal, quicConn.Err, hnone]

theorem Receive_decode_failure_latches_witness :
    (freshConn [36, 53, 13, 10, 97]).err = none ∧
      (freshConn [36, 53, 13, 10, 97]).br.readReply =
        (Reply.nil, some GoError.ErrUnexpectedEOF, readerOf []) ∧
      ((freshConn [36, 53, 13, 10, 97]).ReceiveWithTimeout 0).2.2.Err =
        some GoError.ErrUnexpectedEOF :=
  ⟨rfl, rfl,
    (Receive_decode_failure_latches (freshConn [36, 53, 13, 10, 97]) 0 GoError.ErrUnexpectedEOF
      Reply.nil (readerOf []) rfl rfl rfl).2.2.1⟩

/-! ## The loops with fuel never run out of it -/

theorem writeLoop_stops (k : Nat) (b : BufioWriter) (s : Stream) (p : Bytes)
    (h : ¬ (p.length > b.Available ∧ b.err = none)) :
    BufioWriter.writeLoop k b s p = (p, b, s) := by
  cases k with
  | zero => rfl
  | succ k => rw [BufioWriter.writeLoop, if_neg h]

theorem writeStringLoop_stops (k : Nat) (b : BufioWriter) (s : Stream) (p : Bytes)
    (h : ¬ (p.length > b.Available ∧ b.err = none)) :
    BufioWriter.writeStringLoop k b s p = (p, b, s) := by
  cases k with
  | zero => rfl
  | succ k => rw [BufioWriter.writeStringLoop, if_neg h]

/-- After a write of `p` straight to the stream nothing is left to loop on. -/
theorem direct_write_stops (b : BufioWriter) (s : Stream) (p : Bytes) :
    ¬ ((p.drop (s.Write p).1).length > ({ b with err := (s.Write p).2.1 } : BufioWriter).Available ∧
      ({ b with err := (s.Write p).2.1 } : BufioWriter).err = none) := by
  intro h
  obtain ⟨h1, h2⟩ := h
  have := (Stream_Write_ok s p h2).1
  rw [this] at h1
  simp at h1

theorem writeLoop_empty_buffer (k : Nat) (b : BufioWriter) (s : Stream) (p : Bytes)
    (he : b.buf.length = 0) :
    BufioWriter.writeLoop (k + 1) b s p = BufioWriter.writeLoop 1 b s p := by
  rw [BufioWriter.writeLoop, BufioWriter.writeLoop]
  by_cases hc : p.length > b.Available ∧ b.err = none
  · simp only [if_pos hc, if_pos he]
    rw [writeLoop_stops k _ _ _ (direct_write_stops b s p),
      writeLoop_stops 0 _ _ _ (direct_write_stops b s p)]
  · simp only [if_neg hc]

/-- The loop of `bufio.Writer.Write` is over after two passes: more fuel than 2
changes nothing. -/
theorem writeLoop_two_passes (k : Nat) (b : BufioWriter) (s : Stream) (p : Bytes) :
    BufioWriter.writeLoop (k + 2) b s p = BufioWriter.writeLoop 2 b s p := by
  rw [BufioWriter.writeLoop, BufioWriter.writeLoop]
  by_cases hc : p.length > b.Available ∧ b.err = none
  · simp only [if_pos hc]
    by_cases he : b.buf.length = 0
    · simp only [if_pos he]
      exact writeLoop_empty_buffer k _ _ _ he
    · simp only [if_neg he]
      by_cases hf : (BufioWriter.Flush
          { b with buf := b.buf ++ p.take (min b.Available p.length) } s).1 = none
      · have := (Flush_ok _ _ hf).2.1
        exact writeLoop_empty_buffer k _ _ _ (by rw [this]; rfl)
      · have herr : ¬ ((p.drop (min b.Available p.length)).length >
            (BufioWriter.Flush { b with buf := b.buf ++ p.take (min b.Available p.length) } s).2.1.Available ∧
            (BufioWriter.Flush { b with buf := b.buf ++ p.take (min b.Available p.length) } s).2.1.err =
              none) := by
          intro h
          exact hf ((Flush_err _ _).symm.trans h.2)
        rw [writeLoop_stops (k + 1) _ _ _ herr, writeLoop_stops 1 _ _ _ herr]
  · simp only [if_neg hc]

/-- The loop of `bufio.Writer.WriteString` gives the same result for every fuel
that is at least the length of `p` plus one, and at least the length of `p`
when the buffer is empty. -/
theorem writeStringLoop_enough : ∀ (f1 f2 : Nat) (b : BufioWriter) (s : Stream) (p : Bytes),
    ((p.length + 1 ≤ f1 ∧ p.length + 1 ≤ f2) ∨ (b.buf = [] ∧ p.length ≤ f1 ∧ p.length ≤ f2)) →
    BufioWriter.writeStringLoop f1 b s p = BufioWriter.writeStringLoop f2 b s p := by
  intro f1
  induction f1 with
  | zero =>
    intro f2 b s p h
    have hp : p.length = 0 := by rcases h with h | h <;> omega
    have hc : ¬ (p.length > b.Available ∧ b.err = none) := by rw [hp]; simp
    rw [writeStringLoop_stops 0 _ _ _ hc, writeStringLoop_stops f2 _ _ _ hc]
  | succ f1 ih =>
    intro f2 b s p h
    by_cases hc : p.length > b.Available ∧ b.err = none
    · have hpos : 0 < p.length := by omega
      cases f2 with
      | zero => rcases h with h | h <;> omega
      | succ f2 =>
        rw [BufioWriter.writeStringLoop, BufioWriter.writeStringLoop]
        simp only [if_pos hc]
        by_cases hf : (BufioWriter.Flush
            { b with buf := b.buf ++ p.take (min b.Available p.length) } s).1 = none
        · have hbuf := (Flush_ok _ _ hf).2.1
          apply ih
          right
          refine ⟨hbuf, ?_, ?_⟩
          · rcases h with h | h
            · simp; omega
            · have ha : b.Available = defaultBufSize := by simp [BufioWriter.Available, h.1]
              rw [ha] at hc ⊢
              simp [defaultBufSize] at hc ⊢
              omega
          · rcases h with h | h
            · simp; omega
            · have ha : b.Available = defaultBufSize := by simp [BufioWriter.Available, h.1]
              rw [ha] at hc ⊢
              simp [defaultBufSize] at hc ⊢
              omega
        · have herr : ¬ ((p.drop (min b.Available p.length)).length >
              (BufioWriter.Flush
                { b with buf := b.buf ++ p.take (min b.Available p.length) } s).2.1.Available ∧
              (BufioWriter.Flush
                { b with buf := b.buf ++ p.take (min b.Available p.length) } s).2.1.err =
                none) := by
            intro h
            exact hf ((Flush_err _ _).symm.trans h.2)
          rw [writeStringLoop_stops f1 _ _ _ herr, writeStringLoop_stops f2 _ _ _ herr]
    · rw [writeStringLoop_stops _ _ _ _ hc, writeStringLoop_stops _ _ _ _ hc]

/-- The fuel `WriteString` gives its loop is enough: more changes nothing. -/
theorem WriteString_fuel (k : Nat) (b : BufioWriter) (s : Stream) (p : Bytes) :
    BufioWriter.writeStringLoop (p.length + 2 + k) b s p =
      BufioWriter.writeStringLoop (p.length + 2) b s p :=
  writeStringLoop_enough _ _ b s p (Or.inl ⟨by omega, by omega⟩)

theorem splitLine_some : ∀ (data line rest : Bytes), splitLine data = some (line, rest) →
    data = line ++ rest ∧ 0 < line.length := by
  intro data
  induction data with
  | nil => intro line rest h; simp [splitLine] at h
  | cons b data ih =>
    intro line rest h
    rw [splitLine] at h
    by_cases hb : b = 10
    · rw [if_pos hb] at h
      simp only [Option.some.injEq, Prod.mk.injEq] at h
      obtain ⟨h1, h2⟩ := h
      subst h1 h2
      simp
    · rw [if_neg hb] at h
      rcases hs : splitLine data with _ | ⟨l, r⟩
      · rw [hs] at h; simp at h
      · rw [hs] at h
        simp only [Option.some.injEq, Prod.mk.injEq] at h
        obtain ⟨h1, h2⟩ := h
        subst h1 h2
        obtain ⟨i1, _⟩ := ih l r hs
        rw [i1]
        simp

/-- A `readLine` that succeeds takes at least two bytes off the data. -/
theorem readLine_consumes (r r1 : reader) (line : Bytes) (h : r.readLine = (line, none, r1)) :
    r1.rd.data.length + 2 ≤ r.rd.data.length := by
  unfold reader.readLine BufioReader.ReadSlice at h
  rcases hs : splitLine r.rd.data with _ | ⟨p, rest⟩
  · rw [hs] at h; simp at h
  · rw [hs] at h
    obtain ⟨e1, _⟩ := splitLine_some _ _ _ hs
    simp only at h
    by_cases hc : ((p.length : Int) - 2 < 0 ∨ p.getD ((p.length : Int) - 2).toNat 0 ≠ 13)
    · rw [if_pos hc] at h; simp at h
    · rw [if_neg hc] at h
      simp only [Prod.mk.injEq] at h
      obtain ⟨_, _, h3⟩ := h
      rw [← h3, e1]
      simp only [List.length_append]
      omega

theorem ReadFull_consumes (rd rd2 : BufioReader) (n : Nat) (p : Bytes)
    (h : rd.ReadFull n = (p, none, rd2)) : rd2.data.length ≤ rd.data.length := by
  unfold BufioReader.ReadFull at h
  by_cases hc : n ≤ rd.data.length
  · rw [if_pos hc] at h
    simp only [Prod.mk.injEq] at h
    rw [← h.2.2]
    simp
  · rw [if_neg hc] at h
    simp at h

/-- A `readReply` that succeeds takes at least two bytes off the data, and a
run of `readReply` calls that succeeds does not add any, whatever the fuel. -/
theorem readReplyFuel_consumes : ∀ (f : Nat),
    (∀ (r r1 : reader) (v : Reply), readReplyFuel f r = (v, none, r1) →
      r1.rd.data.length + 2 ≤ r.rd.data.length) ∧
    (∀ (n : Nat) (r r2 : reader) (xs : List Reply), readElemsFuel f n r = (xs, none, r2) →
      r2.rd.data.length ≤ r.rd.data.length) := by
  intro f
  induction f with
  | zero =>
    refine ⟨?_, ?_⟩
    · intro r r1 v h
      simp [readReplyFuel] at h
    · intro n r r2 xs h
      cases n with
      | zero =>
        simp only [readElemsFuel, Prod.mk.injEq] at h
        rw [← h.2.2]
      | succ n => simp [readElemsFuel] at h
  | succ f ih =>
    obtain ⟨ihP, ihQ⟩ := ih
    refine ⟨?_, ?_⟩
    · intro r r1 v h
      rw [readReplyFuel] at h
      rcases hl : r.readLine with ⟨line, e, ra⟩
      rw [hl] at h
      cases e with
      | some e => simp at h
      | none =>
        have hc := readLine_consumes r ra line hl
        simp only at h
        split at h
        · simp at h
        · split at h
          · simp at h
          · rename_i c tail
            split at h
            · have : r1 = ra := by
                split at h
                · simp only [Prod.mk.injEq] at h; exact h.2.2.symm
                · split at h
                  · simp only [Prod.mk.injEq] at h; exact h.2.2.symm
                  · simp only [Prod.mk.injEq] at h; exact h.2.2.symm
              rw [this]; exact hc
            · split at h
              · simp only [Prod.mk.injEq] at h
                rw [← h.2.2]; exact hc
              · split at h
                · simp only [Prod.mk.injEq] at h
                  rw [← h.2.2]; exact hc
                · split at h
                  · split at h
                    · simp only [Prod.mk.injEq] at h
                      rw [← h.2.2]; exact hc
                    · split at h
                      · simp at h
                      · rename_i p rd2 hrf
                        have h2 := ReadFull_consumes _ _ _ _ hrf
                        split at h
                        · simp at h
                        · rename_i line2 r3 hl2
                          have h3 := readLine_consumes _ _ _ hl2
                          split at h
                          · simp at h
                          · simp only [Prod.mk.injEq] at h
                            rw [← h.2.2]
                            simp only at h3
                            omega
                  · split at h
                    · split at h
                      · simp only [Prod.mk.injEq] at h
                        rw [← h.2.2]; exact hc
                      · split at h
                        · simp at h
                        · rename_i x r2 he
                          have h2 := ihQ _ _ _ _ he
                          simp only [Prod.mk.injEq] at h
                          rw [← h.2.2]
                          omega
                    · simp at h
    · intro n r r2 xs h
      cases n with
      | zero =>
        simp only [readElemsFuel, Prod.mk.injEq] at h
        rw [← h.2.2]
      | succ n =>
        rw [readElemsFuel] at h
        split at h
        · simp at h
        · rename_i x r1 hr
          have h1 := ihP _ _ _ hr
          split at h
          · simp at h
          · rename_i xs1 r3 he
            have h2 := ihQ _ _ _ _ he
            simp only [Prod.mk.injEq] at h
            rw [← h.2.2]
            omega

/-- The fuel `readReply` gives `readReplyFuel`, the length of the data plus one,
is enough: every fuel at least as large gives the same result. -/
theorem readReplyFuel_enough_aux : ∀ (f1 : Nat),
    (∀ (f2 : Nat) (r : reader), r.rd.data.length + 1 ≤ f1 → r.rd.data.length + 1 ≤ f2 →
      readReplyFuel f1 r = readReplyFuel f2 r) ∧
    (∀ (f2 n : Nat) (r : reader), r.rd.data.length + 2 ≤ f1 → r.rd.data.length + 2 ≤ f2 →
      readElemsFuel f1 n r = readElemsFuel f2 n r) := by
  intro f1
  induction f1 with
  | zero =>
    refine ⟨?_, ?_⟩
    · intro f2 r h; omega
    · intro f2 n r h; omega
  | succ f1 ih =>
    obtain ⟨ihE, ihF⟩ := ih
    refine ⟨?_, ?_⟩
    · intro f2 r h1 h2
      cases f2 with
      | zero => omega
      | succ f2 =>
        rw [readReplyFuel, readReplyFuel]
        rcases hl : r.readLine with ⟨line, e, ra⟩
        cases e with
        | some e => rfl
        | none =>
          have hc := readLine_consumes r ra line hl
          have key : ∀ n, readElemsFuel f1 n ra = readElemsFuel f2 n ra :=
            fun n => ihF f2 n ra (by omega) (by omega)
          simp only [key]
    · intro f2 n r h1 h2
      cases f2 with
      | zero => omega
      | succ f2 =>
        cases n with
        | zero => rw [readElemsFuel, readElemsFuel]
        | succ n =>
          rw [readElemsFuel, readElemsFuel, ihE f2 r (by omega) (by omega)]
          rcases hr : readReplyFuel f2 r with ⟨x, e, r1⟩
          cases e with
          | some e => rfl
          | none =>
            have hc := (readReplyFuel_consumes f2).1 r r1 x hr
            simp only
            rw [ihF f2 n r1 (by omega) (by omega)]

theorem readReplyFuel_enough (k : Nat) (r : reader) :
    readReplyFuel (r.rd.data.length + 1 + k) r = r.readReply :=
  (readReplyFuel_enough_aux _).1 _ r (by omega) (by omega)

/-! ## The pending count -/

theorem fatal_pending (c : quicConn) (x : GoError) : (c.fatal x).2.pending = c.pending := by
  unfold quicConn.fatal
  split <;> rfl

theorem failWith_pending (c : quicConn) (x : GoError) : (c.failWith x).2.pending = c.pending :=
  fatal_pending c x

theorem failNil_pending (c : quicConn) (x : GoError) : (c.failNil x).2.2.pending = c.pending :=
  fatal_pending c x

theorem wrapInt_inRange (x : Int) (h1 : -9223372036854775808 ≤ x) (h2 : x ≤ maxInt) :
    wrapInt x = x := by
  unfold maxInt at h2
  unfold wrapInt
  omega

theorem Send_pending_wraps (c : quicConn) (cmd : Bytes) (args : List Arg) :
    (c.Send cmd args).2.pending = wrapInt (c.pending + 1) := by
  unfold quicConn.Send
  dsimp only
  split
  · rw [failWith_pending]
  · split
    · rw [failWith_pending]
    · rfl

theorem Send_pending (c : quicConn) (cmd : Bytes) (args : List Arg)
    (hlo : -9223372036854775808 ≤ c.pending) (hhi : c.pending < maxInt) :
    (c.Send cmd args).2.pending = c.pending + 1 := by
  rw [Send_pending_wraps, wrapInt_inRange _ (by omega) (by omega)]

theorem Flush_pending (c : quicConn) : c.Flush.2.pending = c.pending := by
  unfold quicConn.Flush
  split
  · rw [failWith_pending]
  · split
    · rw [failWith_pending]
    · rfl

theorem ReceiveWithTimeout_pending (c : quicConn) (timeout : Int) :
    (c.ReceiveWithTimeout timeout).2.2.pending = c.pending ∨
      (0 < c.pending ∧ (c.ReceiveWithTimeout timeout).2.2.pending = c.pending - 1) := by
  unfold quicConn.ReceiveWithTimeout
  split
  · left; rw [failNil_pending]
  · split
    · left; rw [failNil_pending]
    · dsimp only
      by_cases hp : c.pending > 0
      · right
        refine ⟨hp, ?_⟩
        simp only [hp, if_true]
        split <;> rfl
      · left
        simp only [hp, if_false]
        split <;> rfl

theorem doReadAll_pending : ∀ (n : Nat) (c : quicConn) (acc : List Reply),
    (quicConn.doReadAll n c acc).2.2.pending = c.pending := by
  intro n
  induction n with
  | zero => intro c acc; rfl
  | succ n ih =>
    intro c acc
    rw [quicConn.doReadAll]
    split
    · rw [failNil_pending]
    · rw [ih]

theorem doReadLast_pending : ∀ (n : Nat) (c : quicConn) (reply : Reply) (err : Option GoError),
    (quicConn.doReadLast n c reply err).2.2.pending = c.pending := by
  intro n
  induction n with
  | zero => intro c reply err; rfl
  | succ n ih =>
    intro c reply err
    rw [quicConn.doReadLast]
    split
    · rw [failNil_pending]
    · dsimp only
      rw [ih]

theorem DoWithTimeout_pending (c : quicConn) (readTimeout : Int) (cmd : Bytes) (args : List Arg) :
    (c.DoWithTimeout readTimeout cmd args).2.2.pending = 0 := by
  unfold quicConn.DoWithTimeout
  dsimp only
  split
  · rfl
  · split
    · rw [failNil_pending]
    · split
      · rw [failNil_pending]
      · split
        · rw [failNil_pending]
        · split
          · rw [failNil_pending]
          · split
            · rw [doReadAll_pending]
            · rw [doReadLast_pending]

theorem Close_pending (c : quicConn) : c.Close.2.pending = c.pending := by
  unfold quicConn.Close
  split <;> rfl

/-! ## C20: `Send` counts a pending reply even when it fails -/

/-- C20.  For every connection, command and argument list, `pending` after
`Send` is the Go `int` sum of `pending` and 1: the increment is the first
statement and no later branch touches `pending`, so this also holds when the
write deadline call fails, when writing the command fails, and when a terminal
error was already set.  With `pending` a Go `int` below the largest one, the
sum is exact: `pending` is one higher after the call than before. -/
theorem Send_counts_pending (c : quicConn) (cmd : Bytes) (args : List Arg)
    (hlo : -9223372036854775808 ≤ c.pending) (hhi : c.pending < maxInt) :
    (c.Send cmd args).2.pending = c.pending + 1 ∧
    (c.Send cmd args).2.pending = wrapInt (c.pending + 1) ∧
    (∀ e : GoError, (c.Send cmd args).1 = some e →
      (c.Send cmd args).2.pending = c.pending + 1) ∧
    (∀ e : GoError, c.err = some e → (c.Send cmd args).2.pending = c.pending + 1) :=
  ⟨Send_pending c cmd args hlo hhi, Send_pending_wraps c cmd args,
    fun _ _ => Send_pending c cmd args hlo hhi, fun _ _ => Send_pending c cmd args hlo hhi⟩

theorem Send_counts_pending_witness :
    -9223372036854775808 ≤ closedConn.pending ∧ closedConn.pending < maxInt ∧
    closedConn.err = some (GoError.errorsNew "redigo: closed") ∧
    (closedConn.Send [80, 73, 78, 71] []).2.pending = closedConn.pending + 1 :=
  ⟨by decide, by decide, by decide,
    (Send_counts_pending closedConn [80, 73, 78, 71] [] (by decide) (by decide)).1⟩

/-! ## C12: the pending count is never negative -/

/-- After one call from `pending` at least 0, `pending` is at least 0 and at
most one higher; the bound `pending < maxInt` is needed for `Send` only. -/
theorem after_pending_bounds (c : quicConn) (op : ConnOp) (h : 0 ≤ c.pending)
    (hb : c.pending < maxInt ∨ ∀ (cmd : Bytes) (args : List Arg), op ≠ ConnOp.Send cmd args) :
    0 ≤ (c.after op).pending ∧ (c.after op).pending ≤ c.pending + 1 := by
  cases op with
  | Send cmd args =>
    have hlt : c.pending < maxInt := by
      rcases hb with hb | hb
      · exact hb
      · exact absurd rfl (hb cmd args)
    show 0 ≤ (c.Send cmd args).2.pending ∧ (c.Send cmd args).2.pending ≤ c.pending + 1
    rw [Send_pending c cmd args (by omega) hlt]
    omega
  | Flush =>
    show 0 ≤ c.Flush.2.pending ∧ c.Flush.2.pending ≤ c.pending + 1
    rw [Flush_pending]
    omega
  | Receive =>
    show 0 ≤ (c.ReceiveWithTimeout c.readTimeout).2.2.pending ∧
      (c.ReceiveWithTimeout c.readTimeout).2.2.pending ≤ c.pending + 1
    rcases ReceiveWithTimeout_pending c c.readTimeout with h1 | ⟨h1, h2⟩
    · rw [h1]; omega
    · rw [h2]; omega
  | Do cmd args =>
    show 0 ≤ (c.DoWithTimeout c.readTimeout cmd args).2.2.pending ∧
      (c.DoWithTimeout c.readTimeout cmd args).2.2.pending ≤ c.pending + 1
    rw [DoWithTimeout_pending]
    omega
  | Close =>
    show 0 ≤ c.Close.2.pending ∧ c.Close.2.pending ≤ c.pending + 1
    rw [Close_pending]
    omega

theorem after_pending_le (c : quicConn) (op : ConnOp) (h : 0 ≤ c.pending)
    (hb : ∀ (cmd : Bytes) (args : List Arg), op ≠ ConnOp.Send cmd args) :
    (c.after op).pending ≤ c.pending := by
  cases op with
  | Send cmd args => exact absurd rfl (hb cmd args)
  | Flush => show c.Flush.2.pending ≤ c.pending; rw [Flush_pending]
  | Receive =>
    show (c.ReceiveWithTimeout c.readTimeout).2.2.pending ≤ c.pending
    rcases ReceiveWithTimeout_pending c c.readTimeout with h1 | ⟨h1, h2⟩
    · rw [h1]
    · rw [h2]; omega
  | Do cmd args =>
    show (c.DoWithTimeout c.readTimeout cmd args).2.2.pending ≤ c.pending
    rw [DoWithTimeout_pending]
    exact h
  | Close => show c.Close.2.pending ≤ c.pending; rw [Close_pending]

theorem afterAll_pending_nonneg : ∀ (ops : List ConnOp) (c : quicConn), 0 ≤ c.pending →
    c.pending + (sendCount ops : Int) ≤ maxInt → 0 ≤ (c.afterAll ops).pending := by
  intro ops
  induction ops with
  | nil => intro c h _; exact h
  | cons op ops ih =>
    intro c h hb
    cases op with
    | Send cmd args =>
      have hs : sendCount (ConnOp.Send cmd args :: ops) = sendCount ops + 1 := rfl
      rw [hs] at hb
      push_cast at hb
      obtain ⟨h1, h2⟩ := after_pending_bounds c (ConnOp.Send cmd args) h (Or.inl (by omega))
      exact ih _ h1 (by omega)
    | Flush =>
      have hs : sendCount (ConnOp.Flush :: ops) = sendCount ops := rfl
      rw [hs] at hb
      have h1 := (after_pending_bounds c ConnOp.Flush h (Or.inr (fun _ _ hc => by cases hc))).1
      have h2 := after_pending_le c ConnOp.Flush h (fun _ _ hc => by cases hc)
      exact ih _ h1 (by omega)
    | Receive =>
      have hs : sendCount (ConnOp.Receive :: ops) = sendCount ops := rfl
      rw [hs] at hb
      have h1 := (after_pending_bounds c ConnOp.Receive h (Or.inr (fun _ _ hc => by cases hc))).1
      have h2 := after_pending_le c ConnOp.Receive h (fun _ _ hc => by cases hc)
      exact ih _ h1 (by omega)
    | Do cmd args =>
      have hs : sendCount (ConnOp.Do cmd args :: ops) = sendCount ops := rfl
      rw [hs] at hb
      have h1 := (after_pending_bounds c (ConnOp.Do cmd args) h
        (Or.inr (fun _ _ hc => by cases hc))).1
      have h2 := after_pending_le c (ConnOp.Do cmd args) h (fun _ _ hc => by cases hc)
      exact ih _ h1 (by omega)
    | Close =>
      have hs : sendCount (ConnOp.Close :: ops) = sendCount ops := rfl
      rw [hs] at hb
      have h1 := (after_pending_bounds c ConnOp.Close h (Or.inr (fun _ _ hc => by cases hc))).1
      have h2 := after_pending_le c ConnOp.Close h (fun _ _ hc => by cases hc)
      exact ih _ h1 (by omega)

/-- C12.  From a connection with `pending` at least 0, after each of `Flush`,
`Receive`, `Do` and `Close`, after `Send` when `pending` is below the largest
Go `int`, and after every finite sequence of them in which the `Send` calls do
not take `pending` past the largest Go `int`, whatever the stream answers,
`pending` is at least 0; a `Receive` at `pending = 0` leaves it at 0. -/
theorem pending_never_negative (c : quicConn) (ops : List ConnOp) (h : 0 ≤ c.pending)
    (hb : c.pending + (sendCount ops : Int) ≤ maxInt) :
    0 ≤ (c.afterAll ops).pending ∧
    (∀ op : ConnOp,
      (c.pending < maxInt ∨ ∀ (cmd : Bytes) (args : List Arg), op ≠ ConnOp.Send cmd args) →
      0 ≤ (c.after op).pending) ∧
    (c.pending = 0 → c.Receive.2.2.pending = 0) := by
  refine ⟨afterAll_pending_nonneg ops c h hb,
    fun op hop => (after_pending_bounds c op h hop).1, ?_⟩
  intro h0
  rcases ReceiveWithTimeout_pending c c.readTimeout with h1 | ⟨h1, _⟩
  · exact h1.trans h0
  · omega

theorem pending_never_negative_witness :
    0 ≤ (freshConn []).pending ∧
      (freshConn []).pending + (sendCount [ConnOp.Receive, ConnOp.Receive, ConnOp.Send [80] [],
        ConnOp.Close, ConnOp.Receive] : Int) ≤ maxInt ∧
      0 ≤ ((freshConn []).afterAll [ConnOp.Receive, ConnOp.Receive, ConnOp.Send [80] [],
        ConnOp.Close, ConnOp.Receive]).pending :=
  ⟨by decide, by decide,
    (pending_never_negative (freshConn []) [ConnOp.Receive, ConnOp.Receive, ConnOp.Send [80] [],
      ConnOp.Close, ConnOp.Receive] (by decide) (by decide)).1⟩

/-! ## C11: `Close` -/

/-- C11 (counterexample).  On a connection with no terminal error whose session
closes without error, `Close` returns nil, the result of closing the session,
and not the terminal error "redigo: closed" that it has just set. -/
theorem Close_returns_close_result_counterexample :
    (freshConn []).err = none ∧
    (freshConn []).Close.1 = none ∧
    (freshConn []).Close.2.err = some (GoError.errorsNew "redigo: closed") ∧
    (freshConn []).Close.1 ≠ (freshConn []).Close.2.err := by
  decide

/-- C11 (amended).  On a connection with no terminal error, `Close` sets the
terminal error to the fixed "redigo: closed", closes the session once, and
returns what closing the session returned (nil when it closed without error);
on a connection that already has a terminal error, `Close` changes nothing,
does not close the session again, and returns that terminal error; a second
`Close` leaves the connection as the first left it. -/
theorem Close_sets_sentinel_once (c : quicConn) :
    (c.err = none →
      c.Close.2.err = some (GoError.errorsNew "redigo: closed") ∧
      c.Close.2.stream.calls = c.stream.calls ++ [Call.CloseWithError] ∧
      closeCount c.Close.2.stream.calls = closeCount c.stream.calls + 1 ∧
      c.Close.1 = (nextAnswer c.stream.closes).1) ∧
    (∀ e : GoError, c.err = some e → c.Close = (some e, c)) ∧
    c.Close.2.Close.2 = c.Close.2 ∧
    c.Close.2.Close.1 = c.Close.2.err := by
  have h1 : c.err = none →
      c.Close.2.err = some (GoError.errorsNew "redigo: closed") ∧
      c.Close.2.stream.calls = c.stream.calls ++ [Call.CloseWithError] ∧
      closeCount c.Close.2.stream.calls = closeCount c.stream.calls + 1 ∧
      c.Close.1 = (nextAnswer c.stream.closes).1 := by
    intro h
    simp [quicConn.Close, h, Stream.CloseWithError, closeCount_append, closeCount]
  have h2 : ∀ e : GoError, c.err = some e → c.Close = (some e, c) :=
    fun e h => Close_latched c e h
  have h3 : ∃ e, c.Close.2.err = some e := by
    cases hc : c.err with
    | none => exact ⟨_, (h1 hc).1⟩
    | some e => exact ⟨e, by rw [h2 e hc]; exact hc⟩
  obtain ⟨e, he⟩ := h3
  refine ⟨h1, h2, ?_, ?_⟩
  · rw [Close_latched c.Close.2 e he]
  · rw [Close_latched c.Close.2 e he, he]

theorem Close_sets_sentinel_once_witness :
    (freshConn []).err = none ∧
    (freshConn []).Close.1 = (nextAnswer (freshConn []).stream.closes).1 ∧
    closedConn.Close = (some (GoError.errorsNew "redigo: closed"), closedConn) :=
  ⟨rfl, ((Close_sets_sentinel_once (freshConn [])).1 rfl).2.2.2,
    (Close_sets_sentinel_once closedConn).2.1 _ rfl⟩

/-! ## C13: `N` sends, then `N` receives -/

theorem afterAll_append (c : quicConn) (xs ys : List ConnOp) :
    c.afterAll (xs ++ ys) = (c.afterAll xs).afterAll ys := by
  induction xs generalizing c with
  | nil => rfl
  | cons x xs ih => exact ih (c.after x)

theorem sendOps_pending (sends : List (Bytes × List Arg)) (c : quicConn)
    (h0 : 0 ≤ c.pending) (hb : c.pending + (sends.length : Int) ≤ maxInt) :
    (c.afterAll (sendOps sends)).pending = c.pending + sends.length := by
  induction sends generalizing c with
  | nil => simp [sendOps, quicConn.afterAll]
  | cons p sends ih =>
    rw [List.length_cons] at hb ⊢
    push_cast at hb ⊢
    have hs : (c.Send p.1 p.2).2.pending = c.pending + 1 :=
      Send_pending c p.1 p.2 (by omega) (by omega)
    show ((c.after (ConnOp.Send p.1 p.2)).afterAll (sendOps sends)).pending = _
    rw [ih (c.after (ConnOp.Send p.1 p.2)) (by show 0 ≤ (c.Send p.1 p.2).2.pending; omega)
      (by show (c.Send p.1 p.2).2.pending + _ ≤ _; omega)]
    show (c.Send p.1 p.2).2.pending + _ = _
    omega

/-- A `Receive` that does not read a reply leaves `pending` as it was. -/
theorem Receive_fails_pending (c : quicConn) (h : ¬ c.readsReply) :
    c.Receive.2.2.pending = c.pending := by
  unfold quicConn.Receive quicConn.ReceiveWithTimeout
  split
  · rw [failNil_pending]
  · rename_i s1 hd
    split
    · rw [failNil_pending]
    · rename_i reply r2 hr
      exact absurd ⟨by rw [hd], by rw [hr]⟩ h

theorem Receive_reads_pending (c : quicConn) (h : c.readsReply) :
    c.Receive.2.2.pending = if c.pending > 0 then c.pending - 1 else c.pending := by
  obtain ⟨hd, hr⟩ := h
  have h1 : c.stream.SetReadDeadline = (none, c.stream.SetReadDeadline.2) :=
    Prod.ext hd rfl
  have h2 : c.br.readReply = (c.br.readReply.1, none, c.br.readReply.2.2) :=
    Prod.ext rfl (Prod.ext hr rfl)
  unfold quicConn.Receive quicConn.ReceiveWithTimeout
  rw [h1]
  dsimp only
  rw [h2]
  dsimp only
  by_cases hp : c.pending > 0
  · simp only [hp, if_true]
    split <;> rfl
  · simp only [hp, if_false]
    split <;> rfl

theorem receiveOps_pending : ∀ (n : Nat) (c : quicConn), c.receivesRead n →
    (n : Int) ≤ c.pending → (c.afterAll (receiveOps n)).pending = c.pending - n := by
  intro n
  induction n with
  | zero => intro c _ _; simp [receiveOps, quicConn.afterAll]
  | succ n ih =>
    intro c h hp
    obtain ⟨h1, h2⟩ := h
    have h3 := Receive_reads_pending c h1
    have hpos : c.pending > 0 := by push_cast at hp; omega
    rw [if_pos hpos] at h3
    show (c.Receive.2.2.afterAll (receiveOps n)).pending = _
    rw [ih c.Receive.2.2 h2 (by rw [h3]; push_cast at hp; omega), h3]
    push_cast
    omega

/-- C13 (counterexample).  One `Send` followed by one `Receive` on a connection
whose incoming data has ended: the `Receive` fails before it reaches the
decrement, and `pending` is 1 after it, not 0. -/
theorem sends_then_receives_counterexample :
    (freshConn []).pending = 0 ∧
    ((freshConn []).afterAll (sendOps [(ascii "PING", [])] ++ receiveOps 1)).pending = 1 := by
  decide

/-- C13 (amended).  From `pending = 0`, after `N` calls of `Send` (any commands
and arguments, whether or not they succeed; `N` at most the largest Go `int`)
followed by `N` calls of `Receive` each of which reads a reply, `pending` is 0
again.  A `Receive` that does not read a reply (its deadline call or its read
fails) leaves `pending` as it was. -/
theorem sends_then_receives_pending (c : quicConn) (sends : List (Bytes × List Arg))
    (h0 : c.pending = 0) (hN : (sends.length : Int) ≤ maxInt)
    (hr : (c.afterAll (sendOps sends)).receivesRead sends.length) (c2 : quicConn) :
    (c.afterAll (sendOps sends ++ receiveOps sends.length)).pending = 0 ∧
    (¬ c2.readsReply → c2.Receive.2.2.pending = c2.pending) := by
  have hs := sendOps_pending sends c (by omega) (by omega)
  refine ⟨?_, Receive_fails_pending c2⟩
  rw [afterAll_append, receiveOps_pending _ _ hr (by rw [hs, h0]; omega), hs, h0]
  omega

theorem sends_then_receives_pending_witness :
    (freshConn (ascii "+OK\r\n")).pending = 0 ∧
    (([(ascii "PING", ([] : List Arg))] : List (Bytes × List Arg)).length : Int) ≤ maxInt ∧
    ((freshConn (ascii "+OK\r\n")).afterAll (sendOps [(ascii "PING", [])])).receivesRead 1 ∧
    ((freshConn (ascii "+OK\r\n")).afterAll
      (sendOps [(ascii "PING", [])] ++ receiveOps [(ascii "PING", ([] : List Arg))].length)).pending
        = 0 :=
  ⟨by decide, by decide, by decide,
    (sends_then_receives_pending (freshConn (ascii "+OK\r\n")) [(ascii "PING", [])] (by decide)
      (by decide) (by decide) (freshConn [])).1⟩

/-! ## C14: null bulk strings and null arrays -/

/-- One step of `readReply` on a `$` or `*` line with a negative length: the
"no data" value, no error, and nothing read after the line. -/
theorem readReplyFuel_null (fuel : Nat) (r r1 : reader) (c : Nat) (tail : Bytes) (n : Int)
    (hl : r.readLine = (c :: tail, none, r1)) (hc : c = 36 ∨ c = 42)
    (hp : parseLen tail = (n, none)) (hn : n < 0) :
    readReplyFuel (fuel + 1) r = (Reply.nil, none, r1) := by
  rw [readReplyFuel, hl]
  rcases hc with hc | hc <;> subst hc <;> simp [hp, hn]

/-- C14.  `readReply` on `"$-1\\r\\n"` returns the "no data" value (nil) and no
error, where on `"$0\\r\\n\\r\\n"` it returns the empty byte string; on
`"*-1\\r\\n"` it returns nil and no error, where on `"*0\\r\\n"` it returns
the empty array; nil is neither of the two; and in the two null cases the bytes
after the header line are all still unread. -/
theorem readReply_null (rest : Bytes) (e : GoError) :
    reader.readReply { rd := { data := [36, 45, 49, 13, 10] ++ rest, err := e } } =
      (Reply.nil, none, { rd := { data := rest, err := e } }) ∧
    reader.readReply { rd := { data := [36, 48, 13, 10, 13, 10] ++ rest, err := e } } =
      (Reply.bytes [], none, { rd := { data := rest, err := e } }) ∧
    reader.readReply { rd := { data := [42, 45, 49, 13, 10] ++ rest, err := e } } =
      (Reply.nil, none, { rd := { data := rest, err := e } }) ∧
    reader.readReply { rd := { data := [42, 48, 13, 10] ++ rest, err := e } } =
      (Reply.array [], none, { rd := { data := rest, err := e } }) ∧
    Reply.nil ≠ Reply.bytes [] ∧ Reply.nil ≠ Reply.array [] := by
  refine ⟨?_, ?_, ?_, ?_, ?_, ?_⟩
  · exact readReplyFuel_null _ _ _ 36 [45, 49] (-1)
      (readLine_crlf [36, 45, 49] rest e (by decide)) (Or.inl rfl) (by decide) (by decide)
  · have h := readReplyFuel_bulk ([36, 48, 13, 10, 13, 10] ++ rest).length [] rest e
    exact h
  · exact readReplyFuel_null _ _ _ 42 [45, 49] (-1)
      (readLine_crlf [42, 45, 49] rest e (by decide)) (Or.inr rfl) (by decide) (by decide)
  · have h := readReplyFuel_star ([42, 48, 13, 10] ++ rest).length _ _ [48] 0
      (readLine_crlf [42, 48] rest e (by decide)) (by decide)
    unfold reader.readReply
    refine h.trans ?_
    cases ([42, 48, 13, 10] ++ rest).length <;> rfl
  · intro h; cases h
  · intro h; cases h

/-! ## C17: decoding a bulk string -/

/-- `readReply` on a `$` header with the declared length `len(p)` followed by
`p`: the `len(p)` bytes are read whatever they are, and the outcome is decided
by the `readLine` of what comes after them. -/
theorem readReply_dollar_after (p after : Bytes) (e : GoError) :
    reader.readReply { rd := { data := lenLine 36 p.length ++ p ++ after, err := e } } =
      match reader.readLine { rd := { data := after, err := e } } with
      | (_, some err, r3) => (Reply.nil, some err, r3)
      | (line2, none, r3) =>
        if line2.length ≠ 0 then
          (Reply.nil, some (GoError.protocolError "bad bulk string format"), r3)
        else (Reply.bytes p, none, r3) := by
  have h1 := readLine_crlf (36 :: decimal p.length) (p ++ after) e
    (lenLine_no_lf 36 p.length (by decide))
  have hd : lenLine 36 p.length ++ p ++ after =
      (36 :: decimal p.length) ++ 13 :: 10 :: (p ++ after) := by
    simp [lenLine]
  unfold reader.readReply
  rw [hd, readReplyFuel_dollar _ _ _ _ p.length h1 (parseLen_decimal _)]
  simp [BufioReader.ReadFull]

/-- C17 (counterexample).  The header `"$1\\r\\n"` followed by the byte `a` and
then by `"X\\n"`: a declared length of 1, at least one byte after the header,
and no empty `"\\r\\n"`-terminated line after that byte.  `readReply` fails
with the ProtocolError "bad response line terminator" of `readLine`, not with
"bad bulk string format".  When the data ends right after the byte, it fails
with the read error `io.EOF`. -/
theorem readReply_bulk_counterexample :
    (reader.readReply (readerOf ([36, 49, 13, 10] ++ [97] ++ [88, 10]))).2.1 =
      some (GoError.protocolError "bad response line terminator") ∧
    (reader.readReply (readerOf ([36, 49, 13, 10] ++ [97] ++ [88, 10]))).2.1 ≠
      some (GoError.protocolError "bad bulk string format") ∧
    (reader.readReply (readerOf ([36, 49, 13, 10] ++ [97]))).2.1 = some GoError.EOF := by
  decide

/-- C17 (amended).  For every byte string `p` (bytes `'\\r'` and `'\\n'`
included), on `"$" + decimal(len(p)) + "\\r\\n" + p` followed by: `"\\r\\n"`,
`readReply` returns exactly `p` and leaves what follows; a non-empty line
`body` ended by `"\\r\\n"`, it fails with the ProtocolError "bad bulk string
format"; a line ended by `'\\n'` without `'\\r'` before it, it fails with the
ProtocolError "bad response line terminator"; no `'\\n'` at all, it fails with
the read error of the stream. -/
theorem readReply_bulk_string (p body rest : Bytes) (e : GoError) (hb : (10 : Nat) ∉ body) :
    reader.readReply { rd := { data := lenLine 36 p.length ++ p ++ ([13, 10] ++ rest), err := e } } =
      (Reply.bytes p, none, { rd := { data := rest, err := e } }) ∧
    (body ≠ [] →
      reader.readReply
          { rd := { data := lenLine 36 p.length ++ p ++ (body ++ 13 :: 10 :: rest), err := e } } =
        (Reply.nil, some (GoError.protocolError "bad bulk string format"),
          { rd := { data := rest, err := e } })) ∧
    (body.getLast? ≠ some 13 →
      reader.readReply
          { rd := { data := lenLine 36 p.length ++ p ++ (body ++ 10 :: rest), err := e } } =
        (Reply.nil, some (GoError.protocolError "bad response line terminator"),
          { rd := { data := rest, err := e } })) ∧
    reader.readReply { rd := { data := lenLine 36 p.length ++ p ++ body, err := e } } =
      (Reply.nil, some e, { rd := { data := [], err := e } }) := by
  refine ⟨?_, ?_, ?_, ?_⟩
  · rw [readReply_dollar_after]
    have h := readLine_crlf [] rest e (by simp)
    simp only [List.nil_append] at h
    show (match reader.readLine { rd := { data := 13 :: 10 :: rest, err := e } } with
      | (_, some err, r3) => (Reply.nil, some err, r3)
      | (line2, none, r3) =>
        if line2.length ≠ 0 then
          (Reply.nil, some (GoError.protocolError "bad bulk string format"), r3)
        else (Reply.bytes p, none, r3)) = _
    rw [h]
    rfl
  · intro hne
    rw [readReply_dollar_after, readLine_crlf body rest e hb]
    have : body.length ≠ 0 := fun h => hne (List.length_eq_zero.mp h)
    simp [this]
  · intro hl
    rw [readReply_dollar_after, readLine_bare_lf body rest e hb (by
      intro b hbb
      apply hl
      rw [hbb]
      simp)]
  · rw [readReply_dollar_after, readLine_no_lf body e hb]

theorem readReply_bulk_string_witness :
    (10 : Nat) ∉ [88] ∧ ([88] : Bytes) ≠ [] ∧ ([88] : Bytes).getLast? ≠ some 13 ∧
    reader.readReply
        { rd := { data := lenLine 36 [13, 10].length ++ [13, 10] ++ ([88] ++ 13 :: 10 :: []),
                  err := GoError.EOF } } =
      (Reply.nil, some (GoError.protocolError "bad bulk string format"),
        { rd := { data := [], err := GoError.EOF } }) ∧
    reader.readReply
        { rd := { data := lenLine 36 [13, 10].length ++ [13, 10] ++ ([88] ++ 10 :: []),
                  err := GoError.EOF } } =
      (Reply.nil, some (GoError.protocolError "bad response line terminator"),
        { rd := { data := [], err := GoError.EOF } }) :=
  ⟨by decide, by decide, by decide,
    (readReply_bulk_string [13, 10] [88] [] GoError.EOF (by decide)).2.1 (by decide),
    (readReply_bulk_string [13, 10] [88] [] GoError.EOF (by decide)).2.2.1 (by decide)⟩

/-! ## C16: the length prefix -/

/-- The digit loop does the stores of `writeLenStores`, in that order, and steps
the index down by one for each. -/
theorem writeLenLoop_stores : ∀ (fuel : Nat) (scratch : Bytes) (i n : Int),
    (writeLenLoop fuel scratch i n).1 =
      (writeLenStores fuel i n).foldl (fun sc x => sc.set x.1.toNat x.2) scratch ∧
    (writeLenLoop fuel scratch i n).2 = i - (writeLenStores fuel i n).length := by
  intro fuel
  induction fuel with
  | zero => intro scratch i n; simp [writeLenLoop, writeLenStores]
  | succ fuel ih =>
    intro scratch i n
    by_cases h : Int.tdiv n 10 = 0
    · simp [writeLenLoop, writeLenStores, h]
    · obtain ⟨h1, h2⟩ := ih (scratch.set i.toNat (byte (48 + Int.tmod n 10))) (i - 1)
        (Int.tdiv n 10)
      simp only [writeLenLoop, writeLenStores, h, if_false, List.foldl_cons, List.length_cons]
      refine ⟨h1, ?_⟩
      rw [h2]
      push_cast
      omega

/-- The stores of the digit loop for a natural number: pass `j` writes the
digit of weight `10 ^ j` at index `i - j`. -/
theorem writeLenStores_nat (k : Nat) : ∀ (fuel i : Nat),
    (decimal k).length ≤ fuel → (decimal k).length ≤ i + 1 →
    writeLenStores fuel i k =
      (List.range (decimal k).length).map
        (fun (j : Nat) => ((i : Int) - (j : Int), 48 + (k / 10 ^ j) % 10)) := by
  induction k using Nat.strong_induction_on with
  | _ k ih =>
    intro fuel i hf hi
    cases fuel with
    | zero =>
      have := List.length_pos.mpr (decimal_ne_nil k)
      omega
    | succ fuel =>
      by_cases h : k < 10
      · have hd : ((k / 10 : Nat) : Int) = 0 := by
          have : k / 10 = 0 := by omega
          simp [this]
        simp only [writeLenStores, tdiv_ten, hd, if_true, byte_digit]
        rw [decimal_lt_ten h]
        simp [List.range_succ]
      · have hd : ¬ ((k / 10 : Nat) : Int) = 0 := by
          have : k / 10 ≠ 0 := by omega
          exact_mod_cast this
        have hdec := decimal_ge_ten (show 10 ≤ k by omega)
        have hlen : (decimal k).length = (decimal (k / 10)).length + 1 := by rw [hdec]; simp
        have hpos2 : 0 < (decimal (k / 10)).length := List.length_pos.mpr (decimal_ne_nil _)
        simp only [writeLenStores, tdiv_ten, hd, if_false, byte_digit]
        have hi1 : ((i : Int) - 1) = ((i - 1 : Nat) : Int) := by omega
        rw [hi1, ih (k / 10) (by omega) fuel (i - 1) (by omega) (by omega), hlen,
          List.range_succ_eq_map]
        simp only [List.map_cons, List.map_map, Nat.cast_zero, sub_zero, pow_zero, Nat.div_one]
        congr 1
        apply List.map_congr_left
        intro j _
        simp only [Function.comp]
        rw [Nat.div_div_eq_div_mul, ← pow_succ']
        congr 1
        push_cast
        omega

/-- The decimal text of a positive number does not start with `'0'`. -/
theorem decimal_head (n : Nat) (h : 0 < n) : (decimal n).head? ≠ some 48 := by
  induction n using Nat.strong_induction_on with
  | _ n ih =>
    by_cases h1 : n < 10
    · rw [decimal_lt_ten h1]
      simp
      omega
    · rw [decimal_ge_ten (by omega)]
      have hne := decimal_ne_nil (n / 10)
      have := ih (n / 10) (by omega) (by omega)
      cases hd : decimal (n / 10) with
      | nil => exact absurd hd hne
      | cons x xs => rw [hd] at this; simpa using this

/-- C16.  For every first byte `pfx` and every length `n` below `2 ^ 63`, with
the 32-byte scratch space: a `writeLen` that returns nil has handed the
buffered writer exactly `pfx`, the decimal digits of `n` and `"\\r\\n"`, and it
returns nil on a stream that accepts every write; the digits are those of `n`
(they parse back to `n`), without a leading zero, `"0"` for 0; pass `j` of the
digit loop stores the digit of weight `10 ^ j` at index `29 - j`, so the
digits are filled backward from the least significant one; every index the
loop stores at, and the index left for `pfx`, is inside the scratch space. -/
theorem writeLen_length_line (w : writer) (s : Stream) (pfx n : Nat)
    (hw : w.lenScratch.length = 32) (hn : GoLen n) :
    ((w.writeLen s pfx n).1 = none →
      pushed (w.writeLen s pfx n).2.1.wr (w.writeLen s pfx n).2.2 =
        pushed w.wr s ++ ([pfx] ++ decimal n ++ [13, 10])) ∧
    (w.wr.err = none → s.writeLimit = none → (w.writeLen s pfx n).1 = none) ∧
    parseDigits (decimal n) = some n ∧
    (0 < n → (decimal n).head? ≠ some 48) ∧
    decimal 0 = [48] ∧
    writeLenStores 30 29 n =
      (List.range (decimal n).length).map
        (fun (j : Nat) => ((29 : Int) - (j : Int), 48 + (n / 10 ^ j) % 10)) ∧
    (∀ x ∈ writeLenStores 30 29 n, 0 ≤ x.1 ∧ x.1 < 32) ∧
    (∀ scratch : Bytes,
      (writeLenLoop 30 scratch 29 n).1 =
        (writeLenStores 30 29 n).foldl (fun sc x => sc.set x.1.toNat x.2) scratch ∧
      0 ≤ (writeLenLoop 30 scratch 29 n).2 ∧ (writeLenLoop 30 scratch 29 n).2 < 32) := by
  have hd := decimal_length_GoLen hn
  have hst : writeLenStores 30 29 n =
      (List.range (decimal n).length).map
        (fun (j : Nat) => ((29 : Int) - (j : Int), 48 + (n / 10 ^ j) % 10)) := by
    have h := writeLenStores_nat n 30 29 (by omega) (by omega)
    simp only [Nat.cast_ofNat] at h
    exact h
  refine ⟨?_, ?_, parseDigits_decimal n, decimal_head n, by decide, hst, ?_, ?_⟩
  · exact writeLen_appends w s pfx n hw hn
  · intro h1 h2
    exact ((writeLen_accepts w s pfx n).2.2 h1 h2).1
  · intro x hx
    rw [hst] at hx
    obtain ⟨j, hj, rfl⟩ := List.mem_map.mp hx
    have := List.mem_range.mp hj
    dsimp only
    omega
  · intro scratch
    obtain ⟨h1, h2⟩ := writeLenLoop_stores 30 scratch 29 n
    refine ⟨h1, ?_, ?_⟩
    · rw [h2, hst]
      simp
      omega
    · rw [h2]
      omega

theorem writeLen_length_line_witness :
    newWriter.lenScratch.length = 32 ∧ GoLen 305 ∧
    writeLenStores 30 29 305 = [(29, 53), (28, 48), (27, 51)] ∧
    (newWriter.writeLen freshStream 36 305).1 = none :=
  ⟨by decide, by decide,
    (writeLen_length_line newWriter freshStream 36 305 (by decide) (by decide)).2.2.2.2.2.1.trans
      (by decide),
    (writeLen_length_line newWriter freshStream 36 305 (by decide) (by decide)).2.1 rfl rfl⟩

/-! ## C18: custom arguments -/

theorem writeArgCounted_false (w : writer) (s : Stream) (a : Arg) :
    w.writeArgCounted s a false = (w.writeArg s a false, 0) := by
  cases a <;> rfl

theorem writeArgCounted_eq (w : writer) (s : Stream) (a : Arg) (ok : Bool) :
    (w.writeArgCounted s a ok).1 = w.writeArg s a ok ∧ (w.writeArgCounted s a ok).2 ≤ 1 := by
  cases ok with
  | false => rw [writeArgCounted_false]; exact ⟨rfl, Nat.zero_le 1⟩
  | true =>
    cases a with
    | Argument r printed =>
      show (w.writeArgCounted s r false).1 = w.writeArg s r false ∧
        (w.writeArgCounted s r false).2 + 1 ≤ 1
      rw [writeArgCounted_false]
      exact ⟨rfl, Nat.le_refl 1⟩
    | _ => exact ⟨rfl, Nat.zero_le 1⟩

theorem writeArg_primitive (w : writer) (s : Stream) (a : Arg) (h : a.primitive) (ok : Bool) :
    w.writeArg s a ok = w.writeArg s a true := by
  cases a <;> first | rfl | exact absurd h (by simp [Arg.primitive])

theorem argBytes_false_primitive (a : Arg) (h : a.primitive) : argBytes a false = byteForm a := by
  cases a with
  | bool b => cases b <;> rfl
  | Argument r printed => exact absurd h (by simp [Arg.primitive])
  | other printed => exact absurd h (by simp [Arg.primitive])
  | _ => rfl

/-- C18.  For an argument with the `Argument` capability, whose `RedisArg()`
returns `r` and whose `fmt.Fprint` text is `printed`, and a writer with its
32-byte scratch space: `writeArg` makes exactly one `RedisArg()` call.  For a
primitive `r` it does what `writeArg` does for `r` itself, and when it returns
nil the bytes handed to the buffered writer are exactly the bulk string of the
byte form of `r`.  For an `r` that again has the capability (`RedisArg()`
value `r2`, text `p2`), still one `RedisArg()` call is made, and when the call
returns nil the bytes handed over are exactly the bulk string of the text
`p2`, whatever `r2` is: `r` is not converted again.  For every argument `a`
and either flag, `writeArg` makes at most one `RedisArg()` call and fails only
when the buffered writer fails: on a writer without sticky error over a
stream that accepts every write it returns nil. -/
theorem writeArg_custom_argument (w : writer) (s : Stream) (r : Arg) (printed : Bytes)
    (a : Arg) (ok : Bool) (hw : w.lenScratch.length = 32) :
    (w.writeArgCounted s (Arg.Argument r printed) true).1 =
      w.writeArg s (Arg.Argument r printed) true ∧
    (w.writeArgCounted s (Arg.Argument r printed) true).2 = 1 ∧
    (r.primitive →
      w.writeArg s (Arg.Argument r printed) true = w.writeArg s r true ∧
      (GoLen (byteForm r).length →
        (w.writeArg s (Arg.Argument r printed) true).1 = none →
        pushed (w.writeArg s (Arg.Argument r printed) true).2.1.wr
            (w.writeArg s (Arg.Argument r printed) true).2.2 =
          pushed w.wr s ++ bulk (byteForm r))) ∧
    (∀ (r2 : Arg) (p2 : Bytes),
      (w.writeArgCounted s (Arg.Argument (Arg.Argument r2 p2) printed) true).2 = 1 ∧
      (GoLen p2.length →
        (w.writeArg s (Arg.Argument (Arg.Argument r2 p2) printed) true).1 = none →
        pushed (w.writeArg s (Arg.Argument (Arg.Argument r2 p2) printed) true).2.1.wr
            (w.writeArg s (Arg.Argument (Arg.Argument r2 p2) printed) true).2.2 =
          pushed w.wr s ++ bulk p2)) ∧
    (w.writeArgCounted s a ok).1 = w.writeArg s a ok ∧
    (w.writeArgCounted s a ok).2 ≤ 1 ∧
    (w.wr.err = none → s.writeLimit = none → (w.writeArg s a ok).1 = none) := by
  have hone : ∀ (x : Arg) (px : Bytes), (w.writeArgCounted s (Arg.Argument x px) true).2 = 1 := by
    intro x px
    show (w.writeArgCounted s x false).2 + 1 = 1
    rw [writeArgCounted_false]
  refine ⟨(writeArgCounted_eq w s _ true).1, hone r printed, ?_, ?_,
    (writeArgCounted_eq w s a ok).1, (writeArgCounted_eq w s a ok).2, ?_⟩
  · intro h
    refine ⟨?_, ?_⟩
    · rw [← writeArg_primitive w s r h false]
      simp [writer.writeArg]
    · intro hn
      have := writeArg_appends w s (Arg.Argument r printed) true hw
        (by
          show GoLen (argBytes r false).length
          rw [argBytes_false_primitive r h]
          exact hn)
      have e : argBytes (Arg.Argument r printed) true = byteForm r :=
        argBytes_false_primitive r h
      rw [e] at this
      exact this
  · intro r2 p2
    refine ⟨hone _ _, ?_⟩
    intro hn
    exact writeArg_appends w s (Arg.Argument (Arg.Argument r2 p2) printed) true hw hn
  · intro h1 h2
    exact ((writeArg_accepts w s a ok).2.2 h1 h2).1

theorem writeArg_custom_argument_witness :
    newWriter.lenScratch.length = 32 ∧ (Arg.int 7).primitive ∧
    GoLen (byteForm (Arg.int 7)).length ∧
    (newWriter.writeArg freshStream (Arg.Argument (Arg.int 7) [63]) true).1 = none ∧
    pushed (newWriter.writeArg freshStream (Arg.Argument (Arg.int 7) [63]) true).2.1.wr
        (newWriter.writeArg freshStream (Arg.Argument (Arg.int 7) [63]) true).2.2 =
      pushed newWriter.wr freshStream ++ bulk (byteForm (Arg.int 7)) ∧
    bulk (byteForm (Arg.int 7)) = [36, 49, 13, 10, 55, 13, 10] ∧
    GoLen ([97] : Bytes).length ∧
    (newWriter.writeArg freshStream (Arg.Argument (Arg.Argument (Arg.int 7) [97]) [98]) true).1 =
      none ∧
    pushed
        (newWriter.writeArg freshStream
          (Arg.Argument (Arg.Argument (Arg.int 7) [97]) [98]) true).2.1.wr
        (newWriter.writeArg freshStream
          (Arg.Argument (Arg.Argument (Arg.int 7) [97]) [98]) true).2.2 =
      pushed newWriter.wr freshStream ++ bulk [97] :=
  ⟨by decide, by decide, by decide,
    (writeArg_custom_argument newWriter freshStream (Arg.int 7) [63] Arg.nil true
      (by decide)).2.2.2.2.2.2 rfl rfl,
    ((writeArg_custom_argument newWriter freshStream (Arg.int 7) [63]
      (Arg.Argument (Arg.int 7) [63]) true (by decide)).2.2.1 (by decide)).2 (by decide)
      ((writeArg_custom_argument newWriter freshStream (Arg.int 7) [63]
        (Arg.Argument (Arg.int 7) [63]) true (by decide)).2.2.2.2.2.2 rfl rfl),
    by decide, by decide,
    (writeArg_custom_argument newWriter freshStream (Arg.int 7) [63]
      (Arg.Argument (Arg.Argument (Arg.int 7) [97]) [98]) true (by decide)).2.2.2.2.2.2 rfl rfl,
    ((writeArg_custom_argument newWriter freshStream (Arg.int 7) [63]
      (Arg.Argument (Arg.Argument (Arg.int 7) [97]) [98]) true
      (by decide)).2.2.2.1 (Arg.int 7) [97]).2 (by decide)
      ((writeArg_custom_argument newWriter freshStream (Arg.int 7) [63]
        (Arg.Argument (Arg.Argument (Arg.int 7) [97]) [98]) true (by decide)).2.2.2.2.2.2 rfl
        rfl)⟩

/-! ## The send buffer: what stays in it -/

theorem writeStringLoop_bound : ∀ (fuel : Nat) (b : BufioWriter) (s : Stream) (p : Bytes),
    (p.length + 1 ≤ fuel ∨ (b.buf = [] ∧ p.length ≤ fuel)) →
    b.buf.length ≤ defaultBufSize →
    (BufioWriter.writeStringLoop fuel b s p).2.1.err = none →
    (BufioWriter.writeStringLoop fuel b s p).2.1.buf.length +
      (BufioWriter.writeStringLoop fuel b s p).1.length ≤ defaultBufSize := by
  intro fuel
  induction fuel with
  | zero =>
    intro b s p h hb _
    have hp : p.length = 0 := by rcases h with h | h <;> omega
    show b.buf.length + p.length ≤ defaultBufSize
    omega
  | succ fuel ih =>
    intro b s p h hb he
    by_cases hc : p.length > b.Available ∧ b.err = none
    · rw [BufioWriter.writeStringLoop] at he ⊢
      simp only [if_pos hc] at he ⊢
      by_cases hf : (BufioWriter.Flush
          { b with buf := b.buf ++ p.take (min b.Available p.length) } s).1 = none
      · have hbuf := (Flush_ok _ _ hf).2.1
        apply ih _ _ _ _ (by rw [hbuf]; simp) he
        right
        refine ⟨hbuf, ?_⟩
        rcases h with h | h
        · simp; omega
        · have ha : b.Available = defaultBufSize := by simp [BufioWriter.Available, h.1]
          rw [ha] at hc ⊢
          simp [defaultBufSize] at hc ⊢
          omega
      · have herr : ¬ ((p.drop (min b.Available p.length)).length >
            (BufioWriter.Flush { b with buf := b.buf ++ p.take (min b.Available p.length) } s).2.1.Available ∧
            (BufioWriter.Flush { b with buf := b.buf ++ p.take (min b.Available p.length) } s).2.1.err =
              none) := by
          intro h
          exact hf ((Flush_err _ _).symm.trans h.2)
        rw [writeStringLoop_stops fuel _ _ _ herr] at he
        exact absurd ((Flush_err _ _).symm.trans he) hf
    · rw [writeStringLoop_stops _ _ _ _ hc] at he ⊢
      have he1 : b.err = none := he
      have : ¬ p.length > b.Available := fun h1 => hc ⟨h1, he1⟩
      show b.buf.length + p.length ≤ defaultBufSize
      unfold BufioWriter.Available at this
      omega

theorem writeLoop_bound : ∀ (fuel : Nat) (b : BufioWriter) (s : Stream) (p : Bytes),
    (2 ≤ fuel ∨ (b.buf.length = 0 ∧ 1 ≤ fuel)) →
    b.buf.length ≤ defaultBufSize →
    (BufioWriter.writeLoop fuel b s p).2.1.err = none →
    (BufioWriter.writeLoop fuel b s p).2.1.buf.length +
      (BufioWriter.writeLoop fuel b s p).1.length ≤ defaultBufSize := by
  intro fuel
  induction fuel with
  | zero => intro b s p h; omega
  | succ fuel ih =>
    intro b s p h hb he
    by_cases hc : p.length > b.Available ∧ b.err = none
    · rw [BufioWriter.writeLoop] at he ⊢
      simp only [if_pos hc] at he ⊢
      by_cases h0 : b.buf.length = 0
      · simp only [if_pos h0] at he ⊢
        rw [writeLoop_stops fuel _ _ _ (direct_write_stops b s p)] at he ⊢
        have he1 : (s.Write p).2.1 = none := he
        have := (Stream_Write_ok s p he1).1
        show b.buf.length + (p.drop (s.Write p).1).length ≤ defaultBufSize
        rw [this]
        simp
        omega
      · simp only [if_neg h0] at he ⊢
        by_cases hf : (BufioWriter.Flush
            { b with buf := b.buf ++ p.take (min b.Available p.length) } s).1 = none
        · have hbuf := (Flush_ok _ _ hf).2.1
          apply ih _ _ _ _ (by rw [hbuf]; simp) he
          right
          refine ⟨by rw [hbuf]; rfl, ?_⟩
          rcases h with h | h
          · omega
          · exact absurd h.1 h0
        · have herr : ¬ ((p.drop (min b.Available p.length)).length >
              (BufioWriter.Flush { b with buf := b.buf ++ p.take (min b.Available p.length) } s).2.1.Available ∧
              (BufioWriter.Flush { b with buf := b.buf ++ p.take (min b.Available p.length) } s).2.1.err =
                none) := by
            intro h
            exact hf ((Flush_err _ _).symm.trans h.2)
          rw [writeLoop_stops fuel _ _ _ herr] at he
          exact absurd ((Flush_err _ _).symm.trans he) hf
    · rw [writeLoop_stops _ _ _ _ hc] at he ⊢
      have he1 : b.err = none := he
      have : ¬ p.length > b.Available := fun h1 => hc ⟨h1, he1⟩
      show b.buf.length + p.length ≤ defaultBufSize
      unfold BufioWriter.Available at this
      omega

theorem Write_buffers (b : BufioWriter) (s : Stream) (p : Bytes) :
    Buffers b s (b.Write s p) p := by
  unfold Buffers
  rw [Write_eq]
  by_cases h : (BufioWriter.writeLoop 2 b s p).2.1.err ≠ none
  · rw [if_pos h]
    intro h1
    exact absurd h1 h
  · rw [if_neg h]
    have h0 : (BufioWriter.writeLoop 2 b s p).2.1.err = none := by simpa using h
    intro _ hb
    refine ⟨?_, ?_⟩
    · have := writeLoop_bound 2 b s p (Or.inl (Nat.le_refl 2)) hb h0
      simpa using this
    · intro hfit
      have hc : ¬ (p.length > b.Available ∧ b.err = none) := by
        unfold BufioWriter.Available
        intro hc
        omega
      rw [writeLoop_stops 2 b s p hc]
      exact ⟨rfl, rfl⟩

theorem WriteString_buffers (b : BufioWriter) (s : Stream) (p : Bytes) :
    Buffers b s (b.WriteString s p) p := by
  unfold Buffers
  rw [WriteString_eq]
  by_cases h : (BufioWriter.writeStringLoop (p.length + 2) b s p).2.1.err ≠ none
  · rw [if_pos h]
    intro h1
    exact absurd h1 h
  · rw [if_neg h]
    have h0 : (BufioWriter.writeStringLoop (p.length + 2) b s p).2.1.err = none := by
      simpa using h
    intro _ hb
    refine ⟨?_, ?_⟩
    · have := writeStringLoop_bound (p.length + 2) b s p (Or.inl (by omega)) hb h0
      simpa using this
    · intro hfit
      have hc : ¬ (p.length > b.Available ∧ b.err = none) := by
        unfold BufioWriter.Available
        intro hc
        omega
      rw [writeStringLoop_stops _ b s p hc]
      exact ⟨rfl, rfl⟩

theorem Buffers_seq {b : BufioWriter} {s : Stream} {r1 r2 : Option GoError × BufioWriter × Stream}
    {bs1 bs2 : Bytes} (h1 : Buffers b s r1 bs1) (h2 : Buffers r1.2.1 r1.2.2 r2 bs2) :
    Buffers b s (if r1.1 = none then r2 else r1) (bs1 ++ bs2) := by
  by_cases h : r1.1 = none
  · rw [if_pos h]
    intro hr hb
    obtain ⟨a1, a2⟩ := h1 h hb
    obtain ⟨c1, c2⟩ := h2 hr a1
    refine ⟨c1, ?_⟩
    intro hfit
    rw [List.length_append] at hfit
    obtain ⟨a3, a4⟩ := a2 (by omega)
    obtain ⟨c3, c4⟩ := c2 (by rw [a4, List.length_append]; omega)
    exact ⟨c3.trans a3, by rw [c4, a4, List.append_assoc]⟩
  · rw [if_neg h]
    intro hr
    exact absurd hr h

theorem Buffers_seqW {b : BufioWriter} {s : Stream} {r1 r2 : Option GoError × writer × Stream}
    {bs1 bs2 : Bytes} (h1 : Buffers b s (atWr r1) bs1)
    (h2 : Buffers r1.2.1.wr r1.2.2 (atWr r2) bs2) :
    Buffers b s (atWr (if r1.1 = none then r2 else r1)) (bs1 ++ bs2) := by
  by_cases h : r1.1 = none
  · rw [if_pos h]
    have := Buffers_seq h1 h2
    rw [if_pos (show (atWr r1).1 = none from h)] at this
    exact this
  · rw [if_neg h]
    intro hr
    exact absurd hr h

/-- For a Go length and the 32-byte scratch space, `writeLen` is one `Write` of
the length line. -/
theorem writeLen_atWr (w : writer) (s : Stream) (pfx : Nat) (n : Nat)
    (hw : w.lenScratch.length = 32) (hn : GoLen n) :
    atWr (w.writeLen s pfx (n : Int)) = w.wr.Write s (lenLine pfx n) := by
  rw [writeLen_eq, hw]
  have hd := decimal_length_GoLen hn
  have hpos : 0 < (decimal n).length := List.length_pos.mpr (decimal_ne_nil n)
  obtain ⟨h1, h2, h3⟩ := writeLenLoop_nat n 30 29 ((w.lenScratch.set 31 10).set 30 13)
    (by omega) (by omega) (by simp; omega)
  have e3 : ((32 : Nat) : Int) - 3 = ((29 : Nat) : Int) := by norm_num
  have e1 : (32 : Nat) - 2 = 30 := rfl
  have e2 : (32 : Nat) - 1 = 31 := rfl
  rw [e1, e2, e3, h1]
  have et : ((29 : Nat) : Int) - ((decimal n).length : Int) = ((29 - (decimal n).length : Nat) : Int) := by
    omega
  rw [et, Int.toNat_ofNat]
  have hb : (((writeLenLoop 30 ((w.lenScratch.set 31 10).set 30 13) ((29 : Nat) : Int) n).1.set
      (29 - (decimal n).length) pfx).drop (29 - (decimal n).length)) = lenLine pfx n := by
    rw [drop_set_self _ _ _ (by rw [h2]; simp; omega)]
    have e4 : 29 - (decimal n).length + 1 = 29 + 1 - (decimal n).length := by omega
    rw [e4, h3]
    have e5 : ((w.lenScratch.set 31 10).set 30 13).drop (29 + 1) = [13, 10] := by
      have h30 : (30 : Nat) < ((w.lenScratch.set 31 10).set 30 13).length := by simp; omega
      have := drop_set_self (w.lenScratch.set 31 10) 30 13 (by simp; omega)
      rw [this]
      have := drop_set_self w.lenScratch 31 10 (by omega)
      rw [this]
      have : w.lenScratch.drop 32 = [] := List.drop_eq_nil_of_le (by omega)
      rw [this]
    rw [e5]
    rfl
  rw [hb]
  rfl

theorem writeLen_buffers (w : writer) (s : Stream) (pfx : Nat) (n : Nat)
    (hw : w.lenScratch.length = 32) (hn : GoLen n) :
    Buffers w.wr s (atWr (w.writeLen s pfx (n : Int))) (lenLine pfx n) := by
  rw [writeLen_atWr w s pfx n hw hn]
  exact Write_buffers _ _ _

theorem writeString_buffers (w : writer) (s : Stream) (str : Bytes)
    (hw : w.lenScratch.length = 32) (hn : GoLen str.length) :
    Buffers w.wr s (atWr (w.writeString s str)) (bulk str) := by
  rw [writeString_atWr]
  have := Buffers_seq (writeLen_buffers w s 36 str.length hw hn)
    (Buffers_seq (WriteString_buffers (w.writeLen s 36 str.length).2.1.wr
      (w.writeLen s 36 str.length).2.2 str) (WriteString_buffers _ _ [13, 10]))
  simpa [bulk, List.append_assoc] using this

theorem writeBytes_buffers (w : writer) (s : Stream) (p : Bytes)
    (hw : w.lenScratch.length = 32) (hn : GoLen p.length) :
    Buffers w.wr s (atWr (w.writeBytes s p)) (bulk p) := by
  rw [writeBytes_atWr]
  have := Buffers_seq (writeLen_buffers w s 36 p.length hw hn)
    (Buffers_seq (Write_buffers (w.writeLen s 36 p.length).2.1.wr
      (w.writeLen s 36 p.length).2.2 p) (WriteString_buffers _ _ [13, 10]))
  simpa [bulk, List.append_assoc] using this

theorem writeArg_buffers (w : writer) (s : Stream) (a : Arg) (ok : Bool)
    (hw : w.lenScratch.length = 32) (hn : GoLen (argBytes a ok).length) :
    Buffers w.wr s (atWr (w.writeArg s a ok)) (bulk (argBytes a ok)) := by
  rcases writeArg_bulk w s a ok with h | h <;> rw [h]
  · exact writeBytes_buffers _ _ _ hw hn
  · exact writeString_buffers _ _ _ hw hn

theorem writeArgs_buffers : ∀ (args : List Arg) (w : writer) (s : Stream),
    w.lenScratch.length = 32 → (∀ a ∈ args, GoLen (argBytes a true).length) →
    Buffers w.wr s (atWr (w.writeArgs s args)) (bulks (args.map (fun a => argBytes a true))) := by
  intro args
  induction args with
  | nil =>
    intro w s _ _ _ hb
    exact ⟨hb, fun _ => ⟨rfl, by simp [writer.writeArgs, atWr, bulks]⟩⟩
  | cons a rest ih =>
    intro w s hw hn
    rw [writeArgs_atWr, atWr_ite]
    have ha := writeArg_buffers w s a true hw (hn a (by simp))
    have := Buffers_seq ha (ih (w.writeArg s a true).2.1 (w.writeArg s a true).2.2
      (by rw [writeArg_scratch, hw]) (fun x hx => hn x (by simp [hx])))
    simpa [bulks] using this

/-- The send buffer after a `writeCommand` that returns no error: it holds at
most its capacity, and when the frame of the command fits in the room that was
left, the frame has only been put after the bytes already buffered and nothing
has gone to the stream. -/
theorem writeCommand_buffers (w : writer) (s : Stream) (cmd : Bytes) (args : List Arg)
    (hw : w.lenScratch.length = 32) (hg : GoCommand cmd args) :
    Buffers w.wr s (atWr (w.writeCommand s cmd args)) (commandFrame cmd args) := by
  obtain ⟨g1, g2, g3⟩ := hg
  rw [writeCommand_eq]
  have h1 := writeLen_buffers w s 42 (1 + args.length) hw g1
  have hw1 := writeLen_scratch w s 42 ((1 + args.length : Nat) : Int)
  rw [hw] at hw1
  generalize w.writeLen s 42 ((1 + args.length : Nat) : Int) = r1 at h1 hw1 ⊢
  have h2 := writeString_buffers r1.2.1 r1.2.2 cmd hw1 g2
  have hw2 := writeString_scratch r1.2.1 r1.2.2 cmd
  rw [hw1] at hw2
  generalize r1.2.1.writeString r1.2.2 cmd = r2 at h2 hw2 ⊢
  have h3 := writeArgs_buffers args r2.2.1 r2.2.2 hw2 g3
  generalize r2.2.1.writeArgs r2.2.2 args = r3 at h3 ⊢
  have := Buffers_seqW h1 (Buffers_seqW h2 h3)
  simpa [commandFrame, bulks, List.append_assoc] using this

/-! ## C19: what a `Send` that succeeds has done -/

/-- A `Send` that returns nil: the write deadline step and `writeCommand` both
returned nil, and the connection differs from the one before only in `pending`,
the writer and the stream. -/
theorem Send_ok (c : quicConn) (cmd : Bytes) (args : List Arg)
    (h : (c.Send cmd args).1 = none) :
    c.afterWriteDeadline.1 = none ∧
    (c.bw.writeCommand c.afterWriteDeadline.2 cmd args).1 = none ∧
    (c.Send cmd args).2 =
      { c with pending := wrapInt (c.pending + 1),
               bw := (c.bw.writeCommand c.afterWriteDeadline.2 cmd args).2.1,
               stream := (c.bw.writeCommand c.afterWriteDeadline.2 cmd args).2.2 } := by
  unfold quicConn.Send at h ⊢
  unfold quicConn.afterWriteDeadline
  dsimp only at h ⊢
  rcases hd : (if c.writeTimeout ≠ 0 then c.stream.SetWriteDeadline else (none, c.stream))
    with ⟨e1, s1⟩
  rw [hd] at h
  cases e1 with
  | some e => simp [quicConn.failWith] at h
  | none =>
    dsimp only at h ⊢
    rcases hc : c.bw.writeCommand s1 cmd args with ⟨e2, w2, s2⟩
    rw [hc] at h
    cases e2 with
    | some e => simp [quicConn.failWith] at h
    | none => exact ⟨rfl, rfl, rfl⟩

theorem afterWriteDeadline_sent (c : quicConn) :
    sentBytes c.afterWriteDeadline.2.calls = sentBytes c.stream.calls := by
  unfold quicConn.afterWriteDeadline
  split
  · simp [Stream.SetWriteDeadline, sentBytes_append, sentBytes]
  · rfl

/-- A `Send` that returns nil for a command whose frame does not fit in the
room left in the send buffer has handed bytes to the stream. -/
theorem Send_overflow (c : quicConn) (cmd : Bytes) (args : List Arg)
    (hw : c.bw.lenScratch.length = 32) (hg : GoCommand cmd args)
    (hok : (c.Send cmd args).1 = none) (hcap : c.bw.wr.buf.length ≤ defaultBufSize)
    (hover : defaultBufSize < c.bw.wr.buf.length + (commandFrame cmd args).length) :
    sentBytes (c.Send cmd args).2.stream.calls ≠ sentBytes c.stream.calls := by
  obtain ⟨h1, h2, h3⟩ := Send_ok c cmd args hok
  have ha := writeCommand_appends c.bw c.afterWriteDeadline.2 cmd args hw hg h2
  have hb := (writeCommand_buffers c.bw c.afterWriteDeadline.2 cmd args hw hg h2 hcap).1
  rw [h3]
  dsimp only [atWr, pushed] at ha hb ⊢
  intro heq
  rw [heq, afterWriteDeadline_sent, List.append_assoc] at ha
  have := List.append_cancel_left ha
  rw [this, List.length_append] at hb
  omega

/-- A `Send` on a connection whose write deadline call (when one is made)
returns nil, whose buffered writer has no sticky error and whose stream accepts
every write returns nil. -/
theorem Send_accepting (c : quicConn) (cmd : Bytes) (args : List Arg)
    (hwd : c.writeTimeout = 0 ∨ (nextAnswer c.stream.writeDeadlines).1 = none)
    (hb : c.bw.wr.err = none) (hs : c.stream.writeLimit = none) :
    (c.Send cmd args).1 = none := by
  obtain ⟨s1, d1, d2, _, _⟩ := writeDeadline_ok c.writeTimeout c.stream hwd
  obtain ⟨a1, a2, a3⟩ := writeCommand_accepts c.bw s1 cmd args
  obtain ⟨a4, _⟩ := a3 hb (d2.trans hs)
  have hc : c.bw.writeCommand s1 cmd args =
      (none, (c.bw.writeCommand s1 cmd args).2.1, (c.bw.writeCommand s1 cmd args).2.2) :=
    Prod.ext a4 rfl
  unfold quicConn.Send
  dsimp only
  rw [d1]
  dsimp only
  rw [hc]

/-- C19 (counterexample).  On a fresh connection, `Send("SET", p)` with a `p` of
5000 bytes returns nil, and bytes have been written to the stream: the frame is
longer than the 4096 bytes of the send buffer, and `bufio.Writer` hands a full
buffer on to the stream. -/
theorem Send_writes_to_stream_counterexample :
    ((freshConn []).Send [83, 69, 84] [Arg.bytes (List.replicate 5000 65)]).1 = none ∧
    sentBytes (freshConn []).stream.calls = [] ∧
    sentBytes ((freshConn []).Send [83, 69, 84]
      [Arg.bytes (List.replicate 5000 65)]).2.stream.calls ≠ [] := by
  have key : ∀ p : Bytes, p.length = 5000 →
      ((freshConn []).Send [83, 69, 84] [Arg.bytes p]).1 = none ∧
      sentBytes ((freshConn []).Send [83, 69, 84] [Arg.bytes p]).2.stream.calls ≠ [] := by
    intro p hp
    have hok := Send_accepting (freshConn []) [83, 69, 84] [Arg.bytes p] (Or.inl rfl) rfl rfl
    have hg : GoCommand [83, 69, 84] [Arg.bytes p] := by
      refine ⟨by simp [GoLen], by decide, ?_⟩
      intro a ha
      simp only [List.mem_singleton] at ha
      subst ha
      show p.length < 2 ^ 63
      rw [hp]
      norm_num
    refine ⟨hok, ?_⟩
    exact Send_overflow (freshConn []) [83, 69, 84] [Arg.bytes p] (by decide) hg hok
      (by decide) (by
        have hl : p.length ≤ (commandFrame [83, 69, 84] [Arg.bytes p]).length := by
          simp [commandFrame, bulks, bulk, lenLine, argBytes]
          omega
        have hz : (freshConn []).bw.wr.buf.length = 0 := rfl
        rw [hz]
        unfold defaultBufSize
        omega)
  obtain ⟨k1, k2⟩ := key (List.replicate 5000 65) (List.length_replicate _ _)
  exact ⟨k1, rfl, k2⟩

/-- C19 (amended).  After a `Send` that returns nil, with the 32-byte scratch
space and Go lengths: `pending` is the Go `int` sum of `pending` and 1, one
higher when `pending` was a Go `int` below the largest one, and the terminal
error is as before; the write deadline call, made when a write timeout is configured, has
returned nil and the command has been written after it; the bytes handed to the
buffered writer are exactly the frame of the command; when the frame fits in
the room left in the 4096-byte send buffer, it has only been put after the
bytes already buffered and the stream has seen no call but the deadline call;
when it does not fit, bytes have been written to the stream. -/
theorem Send_success (c : quicConn) (cmd : Bytes) (args : List Arg)
    (hw : c.bw.lenScratch.length = 32) (hg : GoCommand cmd args)
    (hok : (c.Send cmd args).1 = none) :
    (c.Send cmd args).2.pending = wrapInt (c.pending + 1) ∧
    (-9223372036854775808 ≤ c.pending → c.pending < maxInt →
      (c.Send cmd args).2.pending = c.pending + 1) ∧
    (c.Send cmd args).2.err = c.err ∧
    (c.writeTimeout ≠ 0 →
      c.stream.SetWriteDeadline.1 = none ∧
      (c.Send cmd args).2.stream = (c.bw.writeCommand c.stream.SetWriteDeadline.2 cmd args).2.2) ∧
    (c.writeTimeout = 0 →
      (c.Send cmd args).2.stream = (c.bw.writeCommand c.stream cmd args).2.2) ∧
    pushed (c.Send cmd args).2.bw.wr (c.Send cmd args).2.stream =
      pushed c.bw.wr c.stream ++ commandFrame cmd args ∧
    (c.bw.wr.buf.length + (commandFrame cmd args).length ≤ defaultBufSize →
      (c.Send cmd args).2.bw.wr.buf = c.bw.wr.buf ++ commandFrame cmd args ∧
      (c.Send cmd args).2.stream.calls =
        c.stream.calls ++ (if c.writeTimeout ≠ 0 then [Call.SetWriteDeadline] else [])) ∧
    (c.bw.wr.buf.length ≤ defaultBufSize →
      defaultBufSize < c.bw.wr.buf.length + (commandFrame cmd args).length →
      sentBytes (c.Send cmd args).2.stream.calls ≠ sentBytes c.stream.calls) := by
  obtain ⟨h1, h2, h3⟩ := Send_ok c cmd args hok
  have ha := writeCommand_appends c.bw c.afterWriteDeadline.2 cmd args hw hg h2
  have hb := writeCommand_buffers c.bw c.afterWriteDeadline.2 cmd args hw hg h2
  refine ⟨Send_pending_wraps c cmd args, Send_pending c cmd args, by rw [h3], ?_, ?_, ?_, ?_,
    fun hcap hover => Send_overflow c cmd args hw hg hok hcap hover⟩
  · intro ht
    have e : c.afterWriteDeadline = c.stream.SetWriteDeadline := by
      unfold quicConn.afterWriteDeadline
      rw [if_pos ht]
    rw [e] at h1 h3
    exact ⟨h1, by rw [h3]⟩
  · intro ht
    have e : c.afterWriteDeadline = (none, c.stream) := by
      unfold quicConn.afterWriteDeadline
      rw [if_neg (by simpa using ht)]
    rw [e] at h3
    rw [h3]
  · rw [h3]
    dsimp only [atWr] at ha ⊢
    rw [ha]
    unfold pushed
    rw [afterWriteDeadline_sent]
  · intro hfit
    obtain ⟨b1, b2⟩ := (hb (by omega)).2 hfit
    rw [h3]
    dsimp only [atWr] at b1 b2 ⊢
    refine ⟨b2, ?_⟩
    rw [b1]
    unfold quicConn.afterWriteDeadline
    split <;> simp [Stream.SetWriteDeadline]

theorem Send_success_witness :
    (freshConn []).bw.lenScratch.length = 32 ∧ GoCommand [80, 73, 78, 71] [] ∧
    ((freshConn []).Send [80, 73, 78, 71] []).1 = none ∧
    ((freshConn []).Send [80, 73, 78, 71] []).2.pending = (freshConn []).pending + 1 ∧
    (freshConn []).bw.wr.buf.length + (commandFrame [80, 73, 78, 71] []).length ≤ defaultBufSize ∧
    ((freshConn []).Send [80, 73, 78, 71] []).2.bw.wr.buf =
      (freshConn []).bw.wr.buf ++ commandFrame [80, 73, 78, 71] [] :=
  ⟨by decide, by decide, by decide,
    (Send_success (freshConn []) [80, 73, 78, 71] [] (by decide) (by decide) (by decide)).2.1
      (by decide) (by decide),
    by decide,
    ((Send_success (freshConn []) [80, 73, 78, 71] [] (by decide) (by decide)
      (by decide)).2.2.2.2.2.2.1 (by decide)).1⟩

/-! ## C15: framing and order of the replies -/

theorem frame_length (v : Reply) : 3 ≤ v.frame.length := by
  cases v <;> simp [Reply.frame, bulk, lenLine] <;> omega

theorem readReplyFuel_status (fuel : Nat) (s rest : Bytes) (e : GoError) (h : (10 : Nat) ∉ s) :
    readReplyFuel (fuel + 1) { rd := { data := 43 :: s ++ 13 :: 10 :: rest, err := e } } =
      (Reply.string s, none, { rd := { data := rest, err := e } }) := by
  have h1 := readLine_crlf (43 :: s) rest e (by
    intro h2
    rcases List.mem_cons.mp h2 with h2 | h2
    · omega
    · exact h h2)
  rw [readReplyFuel, h1]
  by_cases h3 : s = [79, 75]
  · simp [h3, okReply]
  · by_cases h4 : s = [80, 79, 78, 71]
    · simp [h4, pongReply]
    · simp [h3, h4]

theorem readReplyFuel_error (fuel : Nat) (m rest : Bytes) (e : GoError) (h : (10 : Nat) ∉ m) :
    readReplyFuel (fuel + 1) { rd := { data := 45 :: m ++ 13 :: 10 :: rest, err := e } } =
      (Reply.Error m, none, { rd := { data := rest, err := e } }) := by
  have h1 := readLine_crlf (45 :: m) rest e (by
    intro h2
    rcases List.mem_cons.mp h2 with h2 | h2
    · omega
    · exact h h2)
  rw [readReplyFuel, h1]
  simp

/-- Decoding the frame of a well-formed value, and the frames of a list of
well-formed values, with fuel for the bytes of the frames: the value, or the
list, comes back and what follows the frames is left unread. -/
theorem readFrames : ∀ (fuel : Nat),
    (∀ (v : Reply) (rest : Bytes) (e : GoError), v.wellFormed = true → v.frame.length ≤ fuel →
      readReplyFuel fuel { rd := { data := v.frame ++ rest, err := e } } =
        (v, none, { rd := { data := rest, err := e } })) ∧
    (∀ (xs : List Reply) (rest : Bytes) (e : GoError), allWellFormed xs = true →
      (frames xs).length + 1 ≤ fuel →
      readElemsFuel fuel xs.length { rd := { data := frames xs ++ rest, err := e } } =
        (xs, none, { rd := { data := rest, err := e } })) := by
  intro fuel
  induction fuel with
  | zero =>
    refine ⟨?_, ?_⟩
    · intro v rest e _ hf
      have := frame_length v
      omega
    · intro xs rest e _ hf
      omega
  | succ f ih =>
    obtain ⟨ihA, ihB⟩ := ih
    refine ⟨?_, ?_⟩
    · intro v rest e hv hf
      cases v with
      | nil =>
        exact readReplyFuel_null _ _ _ 36 [45, 49] (-1)
          (readLine_crlf [36, 45, 49] rest e (by decide)) (Or.inl rfl) (by decide) (by decide)
      | string s =>
        have hs : (10 : Nat) ∉ s := by simpa [Reply.wellFormed] using hv
        have := readReplyFuel_status f s rest e hs
        simpa [Reply.frame] using this
      | Error m =>
        have hm : (10 : Nat) ∉ m := by simpa [Reply.wellFormed] using hv
        have := readReplyFuel_error f m rest e hm
        simpa [Reply.frame] using this
      | int64 n => simp [Reply.wellFormed] at hv
      | bytes p => exact readReplyFuel_bulk f p rest e
      | array xs =>
        have hx : allWellFormed xs = true := by simpa [Reply.wellFormed] using hv
        have hl : (frames xs).length + 4 ≤ f + 1 := by
          have hpos := List.length_pos.mpr (decimal_ne_nil xs.length)
          simp [Reply.frame, lenLine] at hf
          omega
        have h1 := readLine_crlf (42 :: decimal xs.length) (frames xs ++ rest) e
          (lenLine_no_lf 42 xs.length (by decide))
        have hd : (Reply.array xs).frame ++ rest =
            (42 :: decimal xs.length) ++ 13 :: 10 :: (frames xs ++ rest) := by
          simp [Reply.frame, lenLine]
        rw [hd, readReplyFuel_star f _ _ _ xs.length h1 (parseLen_decimal _),
          ihB xs rest e hx (by omega)]
    · intro xs rest e hx hf
      cases xs with
      | nil => simp [readElemsFuel, frames]
      | cons x xs =>
        have hx2 : x.wellFormed = true ∧ allWellFormed xs = true := by
          simpa [allWellFormed] using hx
        have h3 := frame_length x
        have hl : x.frame.length + (frames xs).length ≤ f := by
          simp [frames] at hf
          omega
        have hd : frames (x :: xs) ++ rest = x.frame ++ (frames xs ++ rest) := by
          simp [frames]
        rw [hd, List.length_cons, readElemsFuel, ihA x (frames xs ++ rest) e hx2.1 (by omega)]
        dsimp only
        rw [ihB xs rest e hx2.2 (by omega)]

theorem readReply_frame (v : Reply) (rest : Bytes) (e : GoError) (hv : v.wellFormed = true) :
    reader.readReply { rd := { data := v.frame ++ rest, err := e } } =
      (v, none, { rd := { data := rest, err := e } }) := by
  unfold reader.readReply
  exact (readFrames _).1 v rest e hv (by simp; omega)

theorem readReplies_frames : ∀ (vs : List Reply) (rest : Bytes) (e : GoError),
    allWellFormed vs = true →
    readReplies vs.length { rd := { data := frames vs ++ rest, err := e } } =
      (vs, none, { rd := { data := rest, err := e } }) := by
  intro vs
  induction vs with
  | nil => intro rest e _; rfl
  | cons v vs ih =>
    intro rest e hv
    have hv2 : v.wellFormed = true ∧ allWellFormed vs = true := by
      simpa [allWellFormed] using hv
    have hd : frames (v :: vs) ++ rest = v.frame ++ (frames vs ++ rest) := by
      simp [frames]
    rw [hd, List.length_cons, readReplies, readReply_frame v _ e hv2.1]
    dsimp only
    rw [ih rest e hv2.2]

theorem frames_bytes : ∀ (ps : List Bytes), frames (ps.map Reply.bytes) = bulks ps ∧
    allWellFormed (ps.map Reply.bytes) = true := by
  intro ps
  induction ps with
  | nil => exact ⟨rfl, rfl⟩
  | cons p ps ih =>
    refine ⟨?_, ?_⟩
    · simp [frames, Reply.frame, bulks, ih.1]
    · simp [allWellFormed, Reply.wellFormed, ih.2]

theorem commandReply_frame (cmd : Bytes) (args : List Arg) :
    (commandReply cmd args).frame = commandFrame cmd args ∧
    (commandReply cmd args).wellFormed = true := by
  unfold commandReply commandFrame
  refine ⟨?_, ?_⟩
  · rw [Reply.frame, (frames_bytes _).1]
    simp [Nat.add_comm]
  · rw [Reply.wellFormed, (frames_bytes _).2]

theorem sendFrames_frames : ∀ (cs : List (Bytes × List Arg)),
    frames (cs.map (fun t => commandReply t.1 t.2)) = sendFrames cs ∧
    allWellFormed (cs.map (fun t => commandReply t.1 t.2)) = true := by
  intro cs
  induction cs with
  | nil => exact ⟨rfl, rfl⟩
  | cons c cs ih =>
    refine ⟨?_, ?_⟩
    · simp [frames, sendFrames, (commandReply_frame c.1 c.2).1, ih.1]
    · simp [allWellFormed, (commandReply_frame c.1 c.2).2, ih.2]

/-- C15.  For every finite list `vs` of well-formed reply values (simple
strings and error messages without `'\\n'`, bulk strings, "no data", arrays of
these nested to any depth), `len(vs)` successive `readReply` calls on the
frames of `vs` put one after the other return the values of `vs` in order and
leave what follows the frames; each single call returns its value and leaves
every byte after its frame unread.  In particular the frames of the commands
`cs` decode to one array per command, in order, holding the name and the byte
forms of the arguments: three byte strings for a `Send` of three strings. -/
theorem readReply_frames_in_order (vs : List Reply) (rest : Bytes) (e : GoError)
    (hv : allWellFormed vs = true) (cs : List (Bytes × List Arg)) (a b c : Bytes) :
    readReplies vs.length { rd := { data := frames vs ++ rest, err := e } } =
      (vs, none, { rd := { data := rest, err := e } }) ∧
    (∀ (v : Reply) (after : Bytes), v.wellFormed = true →
      reader.readReply { rd := { data := v.frame ++ after, err := e } } =
        (v, none, { rd := { data := after, err := e } })) ∧
    readReplies cs.length { rd := { data := sendFrames cs ++ rest, err := e } } =
      (cs.map (fun t => commandReply t.1 t.2), none, { rd := { data := rest, err := e } }) ∧
    commandReply a [Arg.string b, Arg.string c] =
      Reply.array [Reply.bytes a, Reply.bytes b, Reply.bytes c] := by
  refine ⟨readReplies_frames vs rest e hv, fun v after h => readReply_frame v after e h, ?_, rfl⟩
  have := readReplies_frames (cs.map (fun t => commandReply t.1 t.2)) rest e
    (sendFrames_frames cs).2
  rw [(sendFrames_frames cs).1, List.length_map] at this
  exact this

theorem readReply_frames_in_order_witness :
    allWellFormed [Reply.string [79, 75], Reply.array [Reply.nil, Reply.array [Reply.bytes [13, 10]]],
      Reply.Error [69]] = true ∧
    readReplies 3 (readerOf (frames [Reply.string [79, 75],
      Reply.array [Reply.nil, Reply.array [Reply.bytes [13, 10]]], Reply.Error [69]] ++ [43])) =
      ([Reply.string [79, 75], Reply.array [Reply.nil, Reply.array [Reply.bytes [13, 10]]],
        Reply.Error [69]], none, readerOf [43]) :=
  ⟨by decide,
    (readReply_frames_in_order [Reply.string [79, 75],
      Reply.array [Reply.nil, Reply.array [Reply.bytes [13, 10]]], Reply.Error [69]] [43]
      GoError.EOF (by decide) [] [] [] []).1⟩

end Redigo
